import Mathlib

/-! Orion: a shallow embedding of the directory-listing modules and of the
module engine.

Go strings are embedded as Lean strings, a Go `error` as `Option String`
(`none` is `nil`), a Go pair `(v, err)` as a Lean pair, a Go `int` as `Int`
(64-bit platforms; no computation on it here leaves the range), a `uint64`
as `Nat` with the wrap-around written out as `% 2 ^ 64`, a panic as the
result `none` of an `Option`, or as `Outcome.panicked`.
The operating system, the digest functions and the outcomes of the output
operations are parameters of the embedding; the third-party directory
walker is modelled on a file-system tree.
-/

set_option autoImplicit false

/-- A Go `error` value: `none` is `nil`, `some msg` is an error whose text is `msg`. -/
abbrev error := Option String

/-! ## Go standard library: `strings`, `strconv`, `fmt` -/

namespace strings

/-- Go `strings.HasSuffix(s, suffix)`:
`len(s) >= len(suffix) && s[len(s)-len(suffix):] == suffix`. -/
def HasSuffix (s suffix : String) : Bool :=
  decide (suffix.data.length ≤ s.data.length) &&
    decide (s.data.drop (s.data.length - suffix.data.length) = suffix.data)

/-- The pieces of `cs` between the occurrences of the separator `sep`. -/
def splitChars (sep : Char) : List Char → List (List Char)
  | [] => [[]]
  | c :: cs =>
    if c = sep then [] :: splitChars sep cs
    else
      match splitChars sep cs with
      | [] => [[c]]
      | seg :: rest => (c :: seg) :: rest

/-- Go `strings.Split(s, sep)` for a separator of one character (the only
separators the sources use: "." and "/"): the substrings between the
occurrences of `sep`; a string without `sep` gives the one-element list `[s]`. -/
def Split (s : String) (sep : Char) : List String :=
  (splitChars sep s.data).map String.mk

/-- The last of the pieces of `cs` between the occurrences of `sep`: the
text after the last `sep`, and the whole of `cs` when it has none. -/
def lastPiece (sep : Char) (cs : List Char) : List Char :=
  ((splitChars sep cs).getLast?).getD []

/-- Whether `sub` occurs in the list at some position. -/
def containsChars (sub : List Char) : List Char → Bool
  | [] => sub.isEmpty
  | c :: cs => sub.isPrefixOf (c :: cs) || containsChars sub cs

/-- Go `strings.Contains(s, substr)`: whether `substr` occurs within `s`. -/
def Contains (s substr : String) : Bool := containsChars substr.data s.data


/-- Go `strings.Join(elems, sep)`: the elements with `sep` between them. -/
def Join (elems : List String) (sep : String) : String :=
  match elems with
  | [] => ""
  | e :: rest => rest.foldl (fun acc x => acc ++ sep ++ x) e

end strings

namespace strconv

/-- The value of a decimal digit character, `none` for any other character. -/
def digitVal (c : Char) : Option Nat :=
  if 48 ≤ c.toNat ∧ c.toNat ≤ 57 then some (c.toNat - 48) else none

/-- The number denoted by a list of decimal digits read after the value `acc`;
`none` when a character is not a digit. -/
def parseDigits : List Char → Nat → Option Nat
  | [], acc => some acc
  | c :: cs, acc =>
    match digitVal c with
    | none => none
    | some d => parseDigits cs (acc * 10 + d)

/-- The largest value of a Go `int` on a 64-bit platform. -/
def maxInt : Int := 2 ^ 63 - 1

/-- The smallest value of a Go `int` on a 64-bit platform. -/
def minInt : Int := -(2 ^ 63)

/-- The optional leading sign of a number: whether it is "-", and the rest. -/
def splitSign : List Char → Bool × List Char
  | '-' :: rest => (true, rest)
  | '+' :: rest => (false, rest)
  | cs => (false, cs)

/-- Go `strconv.Atoi(s)` on a 64-bit platform: an optional sign followed by at
least one decimal digit. A syntax error gives `(0, err)`; a value outside the
`int` range gives the nearest bound and a range error. -/
def Atoi (s : String) : Int × error :=
  let syntaxErr : Int × error := (0, some ("strconv.Atoi: parsing \x22" ++ s ++ "\x22: invalid syntax"))
  let rangeErr : error := some ("strconv.Atoi: parsing \x22" ++ s ++ "\x22: value out of range")
  let neg := (splitSign s.data).1
  let digits := (splitSign s.data).2
  match digits with
  | [] => syntaxErr
  | _ :: _ =>
    match parseDigits digits 0 with
    | none => syntaxErr
    | some n =>
      if neg then
        if -(n : Int) < minInt then (minInt, rangeErr) else (-(n : Int), none)
      else
        if maxInt < (n : Int) then (maxInt, rangeErr) else ((n : Int), none)

/-- Go `strconv.FormatInt(i, 10)` / `strconv.Itoa(i)`: the decimal rendering. -/
def FormatInt (i : Int) : String :=
  match i with
  | Int.ofNat n => Nat.repr n
  | Int.negSucc n => "-" ++ Nat.repr (n + 1)


/-- The largest value of a Go `uint64`. -/
def maxUint64 : Nat := 2 ^ 64 - 1

/-- The loop of `strconv.ParseUint(s, 10, 64)` over the bytes of `s` after
the value `n`: a byte that is not a decimal digit is a syntax error; a value
that leaves the range of `uint64` ends the loop with the largest value and a
range error. -/
def parseUintLoop (s : String) : List Char → Nat → Nat × error
  | [], n => (n, none)
  | c :: cs, n =>
    match digitVal c with
    | none => (0, some ("strconv.ParseUint: parsing \x22" ++ s ++ "\x22: invalid syntax"))
    | some d =>
      if n ≥ maxUint64 / 10 + 1 then
        (maxUint64, some ("strconv.ParseUint: parsing \x22" ++ s ++ "\x22: value out of range"))
      else if n * 10 + d > maxUint64 then
        (maxUint64, some ("strconv.ParseUint: parsing \x22" ++ s ++ "\x22: value out of range"))
      else parseUintLoop s cs (n * 10 + d)

/-- Go `strconv.ParseUint(s, 10, 64)`: one or more decimal digits, without
sign. -/
def ParseUint (s : String) : Nat × error :=
  if s = "" then (0, some ("strconv.ParseUint: parsing \x22" ++ s ++ "\x22: invalid syntax"))
  else parseUintLoop s s.data 0

end strconv

namespace fmt

/-- The lower-case hexadecimal digit of a value below sixteen. -/
def hexDigit (n : Nat) : Char :=
  if n < 10 then Char.ofNat (48 + n) else Char.ofNat (87 + n)

/-- Go `fmt.Sprintf("%x", b)` for a byte slice `b`: two lower-case hexadecimal
digits per byte. -/
def sprintfHex (b : List Nat) : String :=
  String.mk (b.flatMap fun x => [hexDigit (x % 256 / 16), hexDigit (x % 16)])

end fmt

/-! ## Go standard library: `time` -/

namespace time

/-- The year, month and day of the day `z0` after 1970-01-01 in the
proleptic Gregorian calendar (every fourth year is a leap year, except the
years divisible by 100 and not by 400), counted in eras of 400 years that
start on the first of March. -/
def civilFromDays (z0 : Int) : Int × Int × Int :=
  let z := z0 + 719468
  let era := z / 146097
  let doe := z - era * 146097
  let yoe := (doe - doe / 1460 + doe / 36524 - doe / 146096) / 365
  let y := yoe + era * 400
  let doy := doe - (365 * yoe + yoe / 4 - yoe / 100)
  let mp := (5 * doy + 2) / 153
  let d := doy - (153 * mp + 2) / 5 + 1
  let m := if mp < 10 then mp + 3 else mp - 9
  (if m ≤ 2 then y + 1 else y, m, d)

/-- The decimal digits of `x`, with zeros on the left up to `width` digits
and a minus sign before them when `x` is negative (how `Format` writes a
year, a month, a day, an hour, a minute and a second). -/
def appendInt (x : Int) (width : Nat) : String :=
  (if x < 0 then "-" else "") ++
    String.mk (List.replicate (width - (Nat.repr x.natAbs).length) '0') ++ Nat.repr x.natAbs

/-- Go `time.Unix(sec, nsec).UTC().Format(time.RFC3339)` for a `nsec` from 0
to 999999999: the date and the time of day of the second `sec` after
1970-01-01T00:00:00Z; the layout has no fraction of a second. -/
def formatRFC3339 (sec : Int) : String :=
  let days := sec / 86400
  let rem := sec % 86400
  let date := civilFromDays days
  appendInt date.1 4 ++ "-" ++ appendInt date.2.1 2 ++ "-" ++ appendInt date.2.2 2 ++ "T" ++
    appendInt (rem / 3600) 2 ++ ":" ++ appendInt (rem % 3600 / 60) 2 ++ ":" ++
    appendInt (rem % 60) 2 ++ "Z"

end time

/-! ## `util/parse.go` -/

namespace util

/-- Go `util.FileExtension`:
`segments := strings.Split(filepath, "."); return segments[len(segments)-1]`.
The index is in range because `strings.Split` never returns an empty slice. -/
def FileExtension (filepath : String) : String :=
  let segments := strings.Split filepath '.'
  segments.get ⟨segments.length - 1, by
    have h : ∀ cs : List Char, 0 < (strings.splitChars '.' cs).length := by
      intro cs
      cases cs with
      | nil => simp [strings.splitChars]
      | cons c cs =>
        simp only [strings.splitChars]
        split
        · simp
        · split <;> simp
    have h2 : 0 < segments.length := by
      simpa [segments, strings.Split] using h filepath.data
    omega⟩

/-- The extension of a file as the specification words it, for the path
separator `sep`: the text after the last "." of the final path component,
without the dot, and the empty string when the final component contains no
".". This definition follows the specification, not a source function; it is
the value `FileExtension` is compared with. -/
def specFileExtension (sep : Char) (filepath : String) : String :=
  let name := strings.lastPiece sep filepath.data
  if '.' ∈ name then String.mk (strings.lastPiece '.' name) else ""


/-- Go `util.SliceContainsString(slice, str)`: for each item in order, the
test `str == item`, then the test `strings.Contains(item, str)`. -/
def SliceContainsString : List String → String → Bool
  | [], _ => false
  | item :: rest, str =>
    if str = item then true
    else if strings.Contains item str then true
    else SliceContainsString rest str

/-- A Go `map[string]string`: finitely many bindings with distinct keys. -/
structure StringMap where
  bindings : List (String × String)
  distinct : (bindings.map Prod.fst).Nodup

/-- Go `len(m)`. -/
def StringMap.len (m : StringMap) : Nat := m.bindings.length

/-- Go `m[k]`: the value bound to `k`, the zero value "" when there is none. -/
def StringMap.get (m : StringMap) (k : String) : String := (m.bindings.lookup k).getD ""

/-- Go `util.EntryFromMap(m, headers)`. -/
def EntryFromMap (m : StringMap) (headers : List String) : List String × error :=
  if headers.length = 0 then
    ([], some "EntryFromMap - size of input headers is = 0")
  else if m.len = 0 then
    ([], some "EntryFromMap - size of input map is = 0")
  else if m.len ≠ headers.length then
    ([], some ("EntryFromMap - size of map [" ++ strconv.FormatInt m.len ++
      "] does not match size of headers [" ++ strconv.FormatInt headers.length ++ "]"))
  else (headers.map fun h => m.get h, none)

/-- The loop of `indexInStringSlice` from the index `i` on. -/
def indexInStringSliceFrom (substr : String) : List String → Nat → Int
  | [], _ => -1
  | x :: rest, i => if x = substr then (i : Int) else indexInStringSliceFrom substr rest (i + 1)

/-- Go `indexInStringSlice(s, substr)`: the first index `i` with
`s[i] == substr`, and -1 when there is none. -/
def indexInStringSlice (s : List String) (substr : String) : Int :=
  indexInStringSliceFrom substr s 0

/-- Go `reverseStringSlice(s)`: a copy `a` of `s` on which the loop
`for i := len(a)/2 - 1; i >= 0; i--` swaps `a[i]` and `a[len(a)-1-i]`. -/
def reverseStringSlice (s : List String) : List String :=
  (List.range (s.length / 2)).reverse.foldl
    (fun a i =>
      let opp := s.length - 1 - i
      (a.set i (a.getD opp "")).set opp (a.getD i ""))
    s

/-- Go `util.GetUsernameFromPath(path)`; `none` when the index expression
`userpath[userindex]` panics. -/
def GetUsernameFromPath (path : String) : Option String :=
  let userpath := strings.Split path '/'
  if strings.Contains path "Users" then
    let revuserpath := reverseStringSlice userpath
    let userindex : Int :=
      (userpath.length : Int) - 1 - indexInStringSlice revuserpath "Users" + 1
    if userindex < 0 then none else userpath[userindex.toNat]?
  else if strings.Contains path "private/var" then
    let revuserpath := reverseStringSlice userpath
    let userindex : Int :=
      (userpath.length : Int) - 1 - indexInStringSlice revuserpath "var" + 1
    if userindex < 0 then none else userpath[userindex.toNat]?
  else some "ERROR"

/-- Go `chromeEpoch`, the microseconds from 1601-01-01 to 1970-01-01. -/
def chromeEpoch : Nat := 11644473600000000

/-- Go `msToS`, the microseconds of a second. -/
def msToS : Nat := 1000000

/-- The value handed to `ChromeTime` as `interface{}`: a string, a `uint64`,
or a value of another type, given by its text. -/
inductive ChromeValue
  | string (v : String)
  | uint64 (v : Nat)
  | other (text : String)
  deriving Repr, DecidableEq

/-- Go `int64(x)` for a `uint64` value `x`: the same 64 bits read as a signed
number. -/
def toInt64 (x : Nat) : Int :=
  if x % 2 ^ 64 < 2 ^ 63 then ((x % 2 ^ 64 : Nat) : Int) else ((x % 2 ^ 64 : Nat) : Int) - 2 ^ 64

/-- Go `int64(t-chromeEpoch)/msToS` for a `uint64` value `t`: the subtraction
wraps around modulo 2^64, the division of the signed value truncates
toward zero. -/
def chromeSeconds (t : Nat) : Int :=
  Int.tdiv (toInt64 ((t % 2 ^ 64 + 2 ^ 64 - chromeEpoch) % 2 ^ 64)) msToS

/-- Go `util.ChromeTime(chrometime)`. The second argument of `time.Unix`,
`int64(t%msToS)`, is below a million nanoseconds and does not change the
second. -/
def ChromeTime (chrometime : ChromeValue) : String × error :=
  match chrometime with
  | .string v =>
    if v ≠ "" ∧ v ≠ "0" then
      match strconv.ParseUint v with
      | (_, some err) => ("ERROR", some err)
      | (t, none) => (time.formatRFC3339 (chromeSeconds t), none)
    else if v = "" ∨ v = "0" then ("", none)
    else ("", some ("could not parse chrome time " ++ v))
  | .uint64 v =>
    if v ≠ 0 then (time.formatRFC3339 (chromeSeconds v), none)
    else if v = 0 then ("", none)
    else ("", some ("could not parse chrome time " ++ Nat.repr v))
  | .other text => ("", some ("could not parse chrome time " ++ text))

end util

/-! ## `configs/configparser.go` -/

namespace configs

/-- Go `configs.MacConfig`. -/
structure MacConfig where
  ForensicMode : Bool
  Verbose : Bool
  Modules : List String
  DirlistExcludedDirs : List String
  DirlistExcludedExts : List String
  DirlistRootWalkDir : String
  DirlistHashSizeLimitBytes : Int
  DirlistDoHashMD5 : Bool
  DirlistDoHashSHA256 : Bool
  deriving Repr, DecidableEq

/-- Go `configs.WindowsConfig`. -/
structure WindowsConfig where
  ForensicMode : Bool
  Verbose : Bool
  Modules : List String
  DirlistExcludedDrives : List String
  DirlistExcludedDirs : List String
  DirlistExcludedExts : List String
  DirlistRootWalkDir : String
  DirlistHashSizeLimitBytes : Int
  DirlistDoHashMD5 : Bool
  DirlistDoHashSHA256 : Bool
  deriving Repr, DecidableEq

/-- Go `configs.Config`. -/
structure Config where
  configpath : String
  macconfig : MacConfig
  macconfigbool : Bool
  windowsconfig : WindowsConfig
  windowsconfigbool : Bool
  deriving Repr, DecidableEq

/-- Go `Config.GetConfigType`. -/
def Config.GetConfigType (conf : Config) : String :=
  if conf.macconfigbool then "mac"
  else if conf.windowsconfigbool then "windows"
  else ""

/-- Go `math.MaxInt64`. -/
def MaxInt64 : Int := 2 ^ 63 - 1

/-- Go `Config.GetModulesToExecute`. -/
def Config.GetModulesToExecute (conf : Config) : List String × error :=
  if conf.GetConfigType = "mac" then (conf.macconfig.Modules, none)
  else if conf.GetConfigType = "windows" then (conf.windowsconfig.Modules, none)
  else ([], some ("cannot get modules for config of type " ++ conf.GetConfigType))

/-- Go `Config.GetDirlistRootWalkDir`. -/
def Config.GetDirlistRootWalkDir (conf : Config) : String × error :=
  if conf.GetConfigType = "mac" then (conf.macconfig.DirlistRootWalkDir, none)
  else if conf.GetConfigType = "windows" then (conf.windowsconfig.DirlistRootWalkDir, none)
  else ("", some ("could not read dirlist root walk dir key for config of type " ++ conf.GetConfigType))

/-- Go `Config.IsForensicMode`. -/
def Config.IsForensicMode (conf : Config) : Bool × error :=
  if conf.GetConfigType = "mac" then (conf.macconfig.ForensicMode, none)
  else if conf.GetConfigType = "windows" then (conf.windowsconfig.ForensicMode, none)
  else (true, some ("could not read forensicMode key for config of type " ++ conf.GetConfigType))

/-- Go `Config.GetDirlistExcludedDrives`. -/
def Config.GetDirlistExcludedDrives (conf : Config) : List String × error :=
  if conf.GetConfigType = "windows" then (conf.windowsconfig.DirlistExcludedDrives, none)
  else ([], some ("could not read dirlist excluded drives key for config of type " ++ conf.GetConfigType))

/-- Go `Config.GetDirlistExcludedDirs`. -/
def Config.GetDirlistExcludedDirs (conf : Config) : List String × error :=
  if conf.GetConfigType = "mac" then (conf.macconfig.DirlistExcludedDirs, none)
  else if conf.GetConfigType = "windows" then (conf.windowsconfig.DirlistExcludedDirs, none)
  else ([], some ("could not read dirlist excluded dirs key for config of type " ++ conf.GetConfigType))

/-- Go `Config.GetDirlistExcludedExts`. -/
def Config.GetDirlistExcludedExts (conf : Config) : List String × error :=
  if conf.GetConfigType = "mac" then (conf.macconfig.DirlistExcludedExts, none)
  else if conf.GetConfigType = "windows" then (conf.windowsconfig.DirlistExcludedExts, none)
  else ([], some ("could not read dirlist excluded exts key for config of type " ++ conf.GetConfigType))

/-- Go `Config.GetDirlistHashSizeLimitBytes`. -/
def Config.GetDirlistHashSizeLimitBytes (conf : Config) : Int × error :=
  if conf.GetConfigType = "mac" then (conf.macconfig.DirlistHashSizeLimitBytes, none)
  else if conf.GetConfigType = "windows" then (conf.windowsconfig.DirlistHashSizeLimitBytes, none)
  else (MaxInt64, some ("could not read dirlist hash size limit key for config of type " ++ conf.GetConfigType))

/-- Go `Config.GetDirlistDoHashMD5`. -/
def Config.GetDirlistDoHashMD5 (conf : Config) : Bool × error :=
  if conf.GetConfigType = "mac" then (conf.macconfig.DirlistDoHashMD5, none)
  else if conf.GetConfigType = "windows" then (conf.windowsconfig.DirlistDoHashMD5, none)
  else (true, some ("could not read dirlist md5hash key for config of type " ++ conf.GetConfigType))

/-- Go `Config.GetDirlistDohashSHA256`. -/
def Config.GetDirlistDohashSHA256 (conf : Config) : Bool × error :=
  if conf.GetConfigType = "mac" then (conf.macconfig.DirlistDoHashSHA256, none)
  else if conf.GetConfigType = "windows" then (conf.windowsconfig.DirlistDoHashSHA256, none)
  else (true, some ("could not read dirlist sha256hash key for config of type " ++ conf.GetConfigType))

/-- Go `Config.IsVerbose`; as in the source, both branches read the
`ForensicMode` field. -/
def Config.IsVerbose (conf : Config) : Bool × error :=
  if conf.GetConfigType = "mac" then (conf.macconfig.ForensicMode, none)
  else if conf.GetConfigType = "windows" then (conf.windowsconfig.ForensicMode, none)
  else (true, some ("could not read verbose key for config of type " ++ conf.GetConfigType))


/-- The zero value `MacConfig{}`. -/
def MacConfig.zero : MacConfig := ⟨false, false, [], [], [], "", 0, false, false⟩

/-- The zero value `WindowsConfig{}`. -/
def WindowsConfig.zero : WindowsConfig := ⟨false, false, [], [], [], [], "", 0, false, false⟩

/-- The zero value `Config{}`. -/
def Config.zero : Config := ⟨"", MacConfig.zero, false, WindowsConfig.zero, false⟩

/-- The outcome of `toml.DecodeFile(path, &tomlConf)` (third-party library)
for a target of type `MacConfig` and of type `WindowsConfig`: the value
decoded into the target and the error. -/
structure Toml where
  DecodeMac : String → MacConfig × error
  DecodeWindows : String → WindowsConfig × error

/-- Go `initConfig(configpath, mode)`; the text of the last error is that of
`configTypeError.Error`, which formats the string `arg` with `%d`. -/
def initConfig (configpath mode : String) : Config × error :=
  if configpath = "" then
    (Config.zero, some "configparser: empty filepath for config provided")
  else if mode = "mac" then
    ({ Config.zero with macconfigbool := true, macconfig := MacConfig.zero,
                        configpath := configpath }, none)
  else if mode = "windows" then
    ({ Config.zero with windowsconfigbool := true, windowsconfig := WindowsConfig.zero,
                        configpath := configpath }, none)
  else
    (Config.zero, some ("%!d(string=" ++ mode ++ ") - - Orion cannot use this config type."))

/-- Go `parseMacConfig(conf)`: the assignments copy eight fields of the
decoded value; `DirlistRootWalkDir` is not among them. -/
def parseMacConfig (toml : Toml) (conf : Config) : Config × error :=
  match toml.DecodeMac conf.configpath with
  | (_, some err) => (conf, some err)
  | (tomlConf, none) =>
    ({ conf with
        macconfig :=
          { conf.macconfig with
            ForensicMode := tomlConf.ForensicMode
            Verbose := tomlConf.Verbose
            Modules := tomlConf.Modules
            DirlistExcludedDirs := tomlConf.DirlistExcludedDirs
            DirlistExcludedExts := tomlConf.DirlistExcludedExts
            DirlistDoHashMD5 := tomlConf.DirlistDoHashMD5
            DirlistDoHashSHA256 := tomlConf.DirlistDoHashSHA256
            DirlistHashSizeLimitBytes := tomlConf.DirlistHashSizeLimitBytes } }, none)

/-- Go `parseWindowsConfig(conf)`: the assignments copy nine fields of the
decoded value; `DirlistRootWalkDir` is not among them. -/
def parseWindowsConfig (toml : Toml) (conf : Config) : Config × error :=
  match toml.DecodeWindows conf.configpath with
  | (_, some err) => (conf, some err)
  | (tomlConf, none) =>
    ({ conf with
        windowsconfig :=
          { conf.windowsconfig with
            ForensicMode := tomlConf.ForensicMode
            Verbose := tomlConf.Verbose
            Modules := tomlConf.Modules
            DirlistExcludedDirs := tomlConf.DirlistExcludedDirs
            DirlistExcludedExts := tomlConf.DirlistExcludedExts
            DirlistDoHashMD5 := tomlConf.DirlistDoHashMD5
            DirlistDoHashSHA256 := tomlConf.DirlistDoHashSHA256
            DirlistHashSizeLimitBytes := tomlConf.DirlistHashSizeLimitBytes
            DirlistExcludedDrives := tomlConf.DirlistExcludedDrives } }, none)

/-- Go `configs.Parse(configpath, mode)`. -/
def Parse (toml : Toml) (configpath mode : String) : Config × error :=
  let (conf, err) := initConfig configpath mode
  if conf.configpath = "" then
    (Config.zero, some "configparser: struct has empty filepath for config")
  else
    match err with
    | some e => (conf, some e)
    | none =>
      if conf.GetConfigType = "mac" then
        match parseMacConfig toml conf with
        | (conf, some err) => (conf, some err)
        | (conf, none) => (conf, none)
      else if conf.GetConfigType = "windows" then
        match parseWindowsConfig toml conf with
        | (conf, some err) => (conf, some err)
        | (conf, none) => (conf, none)
      else (conf, some "configparser: syntax error in given config file")

end configs

/-! ## `instance/instance.go` -/

namespace orioninstance

/-- Go `instance.Instance` (the logger and the log file are left out: logging
is recorded in the result of the functions that log). -/
structure Instance where
  orionconfig : configs.Config
  orionruntime : String
  noMultithreading : Bool
  outputformat : String
  outputpath : String
  targetpath : String
  forensicMode : Bool
  mode : String
  deriving Repr, DecidableEq

def Instance.GetOrionConfig (i : Instance) : configs.Config := i.orionconfig
def Instance.GetOrionRuntime (i : Instance) : String := i.orionruntime
def Instance.GetOrionOutputFormat (i : Instance) : String := i.outputformat
def Instance.GetOrionOutputFilepath (i : Instance) : String := i.outputpath
def Instance.NoMultithreading (i : Instance) : Bool := i.noMultithreading
def Instance.ForensicMode (i : Instance) : Bool := i.forensicMode
def Instance.GetTargetPath (i : Instance) : String := i.targetpath

end orioninstance

/-! ## The operating system, as seen by the directory-listing modules -/

namespace os

/-- The file types `os.FileMode` distinguishes in `FileMetadata`. -/
inductive FileMode
  | regular | dir | symlink | namedPipe | other
  deriving Repr, DecidableEq

/-- What `os.Lstat` reports: the mode, the size (an `int64`) and, when
`Sys()` is a `*syscall.Stat_t`, the owner and group identifiers. -/
structure FileInfo where
  mode : FileMode
  size : Int
  owner : Option (Nat × Nat)
  deriving Repr, DecidableEq

/-- What `times.Stat` reports, each time already rendered by `UTC().String()`;
the change and birth times are absent on platforms that do not have them. -/
structure Timespec where
  modTime : String
  accessTime : String
  changeTime : Option String
  birthTime : Option String
  deriving Repr, DecidableEq

/-- The system calls and library functions the modules use, as functions of
the path: each call either fails with its error text or succeeds. -/
structure System where
  /-- Go `os.Lstat`. -/
  Lstat : String → Except String FileInfo
  /-- Go `times.Stat`. -/
  timesStat : String → Except String Timespec
  /-- Go `os.Open` followed by `io.Copy` of the whole file: the bytes read, or
  the error of the first call that failed. -/
  readAll : String → Except String (List Nat)
  /-- Go `machelpers.ReadXAttr(path, attribute)`. -/
  ReadXAttr : String → String → Except String (List Nat)
  /-- Go `sha256.New()` fed with the bytes, then `Sum(nil)`. -/
  sha256Sum : List Nat → List Nat
  /-- Go `md5.New()` fed with the bytes, then `Sum(nil)`. -/
  md5Sum : List Nat → List Nat
  /-- Go `filepath.Base`. -/
  Base : String → String
  /-- Go `filepath.Join` of two elements. -/
  Join : String → String → String
  /-- Go `filepath.Glob`; its error is dropped at every call site modelled here. -/
  Glob : String → List String
  /-- Go `os.Getuid()`. -/
  Getuid : Nat
  /-- Go `os.Getgid()`. -/
  Getgid : Nat
  /-- The Win32 call `GetLogicalDrives` through `syscall.Syscall`: the returned
  word and the error number (zero when the call succeeded). -/
  GetLogicalDrives : Nat × Nat

end os

/-! ## `util/machelpers/macmetadata.go`, `util/windowshelpers/metadata_windows.go` -/

/-- The `map[string]string` built by `FileMetadata`: it always has exactly
these ten keys. -/
structure Metadata where
  mode : String
  size : String
  uid : String
  gid : String
  mtime : String
  atime : String
  ctime : String
  btime : String
  path : String
  name : String
  deriving Repr, DecidableEq

/-- The map `FileMetadata` starts from: every key is "NO VALUE". -/
def Metadata.noValue : Metadata :=
  ⟨"NO VALUE", "NO VALUE", "NO VALUE", "NO VALUE", "NO VALUE",
   "NO VALUE", "NO VALUE", "NO VALUE", "NO VALUE", "NO VALUE"⟩

/-- The text `FileMetadata` stores under "mode". -/
def modeText : os.FileMode → String
  | .regular => "Regular File"
  | .dir => "Directory"
  | .symlink => "Symbolic Link"
  | .namedPipe => "Named Pipe"
  | .other => "NO VALUE"

namespace machelpers

/-- Go `machelpers.FileMetadata(fp, modulename)`. -/
def FileMetadata (sys : os.System) (fp : String) : Metadata × error :=
  match sys.Lstat fp with
  | .error e => (Metadata.noValue, some ("Could not get metadata for " ++ fp ++ ": " ++ e))
  | .ok stat =>
    match sys.timesStat fp with
    | .error e => (Metadata.noValue, some ("Could not get time metadata for " ++ fp ++ ": " ++ e))
    | .ok timestat =>
      let (UID, GID) : Nat × Nat :=
        match stat.owner with
        | some (u, g) => (u, g)
        | none => (sys.Getuid, sys.Getgid)
      ({ mode := modeText stat.mode
         size := strconv.FormatInt stat.size
         uid := strconv.FormatInt UID
         gid := strconv.FormatInt GID
         mtime := timestat.modTime
         atime := timestat.accessTime
         ctime := timestat.changeTime.getD "NO VALUE"
         btime := timestat.birthTime.getD "NO VALUE"
         path := fp
         name := sys.Base fp }, none)

end machelpers

namespace windowshelpers

/-- Go `windowshelpers.FileMetadata(fp, modulename)`: as on mac, but the
owner and group keys keep "NO VALUE". -/
def FileMetadata (sys : os.System) (fp : String) : Metadata × error :=
  match sys.Lstat fp with
  | .error e => (Metadata.noValue, some ("Could not get metadata for " ++ fp ++ ": " ++ e))
  | .ok stat =>
    match sys.timesStat fp with
    | .error e => (Metadata.noValue, some ("Could not get time metadata for " ++ fp ++ ": " ++ e))
    | .ok timestat =>
      ({ mode := modeText stat.mode
         size := strconv.FormatInt stat.size
         uid := "NO VALUE"
         gid := "NO VALUE"
         mtime := timestat.modTime
         atime := timestat.accessTime
         ctime := timestat.changeTime.getD "NO VALUE"
         btime := timestat.birthTime.getD "NO VALUE"
         path := fp
         name := sys.Base fp }, none)

end windowshelpers

/-! ## The directory walker `godirwalk` (third-party library) -/

namespace godirwalk

/-- The type bits of a directory entry, as far as the callbacks look at them. -/
inductive ModeType
  | dir | regular | symlink | other
  deriving Repr, DecidableEq

/-- Go `godirwalk.Dirent`. -/
structure Dirent where
  name : String
  modeType : ModeType
  deriving Repr, DecidableEq

def Dirent.IsDir (de : Dirent) : Bool := decide (de.modeType = .dir)
def Dirent.IsRegular (de : Dirent) : Bool := decide (de.modeType = .regular)
def Dirent.IsSymlink (de : Dirent) : Bool := decide (de.modeType = .symlink)

/-- Go `godirwalk.ErrorAction`. -/
inductive ErrorAction
  | Halt | SkipNode
  deriving Repr, DecidableEq

/-- The `error` values that travel through the walk: the sentinel
`filepath.SkipDir`, or any other error with its text. -/
inductive WalkError
  | SkipDir
  | other (msg : String)
  deriving Repr, DecidableEq

/-- The kinds of entry that are not directories. -/
inductive FileKind
  | regular | symlink | other
  deriving Repr, DecidableEq

def FileKind.modeType : FileKind → ModeType
  | .regular => .regular
  | .symlink => .symlink
  | .other => .other

mutual
/-- A file-system tree as the walker finds it: a non-directory entry, a
directory with its named children in enumeration order, or a directory whose
children cannot be read. -/
inductive Node
  | file (kind : FileKind)
  | dir (children : Children)
  | unreadableDir (err : String)
/-- The named children of a directory. -/
inductive Children
  | nil
  | cons (name : String) (node : Node) (rest : Children)
end

/-- The mode type the walker reports for a node. -/
def Node.modeType : Node → ModeType
  | .file k => k.modeType
  | .dir _ => .dir
  | .unreadableDir _ => .dir

variable {σ : Type}

mutual
/-- Modelled from the spec: godirwalk's recursive `walk` (the library is not
part of the sources). The callback is invoked on every entry; `SkipDir`
returned for a directory prunes its subtree, any other callback error and
any failure to read a directory goes to the error callback, which decides
between skipping the node and halting; symbolic links are not followed. -/
def walk (Callback : σ → String → Dirent → σ × Option WalkError)
    (ErrorCallback : σ → String → WalkError → σ × ErrorAction)
    (Join : String → String → String)
    (osPathname : String) (name : String) (n : Node) (st : σ) : σ × Option WalkError :=
  match Callback st osPathname ⟨name, n.modeType⟩ with
  | (st1, some .SkipDir) => (st1, some .SkipDir)
  | (st1, some (.other msg)) =>
    match ErrorCallback st1 osPathname (.other msg) with
    | (st2, .SkipNode) => (st2, none)
    | (st2, .Halt) => (st2, some (.other msg))
  | (st1, none) =>
    match n with
    | .file _ => (st1, none)
    | .unreadableDir err =>
      match ErrorCallback st1 osPathname (.other err) with
      | (st2, .SkipNode) => (st2, none)
      | (st2, .Halt) => (st2, some (.other err))
    | .dir children => walkChildren Callback ErrorCallback Join osPathname children st1
/-- The loop of `walk` over the children of the directory `osPathname`:
`SkipDir` from a child directory continues with its siblings, `SkipDir` from
a non-directory ends the loop, any other error is returned. -/
def walkChildren (Callback : σ → String → Dirent → σ × Option WalkError)
    (ErrorCallback : σ → String → WalkError → σ × ErrorAction)
    (Join : String → String → String)
    (osPathname : String) (cs : Children) (st : σ) : σ × Option WalkError :=
  match cs with
  | .nil => (st, none)
  | .cons name child rest =>
    match walk Callback ErrorCallback Join (Join osPathname name) name child st with
    | (st1, none) => walkChildren Callback ErrorCallback Join osPathname rest st1
    | (st1, some .SkipDir) =>
      if child.modeType = .dir then walkChildren Callback ErrorCallback Join osPathname rest st1
      else (st1, none)
    | (st1, some (.other msg)) => (st1, some (.other msg))
end

/-- What `os.Lstat` of a walk root finds: an error, or the tree below it. -/
abbrev FileSystem := String → Except String Node

/-- Modelled from the spec: `godirwalk.Walk(pathname, options)`. A root that
cannot be stat-ed, or that is not a directory, is an error; `SkipDir` coming
back from the root is silenced. -/
def Walk (Callback : σ → String → Dirent → σ × Option WalkError)
    (ErrorCallback : σ → String → WalkError → σ × ErrorAction)
    (sys : os.System) (fs : FileSystem) (pathname : String) (st : σ) : σ × error :=
  match fs pathname with
  | .error e => (st, some e)
  | .ok root =>
    if root.modeType ≠ .dir then (st, some ("cannot Walk non-directory: " ++ pathname))
    else
      match walk Callback ErrorCallback sys.Join pathname (sys.Base pathname) root st with
      | (st1, none) => (st1, none)
      | (st1, some .SkipDir) => (st1, none)
      | (st1, some (.other msg)) => (st1, some msg)

mutual
/-- The regular files of the tree `n` found at `osPathname`, in enumeration
order and whether or not a directory can be read: each with the paths of
the directories it lies strictly beneath (outermost first, after those in
`above`) and its own path. The children of an unreadable directory are not
known, so it contributes none. -/
def Node.regularFiles (Join : String → String → String) (osPathname : String)
    (above : List String) : Node → List (List String × String)
  | .file .regular => [(above, osPathname)]
  | .file _ => []
  | .unreadableDir _ => []
  | .dir children => children.regularFiles Join osPathname (above ++ [osPathname])
/-- The regular files below the children of the directory `dirPathname`. -/
def Children.regularFiles (Join : String → String → String) (dirPathname : String)
    (above : List String) : Children → List (List String × String)
  | .nil => []
  | .cons name node rest =>
    node.regularFiles Join (Join dirPathname name) above ++
      rest.regularFiles Join dirPathname above
end

/-- The regular files below the walk root `pathname`, each with the
directories it lies beneath (the root included); none when the root cannot
be stat-ed or is not a directory. -/
def regularFilesUnder (sys : os.System) (fs : FileSystem) (pathname : String) :
    List (List String × String) :=
  match fs pathname with
  | .error _ => []
  | .ok root =>
    if root.modeType ≠ .dir then [] else root.regularFiles sys.Join pathname []

end godirwalk

/-! ## `datawriter/datawriter.go` -/

namespace datawriter

/-- The outcomes of the file and csv operations behind an `OrionWriter`. -/
structure Faults where
  /-- Go `os.Create(fp)`. -/
  create : String → error
  /-- Go `csv.Writer.Write(row)`. -/
  write : List String → error
  /-- Go `csv.Writer.WriteAll(rows)`. -/
  writeAll : List (List String) → error
  /-- Go `csv.Writer.Flush()` followed by `csv.Writer.Error()`. -/
  flush : error
  /-- Go `os.File.Close()`. -/
  close : error
  /-- Go `filepath.Abs`, its error dropped. -/
  Abs : String → String

/-- Go `datawriter.OrionWriter` with its `CSVOrionWriter`; `rows` are the
records handed to the csv writer without error so far, `closed` records a
successful `Close`. -/
structure OrionWriter where
  csv : Bool
  xlsx : Bool
  outfilepath : String
  module : String
  runtime : String
  rows : List (List String)
  closed : Bool
  deriving Repr, DecidableEq

/-- The zero value `OrionWriter{}`. -/
def OrionWriter.zero : OrionWriter := ⟨false, false, "", "", "", [], false⟩

/-- Go `datawriter.NewOrionWriter`. -/
def NewOrionWriter (dw : Faults) (module orionRuntime outputtype fp : String) :
    OrionWriter × error :=
  if outputtype = "csv" then
    let fn := orionRuntime ++ "_" ++ module ++ "." ++ outputtype
    let fp1 := if !strings.HasSuffix fp "/" then fp ++ "/" else fp
    let fp2 := dw.Abs (fp1 ++ fn)
    match dw.create fp2 with
    | some _ => (OrionWriter.zero, some ("error creating file " ++ fp2 ++ "."))
    | none =>
      ({ csv := true, xlsx := false, outfilepath := fp2, module := module,
         runtime := orionRuntime, rows := [], closed := false }, none)
  else (OrionWriter.zero, some "cannot create OrionWriter for the given output type")

/-- Go `OrionWriter.GetOutputType`. -/
def OrionWriter.GetOutputType (mw : OrionWriter) : String :=
  if mw.csv = true then "csv" else if mw.xlsx = true then "xlsx" else "ERROR"

/-- Go `OrionWriter.Write`: `csvmw.Write(entry)`, then `csvmw.Flush()`. -/
def OrionWriter.Write (dw : Faults) (mw : OrionWriter) (entry : List String) :
    OrionWriter × error :=
  let outputtype := mw.GetOutputType
  if outputtype = "ERROR" ∨ outputtype = "" then
    (mw, some ("could not get OrionWriter output type, found: \x27" ++ outputtype ++ "\x27"))
  else if outputtype = "csv" then
    match dw.write entry with
    | some err => (mw, some err)
    | none => ({ mw with rows := mw.rows ++ [entry] }, dw.flush)
  else (mw, some "failed to write entry")

/-- Go `OrionWriter.WriteHeader`. -/
def OrionWriter.WriteHeader (dw : Faults) (mw : OrionWriter) (header : List String) :
    OrionWriter × error :=
  mw.Write dw header

/-- Go `OrionWriter.WriteAll`: `csvmw.WriteAll(entries)`, then `csvmw.Flush()`. -/
def OrionWriter.WriteAll (dw : Faults) (mw : OrionWriter) (entries : List (List String)) :
    OrionWriter × error :=
  let outputtype := mw.GetOutputType
  if outputtype = "ERROR" ∨ outputtype = "" then
    (mw, some ("could not get OrionWriter output type, found: \x27" ++ outputtype ++ "\x27"))
  else if outputtype = "csv" then
    match dw.writeAll entries with
    | some err => (mw, some err)
    | none => ({ mw with rows := mw.rows ++ entries }, dw.flush)
  else (mw, some "failed to write entries")

/-- Go `OrionWriter.Close`: `csvmw.Close()`, that is `Flush()` and, when it
succeeds, `file.Close()`. -/
def OrionWriter.Close (dw : Faults) (mw : OrionWriter) : OrionWriter × error :=
  let outputtype := mw.GetOutputType
  if outputtype = "ERROR" ∨ outputtype = "" then
    (mw, some ("could not get OrionWriter output type, found: \x27" ++ outputtype ++ "\x27"))
  else if outputtype = "csv" then
    match dw.flush with
    | some err => (mw, some err)
    | none =>
      match dw.close with
      | some err => (mw, some err)
      | none => ({ mw with closed := true }, none)
  else (mw, some "failed to close file")


/-! The functions above take the outcome of each csv operation as given.
`WriteOutput` assigns the results of three calls to one variable, so what it
returns depends on how the errors of a `csv.Writer` relate to each other:
the writer works through a `bufio.Writer`, which keeps the first error it
meets and returns it from every later write and flush, and
`csv.Writer.Error` reports it. -/

/-- The file behind a `CSVOrionWriter`: whether the `k`-th operation of the
buffered writer (counted from 0) meets a failing write to the file, and the
outcome of `os.File.Close()`. -/
structure Sink where
  fail : Nat → error
  close : error

/-- Go `CSVOrionWriter`: the first error its buffered writer met (`none`
when none), the records it accepted without error, in order, whether the
buffer may hold bytes not yet written to the file, the number of operations
so far, and whether the file was closed. -/
structure CSVOrionWriter where
  err : error
  records : List (List String)
  buffered : Bool
  ops : Nat
  closed : Bool
  deriving Repr, DecidableEq

/-- A new `CSVOrionWriter` on a file just created. -/
def CSVOrionWriter.new : CSVOrionWriter := ⟨none, [], false, 0, false⟩

/-- Go `CSVOrionWriter.Write(row)`, that is `csv.Writer.Write(row)`: the
error kept from an earlier operation, else the outcome of this one. -/
def CSVOrionWriter.Write (sink : Sink) (cmw : CSVOrionWriter) (row : List String) :
    CSVOrionWriter × error :=
  match cmw.err with
  | some e => ({ cmw with ops := cmw.ops + 1 }, some e)
  | none =>
    match sink.fail cmw.ops with
    | some e => ({ cmw with err := some e, ops := cmw.ops + 1 }, some e)
    | none =>
      ({ cmw with records := cmw.records ++ [row], buffered := true, ops := cmw.ops + 1 }, none)

/-- Go `bufio.Writer.Flush()` on the buffer of the csv writer: the error
kept from an earlier operation, else nil when the buffer is empty, else the
outcome of writing the buffer to the file. -/
def CSVOrionWriter.flushBuffer (sink : Sink) (cmw : CSVOrionWriter) : CSVOrionWriter × error :=
  match cmw.err with
  | some e => ({ cmw with ops := cmw.ops + 1 }, some e)
  | none =>
    if cmw.buffered = false then ({ cmw with ops := cmw.ops + 1 }, none)
    else
      match sink.fail cmw.ops with
      | some e => ({ cmw with err := some e, ops := cmw.ops + 1 }, some e)
      | none => ({ cmw with buffered := false, ops := cmw.ops + 1 }, none)

/-- Go `CSVOrionWriter.WriteAll(rows)`, that is `csv.Writer.WriteAll(rows)`:
`Write` for each record, returning at the first error, then the flush of
the buffer. -/
def CSVOrionWriter.WriteAll (sink : Sink) (cmw : CSVOrionWriter) :
    List (List String) → CSVOrionWriter × error
  | [] => cmw.flushBuffer sink
  | row :: rows =>
    match cmw.Write sink row with
    | (cmw1, some e) => (cmw1, some e)
    | (cmw1, none) => CSVOrionWriter.WriteAll sink cmw1 rows

/-- Go `CSVOrionWriter.Flush()`: `csvwriter.Flush()`, then
`csvwriter.Error()`, the error kept by the buffer. -/
def CSVOrionWriter.Flush (sink : Sink) (cmw : CSVOrionWriter) : CSVOrionWriter × error :=
  let cmw1 := (cmw.flushBuffer sink).1
  (cmw1, cmw1.err)

/-- Go `CSVOrionWriter.Close()`: `Flush()` and, when it succeeds,
`file.Close()`. -/
def CSVOrionWriter.Close (sink : Sink) (cmw : CSVOrionWriter) : CSVOrionWriter × error :=
  match cmw.Flush sink with
  | (cmw1, some e) => (cmw1, some e)
  | (cmw1, none) => ({ cmw1 with closed := true }, sink.close)

/-- Go `CSVOrionWriter.WriteOutput(header, values)`; as in the source, the
results of `Write` and of `WriteAll` are assigned to `err` and overwritten
by the next call, and only the result of `Close` is tested. -/
def CSVOrionWriter.WriteOutput (sink : Sink) (cmw : CSVOrionWriter) (header : List String)
    (values : List (List String)) : CSVOrionWriter × error :=
  let (cmw1, _err) := cmw.Write sink header
  let (cmw2, _err) := cmw1.WriteAll sink values
  let (cmw3, err) := cmw2.Close sink
  match err with
  | some e => (cmw3, some e)
  | none => (cmw3, none)

/-- Go `OrionWriter.WriteOutput(header, entries)` on the writer `mw` whose
`csvmw` is in the state `cmw`. -/
def OrionWriter.WriteOutput (sink : Sink) (mw : OrionWriter) (cmw : CSVOrionWriter)
    (header : List String) (entries : List (List String)) : CSVOrionWriter × error :=
  let outputtype := mw.GetOutputType
  if outputtype = "ERROR" ∨ outputtype = "" then
    (cmw, some ("could not get OrionWriter output type, found: \x27" ++ outputtype ++ "\x27"))
  else if outputtype = "csv" then
    match cmw.WriteOutput sink header entries with
    | (cmw1, some err) => (cmw1, some err)
    | (cmw1, none) => cmw1.Flush sink
  else (cmw, some "failed to write header and entries to output")

end datawriter

/-! ## State and result shared by the two directory-listing modules -/

/-- The package-level variables `dirlist` sets before the walk. -/
structure Globals where
  hashSizeLimitBytes : Int
  doHashMD5 : Bool
  doHashSHA256 : Bool
  walkRootDir : String
  verbose : Bool
  deriving Repr, DecidableEq

/-- The variables of `dirlist` that the walk callbacks close over, and the
lines they send to the logger. -/
structure WalkState where
  values : List (List String)
  count : Nat
  dircount : Nat
  filecount : Nat
  log : List String
  deriving Repr, DecidableEq

/-- How a call ended: it returned an `error` value, or it panicked. -/
inductive Outcome
  | returned (err : error)
  | panicked (msg : String)
  deriving Repr, DecidableEq

/-- What a run of `dirlist` leaves behind: how it ended, the state of the
walk, and the writer (`none` when none was created). -/
structure DirlistResult where
  outcome : Outcome
  walked : WalkState
  writer : Option datawriter.OrionWriter
  deriving Repr, DecidableEq

/-! ## `util/fs.go` -/

namespace util

/-- Go `util.Multiglob`: the matches of every pattern joined to the target
path, in order (a pattern without match contributes nothing). -/
def Multiglob (sys : os.System) (sliceGlob : List String) (targetPath : String) : List String :=
  sliceGlob.flatMap fun s => sys.Glob (sys.Join targetPath s)

/-- Go `util.MultiMultiGlob`. -/
def MultiMultiGlob (sys : os.System) (sliceGlob targetPaths : List String) : List String :=
  targetPaths.flatMap fun t => Multiglob sys sliceGlob t

end util

/-! ## `mac/modules/macdirlist/dirlist.go` -/

namespace macdirlist

def moduleName : String := "MacDirlistModule"

/-- Go `substringListContains(l, substr)`. -/
def substringListContains (l : List String) (substr : String) : Bool :=
  match l with
  | [] => false
  | val :: rest => if strings.HasSuffix substr val then true else substringListContains rest substr

/-- Go `fileSHA256(fp)`: `("", err)` when the file cannot be opened or read,
else the hexadecimal digest and `nil`. -/
def fileSHA256 (sys : os.System) (fp : String) : String × error :=
  match sys.readAll fp with
  | .error e => ("", some e)
  | .ok bytes => (fmt.sprintfHex (sys.sha256Sum bytes), none)

/-- Go `fileMD5(fp)`. -/
def fileMD5 (sys : os.System) (fp : String) : String × error :=
  match sys.readAll fp with
  | .error e => ("", some e)
  | .ok bytes => (fmt.sprintfHex (sys.md5Sum bytes), none)

/-- Go `parseRegular(osPathname, de)`: the row of one regular file, in the
order of the header. As in the source, inside each hashing branch the
assignment of `h` follows the error test and is not guarded by it. -/
def parseRegular (sys : os.System) (g : Globals) (osPathname : String) : List String :=
  let metadata := (machelpers.FileMetadata sys osPathname).1
  let hashSHA256 := "N/E"
  let hashMD5 := "N/E"
  let size := (strconv.Atoi metadata.size).1
  let hashSHA256 :=
    if g.doHashSHA256 && decide (size < g.hashSizeLimitBytes) then
      let (h, err) := fileSHA256 sys osPathname
      let hashSHA256 := if err ≠ none then "ERROR" else hashSHA256
      Function.const String h hashSHA256
    else hashSHA256
  let hashMD5 :=
    if g.doHashMD5 && decide (size < g.hashSizeLimitBytes) then
      let (h, err) := fileMD5 sys osPathname
      let hashMD5 := if err ≠ none then "ERROR" else hashMD5
      Function.const String h hashMD5
    else hashMD5
  let quarantineXattr :=
    match sys.ReadXAttr osPathname "com.apple.quarantine" with
    | .error _ => "ERROR"
    | .ok quarantineXattrBytes => fmt.sprintfHex quarantineXattrBytes
  let wherefromXattr1 := ""
  let wherefromXattr2 := ""
  [ metadata.mode, metadata.size, "N/P", metadata.uid, metadata.gid,
    metadata.mtime, metadata.atime, metadata.ctime, metadata.btime,
    metadata.path, metadata.name, hashSHA256, hashMD5,
    quarantineXattr, wherefromXattr1, wherefromXattr2 ]

/-- The sha256 field of a mac row (column 11 of the header). -/
def sha256Field (row : List String) : String := row.getD 11 ""

/-- The md5 field of a mac row (column 12 of the header). -/
def md5Field (row : List String) : String := row.getD 12 ""

/-- The value of the local `size` of `parseRegular`:
`strconv.Atoi(metadata["size"])` with its error dropped. -/
def sizeRead (sys : os.System) (osPathname : String) : Int :=
  (strconv.Atoi (machelpers.FileMetadata sys osPathname).1.size).1

/-- Go `header` of `dirlist`. -/
def header : List String :=
  ["mode", "size", "owner", "uid", "gid", "mtime", "atime", "ctime", "btime",
   "path", "name", "sha256", "md5", "quarantine", "wherefrom_1", "wherefrom_2"]

/-- The `Callback` closure handed to `godirwalk.Walk`; `excludedExts` are the
keys of `excludedExtsMap`. -/
def Callback (sys : os.System) (g : Globals) (excludedDirs excludedExts : List String)
    (st : WalkState) (osPathname : String) (de : godirwalk.Dirent) :
    WalkState × Option godirwalk.WalkError :=
  let excludedExtsMap : String → Bool := fun k => excludedExts.contains k
  if de.IsDir then
    if substringListContains excludedDirs osPathname then (st, some .SkipDir)
    else ({ st with dircount := st.dircount + 1, count := st.count + 1 }, none)
  else if de.IsRegular then
    if excludedExtsMap (util.FileExtension osPathname) ||
        excludedExtsMap ("." ++ util.FileExtension osPathname) then (st, none)
    else
      ({ st with filecount := st.filecount + 1,
                 values := st.values ++ [parseRegular sys g osPathname],
                 count := st.count + 1 }, none)
  else ({ st with count := st.count + 1 }, none)

/-- The `ErrorCallback` closure handed to `godirwalk.Walk`. -/
def ErrorCallback (g : Globals) (st : WalkState) (_osPathname : String)
    (err : godirwalk.WalkError) : WalkState × godirwalk.ErrorAction :=
  let text := match err with
    | .SkipDir => "skip this directory"
    | .other msg => msg
  let st1 := if g.verbose then { st with log := st.log ++ [text] } else st
  (st1, .SkipNode)

/-- The state of the walk when `dirlist` starts it. -/
def initialState : WalkState := ⟨[], 0, 0, 0, []⟩

/-- Go `MacDirlistModule.dirlist(inst)`. -/
def dirlist (sys : os.System) (fs : godirwalk.FileSystem) (dw : datawriter.Faults)
    (inst : orioninstance.Instance) : DirlistResult :=
  let g : Globals :=
    { doHashMD5 := inst.GetOrionConfig.GetDirlistDoHashMD5.1
      doHashSHA256 := inst.GetOrionConfig.GetDirlistDohashSHA256.1
      walkRootDir := inst.GetTargetPath
      hashSizeLimitBytes := inst.GetOrionConfig.GetDirlistHashSizeLimitBytes.1
      verbose := inst.GetOrionConfig.IsVerbose.1 }
  match datawriter.NewOrionWriter dw moduleName inst.GetOrionRuntime
      inst.GetOrionOutputFormat inst.GetOrionOutputFilepath with
  | (_, some err) =>
    ⟨.returned (some err),
      { initialState with log := ["Error running " ++ moduleName ++ ": " ++ err] }, none⟩
  | (mw, none) =>
    let excludedDirs := inst.GetOrionConfig.GetDirlistExcludedDirs.1
    let excludedDirs :=
      if !inst.ForensicMode then
        excludedDirs ++ sys.Glob (sys.Join inst.GetTargetPath "Volumes/*")
      else excludedDirs
    let excludedExts := inst.GetOrionConfig.GetDirlistExcludedExts.1
    let (st, err) :=
      godirwalk.Walk (Callback sys g excludedDirs excludedExts) (ErrorCallback g)
        sys fs g.walkRootDir initialState
    let st := match err with
      | some e => { st with log := st.log ++ [e] }
      | none => st
    match mw.WriteHeader dw header with
    | (mw, some err) => ⟨.returned (some err), st, some mw⟩
    | (mw, none) =>
      match mw.WriteAll dw st.values with
      | (mw, some err) => ⟨.returned (some err), st, some mw⟩
      | (mw, none) =>
        match mw.Close dw with
        | (mw, some err) => ⟨.returned (some err), st, some mw⟩
        | (mw, none) => ⟨.returned none, st, some mw⟩

/-- The package variables as `dirlist` sets them from the instance. -/
def globalsOf (inst : orioninstance.Instance) : Globals :=
  { doHashMD5 := inst.GetOrionConfig.GetDirlistDoHashMD5.1
    doHashSHA256 := inst.GetOrionConfig.GetDirlistDohashSHA256.1
    walkRootDir := inst.GetTargetPath
    hashSizeLimitBytes := inst.GetOrionConfig.GetDirlistHashSizeLimitBytes.1
    verbose := inst.GetOrionConfig.IsVerbose.1 }

/-- The value of the local `excludedDirs` of `dirlist` when the walk starts. -/
def effectiveExcludedDirs (sys : os.System) (inst : orioninstance.Instance) : List String :=
  let excludedDirs := inst.GetOrionConfig.GetDirlistExcludedDirs.1
  if !inst.ForensicMode then
    excludedDirs ++ sys.Glob (sys.Join inst.GetTargetPath "Volumes/*")
  else excludedDirs

end macdirlist

/-! ## `windows/modules/windowsdirlist/dirlist.go` -/

namespace windowsdirlist

def moduleName : String := "WindowsDirlistModule"

/-- Go `substringListContains(l, substr)`. -/
def substringListContains (l : List String) (substr : String) : Bool :=
  match l with
  | [] => false
  | val :: rest => if strings.HasSuffix substr val then true else substringListContains rest substr

/-- Go `fileSHA256(fp)`: `("", err)` when the file cannot be opened or read,
else the hexadecimal digest and `nil` (the lines it logs on failure are left out). -/
def fileSHA256 (sys : os.System) (fp : String) : String × error :=
  match sys.readAll fp with
  | .error e => ("", some e)
  | .ok bytes => (fmt.sprintfHex (sys.sha256Sum bytes), none)

/-- Go `fileMD5(fp)`. -/
def fileMD5 (sys : os.System) (fp : String) : String × error :=
  match sys.readAll fp with
  | .error e => ("", some e)
  | .ok bytes => (fmt.sprintfHex (sys.md5Sum bytes), none)

/-- Go `parseRegular(osPathname, de)`: the row of one regular file, in the
order of the header. As in the source, inside each hashing branch the
assignment of `h` follows the error test and is not guarded by it. -/
def parseRegular (sys : os.System) (g : Globals) (osPathname : String) : List String :=
  let metadata := (windowshelpers.FileMetadata sys osPathname).1
  let hashSHA256 := "N/E"
  let hashMD5 := "N/E"
  let size := (strconv.Atoi metadata.size).1
  let hashSHA256 :=
    if g.doHashSHA256 && decide (size < g.hashSizeLimitBytes) then
      let (h, err) := fileSHA256 sys osPathname
      let hashSHA256 := if err ≠ none then "ERROR" else hashSHA256
      Function.const String h hashSHA256
    else hashSHA256
  let hashMD5 :=
    if g.doHashMD5 && decide (size < g.hashSizeLimitBytes) then
      let (h, err) := fileMD5 sys osPathname
      let hashMD5 := if err ≠ none then "ERROR" else hashMD5
      Function.const String h hashMD5
    else hashMD5
  [ metadata.path, metadata.name, metadata.mode, metadata.size,
    metadata.mtime, metadata.atime, metadata.ctime, metadata.btime,
    hashSHA256, hashMD5 ]

/-- The sha256 field of a windows row (column 8 of the header). -/
def sha256Field (row : List String) : String := row.getD 8 ""

/-- The md5 field of a windows row (column 9 of the header). -/
def md5Field (row : List String) : String := row.getD 9 ""

/-- The value of the local `size` of `parseRegular`:
`strconv.Atoi(metadata["size"])` with its error dropped. -/
def sizeRead (sys : os.System) (osPathname : String) : Int :=
  (strconv.Atoi (windowshelpers.FileMetadata sys osPathname).1.size).1

/-- Go `header` of `dirlist`. -/
def header : List String :=
  ["path", "name", "mode", "size", "mtime", "atime", "ctime", "btime", "sha256", "md5"]

/-- The `Callback` closure handed to `godirwalk.Walk`; `excludedExts` are the
keys of `excludedExtsMap`. -/
def Callback (sys : os.System) (g : Globals) (excludedDirs excludedExts : List String)
    (st : WalkState) (osPathname : String) (de : godirwalk.Dirent) :
    WalkState × Option godirwalk.WalkError :=
  let excludedExtsMap : String → Bool := fun k => excludedExts.contains k
  if de.IsDir then
    if substringListContains excludedDirs osPathname then (st, some .SkipDir)
    else ({ st with dircount := st.dircount + 1, count := st.count + 1 }, none)
  else if de.IsRegular then
    if excludedExtsMap (util.FileExtension osPathname) ||
        excludedExtsMap ("." ++ util.FileExtension osPathname) then (st, none)
    else
      ({ st with filecount := st.filecount + 1,
                 values := st.values ++ [parseRegular sys g osPathname],
                 count := st.count + 1 }, none)
  else ({ st with count := st.count + 1 }, none)

/-- The `ErrorCallback` closure handed to `godirwalk.Walk`. -/
def ErrorCallback (g : Globals) (st : WalkState) (_osPathname : String)
    (err : godirwalk.WalkError) : WalkState × godirwalk.ErrorAction :=
  let text := match err with
    | .SkipDir => "skip this directory"
    | .other msg => msg
  let st1 := if g.verbose then { st with log := st.log ++ [text] } else st
  (st1, .SkipNode)

/-- Go `availableDrives` of `windowsWalkRootDir`. -/
def availableDrives : List String :=
  ["A", "B", "C", "D", "E", "F", "G", "H", "I", "J", "K", "L", "M",
   "N", "O", "P", "Q", "R", "S", "T", "U", "V", "W", "X", "Y", "Z"]

/-- Go `windowsWalkRootDir(root)`: the drive letters whose bit is set in the
32-bit word returned by `GetLogicalDrives`, each followed by a colon. -/
def windowsWalkRootDir (sys : os.System) (_root : String) : List String × error :=
  let (ret, errno) := sys.GetLogicalDrives
  if errno ≠ 0 then
    ([], some ("Syscall Error grabbing logical drives: errno " ++ strconv.FormatInt errno))
  else
    let bmap := ret % 2 ^ 32
    let loop := availableDrives.foldl
      (fun (acc : List String × Nat) d =>
        let drives := if acc.2 &&& 1 = 1 then acc.1 ++ [d] else acc.1
        (drives, acc.2 >>> 1))
      ([], bmap)
    (loop.1.map fun d => d ++ ":", none)

/-- The body of the inner `if r == d` of the drive-removal loop on a slice
given by its backing array and its length:
`s[i] = s[len(s)-1]; s[len(s)-1] = ""; s = s[:len(s)-1]`;
`none` when an index is out of range. -/
def removeAt (arr : List String) (len i : Nat) : Option (List String × Nat) :=
  if i < len ∧ len ≤ arr.length then
    some ((arr.set i (arr.getD (len - 1) "")).set (len - 1) "", len - 1)
  else none

/-- The inner loop `for _, d := range excludedDrives` for the element `r` at
index `i`. -/
def removeLoop (i : Nat) (r : String) :
    List String → List String × Nat → Option (List String × Nat)
  | [], s => some s
  | d :: ds, s =>
    if r = d then (removeAt s.1 s.2 i).bind (removeLoop i r ds)
    else removeLoop i r ds s

/-- The drive-removal loop of `dirlist`: `for i, r := range walkRootDirs`
runs over the indices of the slice as it was before the loop and reads `r`
from the shared backing array; `none` when the loop panics. -/
def removeExcludedDrives (walkRootDirs excludedDrives : List String) : Option (List String) :=
  ((List.range walkRootDirs.length).foldlM
    (fun (s : List String × Nat) i => removeLoop i (s.1.getD i "") excludedDrives s)
    (walkRootDirs, walkRootDirs.length)).map fun s => s.1.take s.2

/-- The state of the walk when `dirlist` starts it. -/
def initialState : WalkState := ⟨[], 0, 0, 0, []⟩

/-- The loop `for _, root := range walkRootDirs` of `dirlist`: one walk per
root, an error of a walk is logged and the loop goes on. -/
def walkRoots (sys : os.System) (fs : godirwalk.FileSystem) (g : Globals)
    (excludedDirs excludedExts : List String) : List String → WalkState → WalkState
  | [], st => st
  | root :: roots, st =>
    let (st, err) :=
      godirwalk.Walk (Callback sys g excludedDirs excludedExts) (ErrorCallback g)
        sys fs root st
    let st := match err with
      | some e => { st with log := st.log ++ [e] }
      | none => st
    walkRoots sys fs g excludedDirs excludedExts roots st

/-- Go `WindowsDirlistModule.dirlist(inst)`. The package variable
`walkRootDir` is never assigned in this package and keeps its zero value. -/
def dirlist (sys : os.System) (fs : godirwalk.FileSystem) (dw : datawriter.Faults)
    (inst : orioninstance.Instance) : DirlistResult :=
  let g : Globals :=
    { doHashMD5 := inst.GetOrionConfig.GetDirlistDoHashMD5.1
      doHashSHA256 := inst.GetOrionConfig.GetDirlistDohashSHA256.1
      hashSizeLimitBytes := inst.GetOrionConfig.GetDirlistHashSizeLimitBytes.1
      verbose := inst.GetOrionConfig.IsVerbose.1
      walkRootDir := "" }
  match datawriter.NewOrionWriter dw moduleName inst.GetOrionRuntime
      inst.GetOrionOutputFormat inst.GetOrionOutputFilepath with
  | (_, some err) =>
    ⟨.returned (some err),
      { initialState with log := ["Error running " ++ moduleName ++ ": " ++ err] }, none⟩
  | (mw, none) =>
    match windowsWalkRootDir sys g.walkRootDir with
    | (_, some err) =>
      ⟨.returned (some ("Could not determine dirlist target root path! " ++ err)),
        initialState, some mw⟩
    | (walkRootDirs, none) =>
      let excludedDrives := inst.GetOrionConfig.GetDirlistExcludedDrives.1
      match removeExcludedDrives walkRootDirs excludedDrives with
      | none => ⟨.panicked "index out of range", initialState, some mw⟩
      | some walkRootDirs =>
        let excludedDirsNames := inst.GetOrionConfig.GetDirlistExcludedDirs.1
        let excludedDirs := util.MultiMultiGlob sys excludedDirsNames walkRootDirs
        let excludedExts := inst.GetOrionConfig.GetDirlistExcludedExts.1
        let st := walkRoots sys fs g excludedDirs excludedExts walkRootDirs initialState
        match mw.WriteHeader dw header with
        | (mw, some err) => ⟨.returned (some err), st, some mw⟩
        | (mw, none) =>
          match mw.WriteAll dw st.values with
          | (mw, some err) => ⟨.returned (some err), st, some mw⟩
          | (mw, none) =>
            match mw.Close dw with
            | (mw, some err) => ⟨.returned (some err), st, some mw⟩
            | (mw, none) => ⟨.returned none, st, some mw⟩

end windowsdirlist

/-! ## `engine/module_windows.go` -/

namespace engine

/-- A `reflect.Type` of a module struct: its package, its name and its
exported methods by name; every module method takes the instance and
returns one `error`. -/
structure ModuleType where
  pkg : String
  name : String
  MethodByName : String → Option (orioninstance.Instance → error)

/-- Go `reflect.Type.String()`: the package name, a dot, the type name. -/
def ModuleType.String (t : ModuleType) : String := t.pkg ++ "." ++ t.name

/-- Go `typeRegistry`, a `map[string]reflect.Type`. -/
abbrev TypeRegistry := String → Option ModuleType

/-- The empty map `make(map[string]reflect.Type)`. -/
def emptyRegistry : TypeRegistry := fun _ => none

/-- Go `registerType(elem)`: `typeRegistry[t.Name()] = t`. -/
def registerType (typeRegistry : TypeRegistry) (t : ModuleType) : TypeRegistry :=
  fun k => if k = t.name then some t else typeRegistry k

/-- Go `init()`: the registration of `windowsdirlist.WindowsDirlistModule`,
whose only method is `Start`. -/
def init (start : orioninstance.Instance → error) : TypeRegistry :=
  registerType emptyRegistry
    ⟨"windowsdirlist", "WindowsDirlistModule", fun m => if m = "Start" then some start else none⟩

/-- A module value; the module structs have no fields, so the zero value
`reflect.New(elem).Elem().Interface()` is determined by its type. -/
structure ModuleValue where
  typ : ModuleType

/-- Go `makeInstance(name)`; the first component is `none` for `nil`. -/
def makeInstance (typeRegistry : TypeRegistry) (name : String) : Option ModuleValue × Bool :=
  match typeRegistry name with
  | none => (none, false)
  | some elem => (some ⟨elem⟩, true)

/-- Go `invoke(mod, name, args...)` with the instance as only argument: the
result values of the call and the error; `none` when `invoke` panics (a
nil interface handed to `reflect.TypeOf(s).String()`, or index 1 out of
range). -/
def invoke (typeRegistry : TypeRegistry) (mod name : String) (inst : orioninstance.Instance) :
    Option (List error × error) :=
  match makeInstance typeRegistry mod with
  | (_, false) => some ([], some ("failed to create instance of \x27" ++ mod ++ "\x27"))
  | (none, true) => none
  | (some s, true) =>
    match (strings.Split s.typ.String '.')[1]? with
    | none => none
    | some typeName =>
      if typeName ≠ mod then
        some ([], some ("typeRegistry returned wrong instance \x27" ++ typeName ++
          "\x27 for \x27" ++ mod))
      else
        match s.typ.MethodByName name with
        | none => some ([], some ("method not found \x22" ++ name ++ "\x22"))
        | some m => some ([m inst], none)

/-- One call of `executeModule`: the module name, the returned error, the
lines logged, and whether the deferred `wg.Done()` ran. -/
structure ModuleRun where
  module : String
  started : Bool
  ret : error
  log : List String
  wgDone : Bool
  deriving Repr, DecidableEq

/-- Go `executeModule(module, wg, inst)`; `useWg` says whether `wg` is not
nil; `started` records that the call of `Start` was reached; `none` when the
call panics. As in the source, the branch taken when `Start` returned an
error returns the variable `err`, which is nil there. -/
def executeModule (typeRegistry : TypeRegistry) (module : String) (useWg : Bool)
    (inst : orioninstance.Instance) : Option ModuleRun :=
  match invoke typeRegistry module "Start" inst with
  | none => none
  | some (_, some err) =>
    some ⟨module, false, some err,
      ["Starting [" ++ module ++ "] module.",
       "Exiting [" ++ module ++ "] module with errors: " ++ err], useWg⟩
  | some (out, none) =>
    match out[0]? with
    | none => none
    | some (some startErr) =>
      some ⟨module, true, none,
        ["Starting [" ++ module ++ "] module.",
         "Exiting [" ++ module ++ "] module with errors: " ++ startErr], useWg⟩
    | some none =>
      some ⟨module, true, none,
        ["Starting [" ++ module ++ "] module.", "Finished [" ++ module ++ "] module."], useWg⟩

/-- One run of `executeModules` that no interrupt signal cuts short: the
calls of `executeModule` in the order of dispatch, the number of
`wg.Add(1)`, whether `archive` was called, and the returned error. -/
structure EngineRun where
  runs : List ModuleRun
  wgAdded : Nat
  archived : Bool
  ret : error
  deriving Repr, DecidableEq

/-- The loop `for _, module := range modules` of `executeModules`: one call
of `executeModule` per module, in order; `none` when a call panics. -/
def runModules (typeRegistry : TypeRegistry) (useWg : Bool) (i : orioninstance.Instance) :
    List String → Option (List ModuleRun)
  | [] => some []
  | module :: rest =>
    match executeModule typeRegistry module useWg i with
    | none => none
    | some run =>
      match runModules typeRegistry useWg i rest with
      | none => none
      | some runs => some (run :: runs)

/-- Go `executeModules(modules, i)`. With multithreading every module is
sent to its own goroutine and, the module results being independent of each
other, the run is recorded in dispatch order; `none` when a call panics. -/
def executeModules (typeRegistry : TypeRegistry) (modules : List String)
    (i : orioninstance.Instance) : Option EngineRun :=
  if i.NoMultithreading = false then
    match runModules typeRegistry true i modules with
    | none => none
    | some runs => some ⟨runs, modules.length, true, none⟩
  else
    match runModules typeRegistry false i modules with
    | none => none
    | some runs => some ⟨runs, 0, true, none⟩

/-- Go `zip.Store` and `zip.Deflate`, the compression methods of an entry. -/
inductive Method
  | Store | Deflate
  deriving Repr, DecidableEq

/-- Go `zip.FileHeader`, as far as `archive` touches it. -/
structure FileHeader where
  Name : String
  Method : Method
  deriving Repr, DecidableEq

/-- An entry of the archive being written: the header handed to
`zw.CreateHeader`, the bytes `io.Copy` wrote into it, and whether `io.Copy`
returned nil. -/
structure ZipEntry where
  header : FileHeader
  content : List Nat
  complete : Bool
  deriving Repr, DecidableEq

/-- The outcomes of the file-system and zip operations of `archive` and
`safeAbort`, as functions of the path they are applied to. -/
structure ArchiveOps where
  /-- Go `filepath.Glob(pattern)`. -/
  Glob : String → List String × error
  /-- Go `os.Create(output)`. -/
  Create : String → error
  /-- Go `os.Open(file)`. -/
  Open : String → error
  /-- Go `f.Stat()` on the opened file. -/
  Stat : String → error
  /-- Go `zip.FileInfoHeader(info)`: the header built from the file info. -/
  FileInfoHeader : String → Except String FileHeader
  /-- Go `zw.CreateHeader(header)`. -/
  CreateHeader : FileHeader → error
  /-- Go `io.Copy(wr, f)`: the bytes written into the entry and the error. -/
  Copy : String → List Nat × error
  /-- Go `i.CloseLogger()`. -/
  CloseLogger : error
  /-- Go `os.RemoveAll(path)`: the outcome of the attempt with the given
  number (0 for the first). -/
  RemoveAll : Nat → String → error

/-- The zip writer and the logger while the files are packed. -/
structure PackState where
  entries : List ZipEntry
  log : List String
  deriving Repr, DecidableEq

/-- The loop `for _, file := range files` of `archive`. -/
def archiveLoop (ops : ArchiveOps) : List String → PackState → PackState
  | [], st => st
  | file :: rest, st =>
    match ops.Open file with
    | some _ =>
      archiveLoop ops rest { st with log := st.log ++ ["Failed to open " ++ file ++ " for archiving"] }
    | none =>
      match ops.Stat file with
      | some _ =>
        archiveLoop ops rest
          { st with log := st.log ++ ["Failed to get stats for " ++ file ++ " for archiving"] }
      | none =>
        match ops.FileInfoHeader file with
        | .error _ =>
          archiveLoop ops rest
            { st with log := st.log ++ ["Failed to get header info for " ++ file ++ " for archiving"] }
        | .ok header =>
          let header := { header with Name := file }
          let header := { header with Method := Method.Deflate }
          match ops.CreateHeader header with
          | some _ =>
            archiveLoop ops rest
              { st with log := st.log ++ ["Failed to create archive header for " ++ file] }
          | none =>
            match ops.Copy file with
            | (written, some _) =>
              archiveLoop ops rest
                { entries := st.entries ++ [⟨header, written, false⟩]
                  log := st.log ++ ["Failed to write " ++ file ++ " to archive"] }
            | (written, none) =>
              archiveLoop ops rest
                { entries := st.entries ++ [⟨header, written, true⟩]
                  log := st.log ++ ["Wrote " ++ file ++ " to archive"] }

/-- What a call of `archive` or `safeAbort` leaves behind: the name of the
archive file when it was created, its entries, the lines logged, the lines
printed, and the outcomes of the calls of `os.RemoveAll`, in order. -/
structure ArchiveResult where
  output : Option String
  entries : List ZipEntry
  log : List String
  printed : List String
  removals : List error
  deriving Repr, DecidableEq

/-- Go `archive(i)`. -/
def archive (ops : ArchiveOps) (i : orioninstance.Instance) : ArchiveResult :=
  match ops.Glob (i.GetOrionOutputFilepath ++ "/*") with
  | (_, some _) => ⟨none, [], ["Failed to glob for output files to archive"], [], []⟩
  | (files, none) =>
    let output := i.GetOrionRuntime ++ ".zip"
    match ops.Create output with
    | some _ => ⟨none, [], ["Failed to create output archive"], [], []⟩
    | none =>
      let st := archiveLoop ops files ⟨[], []⟩
      let log := st.log ++ ["Orion packing complete"]
      let printed :=
        match ops.CloseLogger with
        | some _ => ["Failed to close Orion Logger"]
        | none => []
      match ops.RemoveAll 0 i.GetOrionOutputFilepath with
      | none => ⟨some output, st.entries, log, printed, [none]⟩
      | some err =>
        let printed := printed ++
          ["Failed to remove Orion output folder \x27" ++ i.GetOrionOutputFilepath ++
            "\x27: " ++ err]
        if strings.Contains err "used by another" then
          let printed := printed ++ ["Waiting 5 seconds before attempting again"]
          match ops.RemoveAll 1 i.GetOrionOutputFilepath with
          | some err2 =>
            ⟨some output, st.entries, log,
              printed ++ ["Still failed to remove Orion output folder: " ++ err2],
              [some err, some err2]⟩
          | none => ⟨some output, st.entries, log, printed, [some err, none]⟩
        else ⟨some output, st.entries, log, printed, [some err]⟩

/-- The loop `for _, file := range files` of `safeAbort`. -/
def safeAbortLoop (ops : ArchiveOps) : List String → PackState → PackState
  | [], st => st
  | file :: rest, st =>
    match ops.Open file with
    | some _ =>
      safeAbortLoop ops rest
        { st with log := st.log ++ ["Failed to open " ++ file ++ " for archiving"] }
    | none =>
      match ops.Stat file with
      | some _ =>
        safeAbortLoop ops rest
          { st with log := st.log ++ ["Failed to get stats for " ++ file ++ " for archiving"] }
      | none =>
        match ops.FileInfoHeader file with
        | .error _ =>
          safeAbortLoop ops rest
            { st with log := st.log ++ ["Failed to get header info for " ++ file ++ " for archiving"] }
        | .ok header =>
          let header := { header with Name := file }
          let header := { header with Method := Method.Deflate }
          match ops.CreateHeader header with
          | some _ =>
            safeAbortLoop ops rest
              { st with log := st.log ++ ["Failed to create archive header for " ++ file] }
          | none =>
            match ops.Copy file with
            | (written, some _) =>
              safeAbortLoop ops rest
                { entries := st.entries ++ [⟨header, written, false⟩]
                  log := st.log ++ ["Failed to write " ++ file ++ " to archive"] }
            | (written, none) =>
              safeAbortLoop ops rest
                { entries := st.entries ++ [⟨header, written, true⟩]
                  log := st.log ++ ["Wrote " ++ file ++ " to abort archive"] }

/-- Go `safeAbort(i, wg)`; the deferred `wg.Done()` runs on every return. -/
def safeAbort (ops : ArchiveOps) (i : orioninstance.Instance) : ArchiveResult :=
  let log0 := ["DO NOT INTERRUPT - Packaging files before terminating...",
    "Does not save output progress made by modules not yet complete!!!"]
  match ops.Glob (i.GetOrionOutputFilepath ++ "/*") with
  | (_, some _) => ⟨none, [], log0 ++ ["Failed to glob for output files to archive"], [], []⟩
  | (files, none) =>
    let output := i.GetOrionRuntime ++ "_ABORT.zip"
    match ops.Create output with
    | some _ =>
      ⟨none, [], log0 ++ ["Failed to create output archive for terminated instance"], [], []⟩
    | none =>
      let st := safeAbortLoop ops files ⟨[], log0⟩
      ⟨some output, st.entries, st.log ++ ["Orion termination complete"], [], []⟩

/-- The entry one file contributes to the archive, if any: none when
opening, stat, header creation or `CreateHeader` fails; otherwise the entry
named by the path `file`, with method `Deflate`, holding what `io.Copy`
wrote, complete when `io.Copy` returned nil. -/
def packedEntry (ops : ArchiveOps) (file : String) : Option ZipEntry :=
  match ops.Open file, ops.Stat file, ops.FileInfoHeader file with
  | none, none, .ok _ =>
    match ops.CreateHeader ⟨file, Method.Deflate⟩ with
    | none => some ⟨⟨file, Method.Deflate⟩, (ops.Copy file).1, (ops.Copy file).2.isNone⟩
    | some _ => none
  | _, _, _ => none

/-- Whether opening, stat, header creation, `CreateHeader` and copy all
succeed for `file`. -/
def packsCleanly (ops : ArchiveOps) (file : String) : Bool :=
  (ops.Open file).isNone && (ops.Stat file).isNone && (ops.FileInfoHeader file).toBool &&
    (ops.CreateHeader ⟨file, Method.Deflate⟩).isNone && (ops.Copy file).2.isNone

/-! ### The run of `executeModules` as a machine

The goroutines of `executeModules` are interleaved by a scheduler: the main
goroutine, one task per dispatched module, and the signal handler. A step
is one action of one of them, or the arrival of an interrupt. -/

/-- What a run does, in the order it happens. -/
inductive Event
  /-- `signal.Notify(c, os.Interrupt)` and the start of the handler goroutine. -/
  | signalNotify
  /-- `wg.Add(1)`. -/
  | wgAdd
  /-- `go executeModule(module, &wg, i)`. -/
  | goExecuteModule (module : String)
  /-- The call `executeModule(module, nil, i)` of the sequential branch. -/
  | callExecuteModule (module : String)
  /-- A call of `executeModule` returned, its deferred `wg.Done()` included. -/
  | returned (run : ModuleRun)
  /-- `wg.Wait()` returned. -/
  | wgWait
  /-- `archive(i)` was called. -/
  | archive
  /-- The handler received the signal and called `safeAbort`. -/
  | safeAbort
  /-- `os.Exit(status)`. -/
  | exit (status : Nat)
  /-- An interrupt that no listener takes ended the process. -/
  | killed
  /-- A panic ended the process. -/
  | crashed
  deriving Repr, DecidableEq

/-- Where the main goroutine stands in `executeModules`. -/
inductive Pc
  /-- Before the test of `NoMultithreading()`. -/
  | start
  /-- In the loop over the modules; `rest` are the modules still to go. -/
  | dispatch (rest : List String)
  /-- At `wg.Wait()`. -/
  | waiting
  /-- Before `archive(i)`. -/
  | archiving
  /-- After `return nil`. -/
  | done
  deriving Repr, DecidableEq

/-- The goroutine `go func() { select { case sig := <-c: ... } }()`: not
created, created but not yet at the receive, blocked in the receive, or past
it (in `safeAbort` and `abortWg.Wait()`). -/
inductive HandlerState
  | absent | started | receiving | aborting
  deriving Repr, DecidableEq

/-- The state of a run: the main goroutine, the modules whose goroutine has
not returned yet, the counter of the wait group, the handler, whether the
process has ended, and the events so far. -/
structure Sched where
  pc : Pc
  running : List String
  wg : Int
  handler : HandlerState
  ended : Bool
  trace : List Event
  deriving Repr, DecidableEq

/-- The state before `executeModules` starts. -/
def Sched.initial : Sched := ⟨.start, [], 0, .absent, false, []⟩

/-- What the scheduler lets happen next: a statement of the main goroutine,
the completion of the task at a position of `running`, the arrival of an
interrupt, or a move of the handler goroutine. -/
inductive Action
  | main
  | task (k : Nat)
  | interrupt
  | handler
  deriving Repr, DecidableEq

/-- The next statement of the main goroutine in `executeModules`; `none`
when it has returned or is blocked in `wg.Wait()`. -/
def mainStep (typeRegistry : TypeRegistry) (modules : List String)
    (i : orioninstance.Instance) (s : Sched) : Option Sched :=
  match s.pc with
  | .start =>
    if i.NoMultithreading = false then
      some { s with pc := .dispatch modules, handler := .started,
                    trace := s.trace ++ [.signalNotify] }
    else some { s with pc := .dispatch modules }
  | .dispatch (module :: rest) =>
    if i.NoMultithreading = false then
      some { s with pc := .dispatch rest, wg := s.wg + 1, running := s.running ++ [module],
                    trace := s.trace ++ [.wgAdd, .goExecuteModule module] }
    else
      match executeModule typeRegistry module false i with
      | none =>
        some { s with ended := true, trace := s.trace ++ [.callExecuteModule module, .crashed] }
      | some run =>
        some { s with pc := .dispatch rest,
                      trace := s.trace ++ [.callExecuteModule module, .returned run] }
  | .dispatch [] =>
    if i.NoMultithreading = false then some { s with pc := .waiting }
    else some { s with pc := .archiving }
  | .waiting =>
    if s.wg = 0 then some { s with pc := .archiving, trace := s.trace ++ [.wgWait] } else none
  | .archiving => some { s with pc := .done, trace := s.trace ++ [.archive] }
  | .done => none

/-- The goroutine of the module at position `k` of `running` runs
`executeModule(module, &wg, i)` to its return; the deferred `wg.Done()`
lowers the counter. -/
def taskStep (typeRegistry : TypeRegistry) (i : orioninstance.Instance) (s : Sched)
    (k : Nat) : Option Sched :=
  match s.running[k]? with
  | none => none
  | some module =>
    match executeModule typeRegistry module true i with
    | none => some { s with ended := true, trace := s.trace ++ [.crashed] }
    | some run =>
      some { s with running := s.running.eraseIdx k,
                    wg := if run.wgDone then s.wg - 1 else s.wg,
                    trace := s.trace ++ [.returned run] }

/-- An interrupt arrives. Without `signal.Notify` it ends the process; the
channel `c` has no buffer, so the signal is taken only while the handler is
blocked in the receive and is dropped otherwise. -/
def interruptStep (s : Sched) : Option Sched :=
  match s.handler with
  | .absent => some { s with ended := true, trace := s.trace ++ [.killed] }
  | .started => some s
  | .receiving => some { s with handler := .aborting, trace := s.trace ++ [.safeAbort] }
  | .aborting => some s

/-- The handler goroutine moves: it reaches the receive, or, `safeAbort`
done, it calls `os.Exit(1)`. -/
def handlerStep (s : Sched) : Option Sched :=
  match s.handler with
  | .absent => none
  | .started => some { s with handler := .receiving }
  | .receiving => none
  | .aborting => some { s with ended := true, trace := s.trace ++ [.exit 1] }

/-- One step of the run; `none` when the action is not possible in the
state (nothing happens once the process has ended). -/
def step (typeRegistry : TypeRegistry) (modules : List String) (i : orioninstance.Instance)
    (s : Sched) (a : Action) : Option Sched :=
  if s.ended then none
  else
    match a with
    | .main => mainStep typeRegistry modules i s
    | .task k => taskStep typeRegistry i s k
    | .interrupt => interruptStep s
    | .handler => handlerStep s

/-- The state a schedule leads to from `s`; `none` when one of its actions is
not possible. -/
def exec (typeRegistry : TypeRegistry) (modules : List String) (i : orioninstance.Instance) :
    Sched → List Action → Option Sched
  | s, [] => some s
  | s, a :: rest =>
    match step typeRegistry modules i s a with
    | none => none
    | some s1 => exec typeRegistry modules i s1 rest

/-- The modules for which a goroutine was started, in order. -/
def spawned (t : List Event) : List String :=
  t.filterMap fun e => match e with
    | .goExecuteModule m => some m
    | _ => none

/-- The calls of `executeModule` that returned, in order. -/
def returnedRuns (t : List Event) : List ModuleRun :=
  t.filterMap fun e => match e with
    | .returned r => some r
    | _ => none

/-- The events of a sequential run over the given calls: each call is
followed by its return before the next call. -/
def sequentialTrace (runs : List ModuleRun) : List Event :=
  runs.flatMap fun r => [.callExecuteModule r.module, .returned r]

/-- The events before the first call of `archive`. -/
def beforeArchive (t : List Event) : List Event :=
  t.takeWhile fun e => e != Event.archive

/-- The bookkeeping of a run with multithreading: the counter of the wait
group is the number of goroutines that have not returned, every goroutine
started has returned or is running, every return has run `wg.Done()`, there
is one `wg.Add(1)` per goroutine, and the main goroutine has started the
goroutines of the modules it has passed; `archive` is reached with no
goroutine running and all of them returned before it. -/
def ThreadedInv (modules : List String) (s : Sched) : Prop :=
  s.wg = s.running.length ∧
  ((returnedRuns s.trace).map (fun r => r.module) ++ s.running).Perm (spawned s.trace) ∧
  (∀ r ∈ returnedRuns s.trace, r.wgDone = true) ∧
  s.trace.count Event.wgAdd = (spawned s.trace).length ∧
  (match s.pc with
   | .start => spawned s.trace = [] ∧ Event.archive ∉ s.trace
   | .dispatch rest => spawned s.trace ++ rest = modules ∧ Event.archive ∉ s.trace
   | .waiting => spawned s.trace = modules ∧ Event.archive ∉ s.trace
   | .archiving => spawned s.trace = modules ∧ s.running = [] ∧ Event.archive ∉ s.trace
   | .done => spawned s.trace = modules ∧ s.running = [] ∧ s.trace.count Event.archive = 1 ∧
       ((returnedRuns (beforeArchive s.trace)).map (fun r => r.module)).Perm modules)

/-- The modules on which the main goroutine itself called `executeModule`,
in order. -/
def called (t : List Event) : List String :=
  t.filterMap fun e => match e with
    | .callExecuteModule m => some m
    | _ => none

/-- The shape of a run without multithreading whose calls of `executeModule`
are `runs`: no goroutine, no handler, and the events are those of the
calls made so far, one after the other, then `archive`; an interrupt adds
the end of the process. -/
def SequentialInv (runs : List ModuleRun) (s : Sched) : Prop :=
  s.running = [] ∧ s.handler = .absent ∧
  ∃ core, s.trace = core ++ (if s.ended then [Event.killed] else []) ∧
    (match s.pc with
     | .start => core = []
     | .dispatch rest => ∃ doneRuns restRuns, runs = doneRuns ++ restRuns ∧
         rest = restRuns.map (fun r => r.module) ∧ core = sequentialTrace doneRuns
     | .waiting => False
     | .archiving => core = sequentialTrace runs
     | .done => core = sequentialTrace runs ++ [Event.archive])

end engine

/-! ## `mac/modules/maclivenetstat/netstat.go` -/

namespace maclivenetstat

/-- Go `splitIPandPort(str)`; `none` when the slice expression
`temp[0:len(temp)-2]` panics (its upper bound is negative). -/
def splitIPandPort (str : String) : Option (String × String) :=
  let ip := "ERROR"
  let port := "ERROR"
  let temp := strings.Split str '.'
  if temp.length = 0 then some (ip, port)
  else if temp.length = 2 then some (temp.getD 0 "", temp.getD 1 "")
  else if temp.length < 2 then none
  else some (strings.Join (temp.take (temp.length - 2)) ".", temp.getD (temp.length - 1) "")

end maclivenetstat

/-! ## Concrete inputs used by the witnesses -/

namespace Example

/-- A windows configuration: MD5 enabled, SHA-256 disabled, limit 1024 bytes. -/
def windowsConfig : configs.Config :=
  { configpath := "orion.toml"
    macconfig := ⟨false, false, [], [], [], "", 0, false, false⟩
    macconfigbool := false
    windowsconfig :=
      { ForensicMode := false, Verbose := false, Modules := ["WindowsDirlistModule"],
        DirlistExcludedDrives := [], DirlistExcludedDirs := ["skip", ".git"],
        DirlistExcludedExts := [], DirlistRootWalkDir := "",
        DirlistHashSizeLimitBytes := 1024, DirlistDoHashMD5 := true,
        DirlistDoHashSHA256 := false }
    windowsconfigbool := true }

/-- A mac configuration with the same dirlist settings. -/
def macConfig : configs.Config :=
  { configpath := "orion.toml"
    macconfig :=
      { ForensicMode := true, Verbose := false, Modules := ["MacDirlistModule"],
        DirlistExcludedDirs := ["skip", ".git"], DirlistExcludedExts := [],
        DirlistRootWalkDir := "", DirlistHashSizeLimitBytes := 1024,
        DirlistDoHashMD5 := true, DirlistDoHashSHA256 := false }
    macconfigbool := true
    windowsconfig := ⟨false, false, [], [], [], [], "", 0, false, false⟩
    windowsconfigbool := false }

/-- A configuration of neither platform, as `Config{}` is. -/
def noConfig : configs.Config :=
  { configpath := ""
    macconfig := ⟨false, false, [], [], [], "", 0, false, false⟩
    macconfigbool := false
    windowsconfig := ⟨false, false, [], [], [], [], "", 0, false, false⟩
    windowsconfigbool := false }

/-- A sequential windows run. -/
def windowsInstance : orioninstance.Instance :=
  { orionconfig := windowsConfig, orionruntime := "run1", noMultithreading := true,
    outputformat := "csv", outputpath := "out", targetpath := "/root",
    forensicMode := false, mode := "windows" }

/-- A mac run in forensic mode on the target "/root". -/
def macInstance : orioninstance.Instance :=
  { orionconfig := macConfig, orionruntime := "run1", noMultithreading := true,
    outputformat := "csv", outputpath := "out", targetpath := "/root",
    forensicMode := true, mode := "mac" }

/-- A system with one regular file, "/root/a.txt" of 50 bytes; every other
path does not exist. The two digest functions are stand-ins of the right
output length. -/
def sys : os.System :=
  { Lstat := fun p =>
      if p = "/root/a.txt" then .ok ⟨.regular, 50, some (501, 20)⟩
      else .error "no such file or directory"
    timesStat := fun p =>
      if p = "/root/a.txt" then
        .ok ⟨"2020-01-01 00:00:00 +0000 UTC", "2020-01-02 00:00:00 +0000 UTC",
          some "2020-01-01 00:00:00 +0000 UTC", none⟩
      else .error "no such file or directory"
    readAll := fun p =>
      if p = "/root/a.txt" then .ok (List.replicate 50 97)
      else .error "no such file or directory"
    ReadXAttr := fun _ _ => .error "attribute not found"
    sha256Sum := fun b => List.replicate 32 (b.length % 256)
    md5Sum := fun b => List.replicate 16 (b.length % 256)
    Base := fun p => ((strings.Split p '/').getLast?).getD p
    Join := fun a b => a ++ "/" ++ b
    Glob := fun _ => []
    Getuid := 0
    Getgid := 0
    GetLogicalDrives := (4, 0) }

/-- The same system, except that no file can be opened for reading. -/
def unreadableSys : os.System :=
  { sys with readAll := fun _ => .error "permission denied" }

/-- MD5 enabled, SHA-256 disabled, limit 1024 bytes. -/
def md5Only : Globals := ⟨1024, true, false, "/root", false⟩

/-- MD5 and SHA-256 enabled, limit 1024 bytes. -/
def hashBoth : Globals := ⟨1024, true, true, "/root", false⟩

/-- Output operations that all succeed. -/
def okWriter : datawriter.Faults :=
  { create := fun _ => none
    write := fun _ => none
    writeAll := fun _ => none
    flush := none
    close := none
    Abs := fun p => p }

/-- An output directory "out" with three files, the second of which cannot
be opened; the first removal of the directory fails because it is in use,
the second succeeds. The content of a file is a stand-in. -/
def archiveOps : engine.ArchiveOps :=
  { Glob := fun pattern =>
      if pattern = "out/*" then
        (["out/run1_Good.csv", "out/locked.csv", "out/run1_Other.csv"], none)
      else ([], none)
    Create := fun _ => none
    Open := fun f => if f = "out/locked.csv" then some "permission denied" else none
    Stat := fun _ => none
    FileInfoHeader := fun f => .ok ⟨sys.Base f, engine.Method.Store⟩
    CreateHeader := fun _ => none
    Copy := fun f => (f.data.map Char.toNat, none)
    CloseLogger := none
    RemoveAll := fun k _ =>
      match k with
      | 0 => some "The process cannot access the file because it is being used by another process."
      | _ => none }

/-- The same operations, except that the archive file cannot be created. -/
def noArchiveOps : engine.ArchiveOps :=
  { archiveOps with Create := fun _ => some "access denied" }

/-- The same operations, except that the removal of the directory fails
because a file named "used by another.csv" in it may not be deleted; no
process has the directory in use. -/
def deniedArchiveOps : engine.ArchiveOps :=
  { archiveOps with
    RemoveAll := fun _ _ => some "unlinkat out/used by another.csv: permission denied" }

/-- The same operations, except that the output directory cannot be listed
(its name is not a well-formed pattern). -/
def noGlobArchiveOps : engine.ArchiveOps :=
  { archiveOps with Glob := fun _ => ([], some "syntax error in pattern") }

/-- The windows run of `windowsInstance` with multithreading. -/
def threadedInstance : orioninstance.Instance :=
  { windowsInstance with noMultithreading := false }

/-- A registry with two modules: "Good" whose `Start` returns nil and "Bad"
whose `Start` returns an error. -/
def registry : engine.TypeRegistry :=
  engine.registerType
    (engine.registerType engine.emptyRegistry
      ⟨"example", "Good", fun m => if m = "Start" then some (fun _ => none) else none⟩)
    ⟨"example", "Bad", fun m => if m = "Start" then some (fun _ => some "boom") else none⟩

/-- A schedule of the run with multithreading over "Good" and "Bad": both
goroutines are started, "Bad" returns before "Good", then the main
goroutine passes `wg.Wait()` and calls `archive`. -/
def threadedSchedule : List engine.Action :=
  [.main, .main, .handler, .main, .task 1, .task 0, .main, .main, .main]

/-- The state `threadedSchedule` leads to. -/
def threadedRun : engine.Sched :=
  (engine.exec registry ["Good", "Bad"] threadedInstance engine.Sched.initial
    threadedSchedule).getD engine.Sched.initial

/-- A mac configuration that asks for verbose output outside forensic mode. -/
def verboseConfig : configs.Config :=
  { macConfig with
    macconfig := { macConfig.macconfig with ForensicMode := false, Verbose := true } }

/-- A windows configuration in forensic mode without verbose output. -/
def quietForensicConfig : configs.Config :=
  { windowsConfig with
    windowsconfig := { windowsConfig.windowsconfig with ForensicMode := true, Verbose := false } }

/-- A configuration file "orion.toml" that sets every key, the root of the
walk among them. -/
def toml : configs.Toml :=
  { DecodeMac := fun p =>
      if p = "orion.toml" then
        ({ ForensicMode := true, Verbose := true, Modules := ["MacDirlistModule"],
           DirlistExcludedDirs := ["skip"], DirlistExcludedExts := ["tmp"],
           DirlistRootWalkDir := "/Volumes/evidence", DirlistHashSizeLimitBytes := 2048,
           DirlistDoHashMD5 := true, DirlistDoHashSHA256 := true }, none)
      else (configs.MacConfig.zero, some "open: no such file or directory")
    DecodeWindows := fun p =>
      if p = "orion.toml" then
        ({ ForensicMode := true, Verbose := true, Modules := ["WindowsDirlistModule"],
           DirlistExcludedDrives := ["D:"], DirlistExcludedDirs := ["skip"],
           DirlistExcludedExts := ["tmp"], DirlistRootWalkDir := "E:",
           DirlistHashSizeLimitBytes := 2048, DirlistDoHashMD5 := true,
           DirlistDoHashSHA256 := true }, none)
      else (configs.WindowsConfig.zero, some "open: no such file or directory") }

/-- The list `notUsers` of `macusers/users.go`, the directory names that are
not taken as users. -/
def notUsers : List String :=
  [".localized", "Shared", "agentx", "at", "audit", "backups", "db", "empty",
   "folders", "install", "jabberd", "lib", "log", "mail", "msgs", "netboot",
   "networkd", "rpc", "run", "rwho", "spool", "tmp", "vm", "yp", "ma"]

/-- A map with the three keys of a header. -/
def valmap : util.StringMap :=
  ⟨[("user", "alice"), ("uid", "501"), ("shell", "/bin/zsh")], by decide⟩

/-- A file on which every write and the close succeed. -/
def okSink : datawriter.Sink := ⟨fun _ => none, none⟩

/-- A file on which the first operation fails (the disk is full). -/
def fullSink : datawriter.Sink := ⟨fun _ => some "no space left on device", none⟩

/-- A file on which the operations succeed until the rows are flushed. -/
def lateSink : datawriter.Sink :=
  ⟨fun k => if k < 3 then none else some "no space left on device", none⟩

/-- A directory with a file "b.txt" and a directory "Volumes" in which the
volume "ext" is mounted, holding the file "a.txt". -/
def volumesTree : godirwalk.Node :=
  .dir (.cons "Volumes"
      (.dir (.cons "ext" (.dir (.cons "a.txt" (.file .regular) .nil)) .nil))
    (.cons "b.txt" (.file .regular) .nil))

/-- A file system with `volumesTree` at "/root" and at "/cases/img[1]". -/
def volumesFs : godirwalk.FileSystem := fun p =>
  if p = "/root" ∨ p = "/cases/img[1]" then .ok volumesTree
  else .error "no such file or directory"

/-- The system of `volumesFs`: every path ending in ".txt" is a regular file
of 50 bytes. `Glob` is `filepath.Glob` on that file system: the pattern
"/root/Volumes/*" matches "/root/Volumes/ext"; in the pattern
"/cases/img[1]/Volumes/*" the text "[1]" is a character class, which matches
the name "img1" and not the name "img[1]", so nothing matches. -/
def volumesSys : os.System :=
  { sys with
    Lstat := fun p =>
      if strings.HasSuffix p ".txt" then .ok ⟨.regular, 50, some (501, 20)⟩
      else .error "no such file or directory"
    timesStat := fun p =>
      if strings.HasSuffix p ".txt" then
        .ok ⟨"2020-01-01 00:00:00 +0000 UTC", "2020-01-02 00:00:00 +0000 UTC",
          some "2020-01-01 00:00:00 +0000 UTC", none⟩
      else .error "no such file or directory"
    readAll := fun p =>
      if strings.HasSuffix p ".txt" then .ok (List.replicate 50 97)
      else .error "no such file or directory"
    Glob := fun pattern =>
      if pattern = "/root/Volumes/*" then ["/root/Volumes/ext"] else [] }

/-- A mac run outside forensic mode on the target "/root". -/
def liveMacInstance : orioninstance.Instance :=
  { macInstance with forensicMode := false }

/-- A mac run outside forensic mode on the target "/cases/img[1]". -/
def bracketInstance : orioninstance.Instance :=
  { macInstance with forensicMode := false, targetpath := "/cases/img[1]" }

end Example

/-! # Theorems -/

/-! ## Suffix matching -/

theorem strings.HasSuffix_iff_append (s suffix : String) :
    strings.HasSuffix s suffix = true ↔ ∃ pre : String, s = pre ++ suffix := by
  unfold strings.HasSuffix
  constructor
  · intro h
    simp only [Bool.and_eq_true, decide_eq_true_eq] at h
    refine ⟨String.mk (s.data.take (s.data.length - suffix.data.length)), ?_⟩
    apply String.ext
    rw [String.data_append]
    conv_lhs => rw [← List.take_append_drop (s.data.length - suffix.data.length) s.data]
    rw [h.2]
  · rintro ⟨pre, rfl⟩
    simp [String.data_append]

theorem macdirlist.substringListContains_iff (l : List String) (p : String) :
    macdirlist.substringListContains l p = true ↔ ∃ e ∈ l, ∃ pre : String, p = pre ++ e := by
  induction l with
  | nil => simp [macdirlist.substringListContains]
  | cons val rest ih =>
    unfold macdirlist.substringListContains
    by_cases h : strings.HasSuffix p val = true
    · simp only [h, if_true, true_iff]
      exact ⟨val, List.mem_cons_self _ _, (strings.HasSuffix_iff_append p val).1 h⟩
    · simp only [h, if_false, ih, List.mem_cons, Bool.false_eq_true]
      constructor
      · rintro ⟨e, he, hp⟩
        exact ⟨e, Or.inr he, hp⟩
      · rintro ⟨e, he | he, hp⟩
        · subst he
          exact absurd ((strings.HasSuffix_iff_append p e).2 hp) h
        · exact ⟨e, he, hp⟩

theorem windowsdirlist.substringListContains_eq_mac (l : List String) (p : String) :
    windowsdirlist.substringListContains l p = macdirlist.substringListContains l p := by
  induction l with
  | nil => rfl
  | cons val rest ih =>
    unfold windowsdirlist.substringListContains macdirlist.substringListContains
    rw [ih]

/-- C4: `substringListContains(l, p)` is true exactly when some entry of `l`
is a suffix of the full string `p` (no globbing, no alignment on path
segments), in the mac and in the windows module; the entry "Library/Caches"
matches every path ending in it, and the entry "tmp" matches
"/some/path/subtmp". -/
theorem substringListContains_is_suffix_match (l : List String) (p : String) :
    (macdirlist.substringListContains l p = true ↔ ∃ e ∈ l, ∃ pre : String, p = pre ++ e) ∧
    (windowsdirlist.substringListContains l p = true ↔ ∃ e ∈ l, ∃ pre : String, p = pre ++ e) ∧
    (∀ pre : String,
      macdirlist.substringListContains ["Library/Caches"] (pre ++ "Library/Caches") = true ∧
      windowsdirlist.substringListContains ["Library/Caches"] (pre ++ "Library/Caches") = true) ∧
    macdirlist.substringListContains ["tmp"] "/some/path/subtmp" = true ∧
    windowsdirlist.substringListContains ["tmp"] "/some/path/subtmp" = true := by
  refine ⟨macdirlist.substringListContains_iff l p, ?_, ?_, by decide, by decide⟩
  · rw [windowsdirlist.substringListContains_eq_mac]
    exact macdirlist.substringListContains_iff l p
  · intro pre
    rw [windowsdirlist.substringListContains_eq_mac, and_self]
    exact (macdirlist.substringListContains_iff _ _).2
      ⟨"Library/Caches", List.mem_singleton.2 rfl, pre, rfl⟩

/-! ## File extensions -/

/-- C6: `util.FileExtension` at the paths of the claim: "/root/a.txt" gives
"txt", but a path whose final component has no "." does not give the empty
string: "/root/Makefile" comes back whole and "/root/dir.d/file" gives
"d/file". -/
theorem FileExtension_without_dot_in_final_component :
    util.FileExtension "/root/a.txt" = "txt" ∧
    util.FileExtension "/root/Makefile" = "/root/Makefile" ∧
    util.FileExtension "/root/dir.d/file" = "d/file" := by
  decide

/-! ## The module registry and the engine -/

theorem strings.splitChars_length_pos (sep : Char) (cs : List Char) :
    0 < (strings.splitChars sep cs).length := by
  cases cs with
  | nil => simp [strings.splitChars]
  | cons c cs =>
    simp only [strings.splitChars]
    split
    · simp
    · split <;> simp

theorem strings.splitChars_cons_length (sep c : Char) (cs : List Char) :
    (strings.splitChars sep (c :: cs)).length =
      (strings.splitChars sep cs).length + (if c = sep then 1 else 0) := by
  have hpos := strings.splitChars_length_pos sep cs
  simp only [strings.splitChars]
  by_cases h : c = sep
  · simp [h]
  · simp only [h, if_false, Nat.add_zero]
    split
    · rename_i heq
      simp [heq] at hpos
    · rename_i heq
      simp [heq]

theorem strings.splitChars_append_sep_length (sep : Char) (a b : List Char) :
    2 ≤ (strings.splitChars sep (a ++ sep :: b)).length := by
  induction a with
  | nil =>
    have hpos := strings.splitChars_length_pos sep b
    rw [List.nil_append, strings.splitChars_cons_length]
    simp
    omega
  | cons c a ih =>
    rw [List.cons_append, strings.splitChars_cons_length]
    omega

theorem engine.ModuleType.String_split (t : engine.ModuleType) :
    ∃ typeName, (strings.Split t.String '.')[1]? = some typeName := by
  have h : 2 ≤ (strings.Split t.String '.').length := by
    have := strings.splitChars_append_sep_length '.' t.pkg.data t.name.data
    simpa [strings.Split, engine.ModuleType.String, String.data_append] using this
  exact ⟨(strings.Split t.String '.')[1], by simp [List.getElem?_eq_getElem, h]⟩

theorem engine.invoke_isSome (typeRegistry : engine.TypeRegistry) (mod name : String)
    (inst : orioninstance.Instance) :
    ∃ out err, engine.invoke typeRegistry mod name inst = some (out, err) ∧
      (err = none → out.length = 1) := by
  unfold engine.invoke engine.makeInstance
  cases hreg : typeRegistry mod with
  | none => exact ⟨[], _, rfl, by simp⟩
  | some t =>
    obtain ⟨typeName, htn⟩ := engine.ModuleType.String_split t
    simp only [htn]
    by_cases hne : typeName ≠ mod
    · exact ⟨[], some ("typeRegistry returned wrong instance \x27" ++ typeName ++
        "\x27 for \x27" ++ mod),
        by simp [hne], by simp⟩
    · cases hm : t.MethodByName name with
      | none =>
        exact ⟨[], some ("method not found \x22" ++ name ++ "\x22"), by simp [hne, hm], by simp⟩
      | some m => exact ⟨[m inst], none, by simp [hne, hm], by simp⟩

theorem engine.executeModule_isSome (typeRegistry : engine.TypeRegistry) (module : String)
    (useWg : Bool) (inst : orioninstance.Instance) :
    ∃ run, engine.executeModule typeRegistry module useWg inst = some run ∧
      run.module = module ∧
      (run.started = true ↔
        ∃ out, engine.invoke typeRegistry module "Start" inst = some (out, none)) := by
  obtain ⟨out, err, hinv, hlen⟩ := engine.invoke_isSome typeRegistry module "Start" inst
  unfold engine.executeModule
  rw [hinv]
  cases err with
  | some e => exact ⟨_, rfl, rfl, by simp⟩
  | none =>
    have h1 := hlen rfl
    match out, h1 with
    | [some startErr], _ => exact ⟨_, rfl, rfl, by simp⟩
    | [none], _ => exact ⟨_, rfl, rfl, by simp⟩

theorem engine.runModules_isSome (typeRegistry : engine.TypeRegistry) (useWg : Bool)
    (inst : orioninstance.Instance) (modules : List String) :
    ∃ runs, engine.runModules typeRegistry useWg inst modules = some runs ∧
      runs.map (fun run => run.module) = modules ∧
      List.Forall₂ (fun module run =>
        engine.executeModule typeRegistry module useWg inst = some run) modules runs := by
  induction modules with
  | nil => exact ⟨[], rfl, rfl, List.Forall₂.nil⟩
  | cons m ms ih =>
    obtain ⟨runs, hruns, hmap, hall⟩ := ih
    obtain ⟨run, hrun, hmod, _⟩ := engine.executeModule_isSome typeRegistry m useWg inst
    refine ⟨run :: runs, ?_, ?_, List.Forall₂.cons hrun hall⟩
    · simp [engine.runModules, hrun, hruns]
    · simp [hmod, hmap]

/-- C9: `makeInstance(name)` returns the zero value of the registered type and
`true` when `name` is a key of `typeRegistry`, and `(nil, false)` otherwise;
for a name that is not registered `invoke(name, "Start", inst)` does not
panic and returns an empty result list with a non-nil error. -/
theorem makeInstance_finds_registered_names_only (typeRegistry : engine.TypeRegistry)
    (name : String) (inst : orioninstance.Instance) :
    (∀ t, typeRegistry name = some t →
      engine.makeInstance typeRegistry name = (some ⟨t⟩, true)) ∧
    (typeRegistry name = none →
      engine.makeInstance typeRegistry name = (none, false) ∧
      ∃ msg, engine.invoke typeRegistry name "Start" inst = some ([], some msg)) := by
  constructor
  · intro t ht
    simp [engine.makeInstance, ht]
  · intro hnone
    refine ⟨by simp [engine.makeInstance, hnone],
      "failed to create instance of \x27" ++ name ++ "\x27", ?_⟩
    simp only [engine.invoke, engine.makeInstance, hnone]

/-- Witness of C9: in a registry holding "Good" and "Bad", the name "Good"
yields an instance, and the name "Missing" yields `(nil, false)` and an
error from `invoke`. -/
theorem makeInstance_finds_registered_names_only_witness :
    (∃ t, Example.registry "Good" = some t ∧
      engine.makeInstance Example.registry "Good" = (some ⟨t⟩, true)) ∧
    Example.registry "Missing" = none ∧
    engine.makeInstance Example.registry "Missing" = (none, false) ∧
    ∃ msg, engine.invoke Example.registry "Missing" "Start" Example.windowsInstance
      = some ([], some msg) :=
  have hmissing : Example.registry "Missing" = none := by
    simp [Example.registry, engine.registerType, engine.emptyRegistry]
  have hgood : Example.registry "Good" = some
      ⟨"example", "Good", fun m => if m = "Start" then some (fun _ => none) else none⟩ := by
    simp [Example.registry, engine.registerType]
  ⟨⟨_, hgood,
      (makeInstance_finds_registered_names_only Example.registry "Good"
        Example.windowsInstance).1 _ hgood⟩,
    hmissing,
    (makeInstance_finds_registered_names_only Example.registry "Missing"
      Example.windowsInstance).2 hmissing⟩

/-- C10: for every module list, whichever modules fail (a name absent from
the registry, or a `Start` that returns an error), `executeModules` does not
panic, calls `executeModule` once for every module of the list, each call
giving what `executeModule` gives for that module alone, and goes on to
`archive` and returns nil. -/
theorem executeModules_runs_every_module (typeRegistry : engine.TypeRegistry)
    (modules : List String) (i : orioninstance.Instance) :
    ∃ r, engine.executeModules typeRegistry modules i = some r ∧
      r.runs.map (fun run => run.module) = modules ∧
      List.Forall₂ (fun module run =>
        engine.executeModule typeRegistry module (!i.NoMultithreading) i = some run ∧
        (run.started = true ↔
          ∃ out, engine.invoke typeRegistry module "Start" i = some (out, none)))
        modules r.runs ∧
      r.archived = true ∧ r.ret = none := by
  have key : ∀ useWg : Bool, ∀ runs : List engine.ModuleRun,
      List.Forall₂ (fun module run =>
        engine.executeModule typeRegistry module useWg i = some run) modules runs →
      List.Forall₂ (fun module run =>
        engine.executeModule typeRegistry module useWg i = some run ∧
        (run.started = true ↔
          ∃ out, engine.invoke typeRegistry module "Start" i = some (out, none)))
        modules runs := by
    intro useWg runs h
    refine h.imp ?_
    intro module run hrun
    obtain ⟨run2, hrun2, _, hstarted⟩ := engine.executeModule_isSome typeRegistry module useWg i
    rw [hrun] at hrun2
    cases hrun2
    exact ⟨hrun, hstarted⟩
  unfold engine.executeModules
  by_cases hmt : i.NoMultithreading = false
  · obtain ⟨runs, hruns, hmap, hall⟩ := engine.runModules_isSome typeRegistry true i modules
    refine ⟨⟨runs, modules.length, true, none⟩, by simp [hmt, hruns], hmap, ?_, rfl, rfl⟩
    simpa [hmt] using key true runs hall
  · obtain ⟨runs, hruns, hmap, hall⟩ := engine.runModules_isSome typeRegistry false i modules
    have hmt2 : i.NoMultithreading = true := by simpa using hmt
    refine ⟨⟨runs, 0, true, none⟩, by simp [hmt2, hruns], hmap, ?_, rfl, rfl⟩
    simpa [hmt2] using key false runs hall

/-! ## The extension filter of the callback -/

theorem strings.splitChars_of_not_mem (sep : Char) (cs : List Char) (h : sep ∉ cs) :
    strings.splitChars sep cs = [cs] := by
  induction cs with
  | nil => rfl
  | cons c cs ih =>
    have hc : ¬ c = sep := fun e => h (e ▸ List.mem_cons_self _ _)
    have hcs : sep ∉ cs := fun e => h (List.mem_cons_of_mem _ e)
    simp [strings.splitChars, hc, ih hcs]

theorem strings.splitChars_append_sep (sep : Char) (a b : List Char) :
    strings.splitChars sep (a ++ sep :: b) =
      strings.splitChars sep a ++ strings.splitChars sep b := by
  induction a with
  | nil => simp [strings.splitChars]
  | cons c a ih =>
    have hpos := strings.splitChars_length_pos sep a
    by_cases hc : c = sep
    · simp [strings.splitChars, hc, ih]
    · rw [List.cons_append, strings.splitChars, if_neg hc, ih, strings.splitChars, if_neg hc]
      cases hs : strings.splitChars sep a with
      | nil => simp [hs] at hpos
      | cons seg rest => simp

theorem strings.lastPiece_of_not_mem (sep : Char) (cs : List Char) (h : sep ∉ cs) :
    strings.lastPiece sep cs = cs := by
  simp [strings.lastPiece, strings.splitChars_of_not_mem sep cs h]

theorem strings.lastPiece_append_sep (sep : Char) (a b : List Char) (h : sep ∉ b) :
    strings.lastPiece sep (a ++ sep :: b) = b := by
  simp [strings.lastPiece, strings.splitChars_append_sep, strings.splitChars_of_not_mem sep b h]

theorem strings.exists_last_occurrence (sep : Char) (cs : List Char) (h : sep ∈ cs) :
    ∃ a b, cs = a ++ sep :: b ∧ sep ∉ b := by
  induction cs with
  | nil => cases h
  | cons c cs ih =>
    by_cases hcs : sep ∈ cs
    · obtain ⟨a, b, hab, hb⟩ := ih hcs
      exact ⟨c :: a, b, by rw [hab]; rfl, hb⟩
    · rcases List.mem_cons.1 h with e | e
      · exact ⟨[], cs, by rw [e]; rfl, hcs⟩
      · exact absurd e hcs

theorem strings.lastPiece_cases (sep : Char) (cs : List Char) :
    (sep ∉ cs ∧ strings.lastPiece sep cs = cs) ∨
    ∃ a b, cs = a ++ sep :: b ∧ sep ∉ b ∧ strings.lastPiece sep cs = b := by
  by_cases h : sep ∈ cs
  · obtain ⟨a, b, hab, hb⟩ := strings.exists_last_occurrence sep cs h
    exact Or.inr ⟨a, b, hab, hb, by rw [hab]; exact strings.lastPiece_append_sep sep a b hb⟩
  · exact Or.inl ⟨h, strings.lastPiece_of_not_mem sep cs h⟩

theorem util.FileExtension_eq_lastPiece (p : String) :
    util.FileExtension p = String.mk (strings.lastPiece '.' p.data) := by
  have hpos := strings.splitChars_length_pos '.' p.data
  unfold util.FileExtension strings.lastPiece strings.Split
  simp only [List.get_eq_getElem, List.getElem_map, List.length_map]
  congr 1
  rw [List.getLast?_eq_getElem?, List.getElem?_eq_getElem (by omega)]
  rfl

theorem util.FileExtension_eq_spec_of_dot (sep : Char) (p : String)
    (h : '.' ∈ strings.lastPiece sep p.data) :
    util.FileExtension p = util.specFileExtension sep p := by
  rw [util.FileExtension_eq_lastPiece]
  unfold util.specFileExtension
  simp only [h, if_true]
  congr 1
  obtain ⟨a, b, hab, hb⟩ := strings.exists_last_occurrence '.' _ h
  rw [hab, strings.lastPiece_append_sep '.' a b hb]
  rcases strings.lastPiece_cases sep p.data with ⟨_, h1⟩ | ⟨a', b', h1, _, h2⟩
  · rw [h1] at hab
    rw [hab, strings.lastPiece_append_sep '.' a b hb]
  · rw [h2] at hab
    have : p.data = (a' ++ sep :: a) ++ '.' :: b := by rw [h1, hab]; simp
    rw [this, strings.lastPiece_append_sep '.' _ b hb]

theorem util.FileExtension_ne_spec_of_no_dot (sep : Char) (hsep : sep ≠ '.') (p : String)
    (h : '.' ∉ strings.lastPiece sep p.data) (hp : p ≠ "") :
    util.FileExtension p ≠ util.specFileExtension sep p := by
  rw [util.FileExtension_eq_lastPiece]
  unfold util.specFileExtension
  simp only [h, if_false]
  have hne : p.data ≠ [] := fun e => hp (String.ext e)
  intro heq
  have hnil : strings.lastPiece '.' p.data = [] := by
    have := congrArg String.data heq
    simpa using this
  rcases strings.lastPiece_cases '.' p.data with ⟨_, h1⟩ | ⟨a, b, h1, _, h2⟩
  · exact hne (h1 ▸ hnil)
  · rw [hnil] at h2
    subst h2
    rcases strings.lastPiece_cases sep p.data with ⟨_, h3⟩ | ⟨a', b', h3, _, h4⟩
    · rw [h3, h1] at h
      exact h (by simp)
    · rw [h4] at h
      have hl : (a ++ ['.']).getLast? = (a' ++ sep :: b').getLast? := by rw [← h1, ← h3]
      rw [List.getLast?_append_of_ne_nil _ (by simp),
        List.getLast?_append_of_ne_nil _ (by simp)] at hl
      cases hb : b'.reverse with
      | nil =>
        have : b' = [] := by simpa using hb
        subst this
        simp at hl
        exact hsep hl.symm
      | cons x xs =>
        have hb' : b' = xs.reverse ++ [x] := by
          have := congrArg List.reverse hb
          simpa using this
        rw [hb'] at hl h
        rw [← List.cons_append, List.getLast?_append_of_ne_nil _ (by simp)] at hl
        simp at hl
        exact h (by simp [← hl])

/-- C5: for a regular file visited by the dirlist callback, in the mac and in
the windows module, the callback returns nil in both cases, and it appends no
row when the value `e` of `util.FileExtension` on the path, or "." followed
by `e`, is in `S`, and exactly the row of `parseRegular` otherwise;
membership is string equality, so "TXT" in `S` does not exclude
"/root/a.txt". When the final path component contains a ".", `e` is the
extension of the file (`util.specFileExtension`) and the claim holds. When
it contains none and the path is not empty, `e` is not the extension of the
file: for "/root/Makefile" and for "/root/dir.d/file", whose extension is
the empty string, the callback appends a row although "" is in `S`, and it
appends none for "/root/Makefile" when `S` is `["/root/Makefile"]`. -/
theorem callback_regular_file_extension_filter (sys : os.System) (g : Globals)
    (excludedDirs S : List String) (st : WalkState) (p name : String) :
    ((macdirlist.Callback sys g excludedDirs S st p ⟨name, .regular⟩).2 = none ∧
      (macdirlist.Callback sys g excludedDirs S st p ⟨name, .regular⟩).1.values =
        st.values ++
          (if util.FileExtension p ∈ S ∨ "." ++ util.FileExtension p ∈ S then []
           else [macdirlist.parseRegular sys g p])) ∧
    ((windowsdirlist.Callback sys g excludedDirs S st p ⟨name, .regular⟩).2 = none ∧
      (windowsdirlist.Callback sys g excludedDirs S st p ⟨name, .regular⟩).1.values =
        st.values ++
          (if util.FileExtension p ∈ S ∨ "." ++ util.FileExtension p ∈ S then []
           else [windowsdirlist.parseRegular sys g p])) ∧
    (macdirlist.Callback sys g excludedDirs ["TXT"] st "/root/a.txt" ⟨name, .regular⟩).1.values =
      st.values ++ [macdirlist.parseRegular sys g "/root/a.txt"] ∧
    (macdirlist.Callback sys g excludedDirs [".txt"] st "/root/a.txt" ⟨name, .regular⟩).1.values =
      st.values ∧
    (∀ sep : Char, '.' ∈ strings.lastPiece sep p.data →
      util.FileExtension p = util.specFileExtension sep p ∧
      (macdirlist.Callback sys g excludedDirs S st p ⟨name, .regular⟩).1.values =
        st.values ++
          (if util.specFileExtension sep p ∈ S ∨ "." ++ util.specFileExtension sep p ∈ S
           then [] else [macdirlist.parseRegular sys g p]) ∧
      (windowsdirlist.Callback sys g excludedDirs S st p ⟨name, .regular⟩).1.values =
        st.values ++
          (if util.specFileExtension sep p ∈ S ∨ "." ++ util.specFileExtension sep p ∈ S
           then [] else [windowsdirlist.parseRegular sys g p])) ∧
    (∀ sep : Char, sep ≠ '.' → '.' ∉ strings.lastPiece sep p.data → p ≠ "" →
      util.specFileExtension sep p = "" ∧ util.FileExtension p ≠ "") ∧
    (util.specFileExtension '/' "/root/Makefile" = "" ∧
      (macdirlist.Callback sys g excludedDirs [""] st "/root/Makefile"
          ⟨"Makefile", .regular⟩).1.values =
        st.values ++ [macdirlist.parseRegular sys g "/root/Makefile"] ∧
      (windowsdirlist.Callback sys g excludedDirs [""] st "/root/Makefile"
          ⟨"Makefile", .regular⟩).1.values =
        st.values ++ [windowsdirlist.parseRegular sys g "/root/Makefile"] ∧
      (macdirlist.Callback sys g excludedDirs ["/root/Makefile"] st "/root/Makefile"
          ⟨"Makefile", .regular⟩).1.values = st.values) ∧
    (util.specFileExtension '/' "/root/dir.d/file" = "" ∧
      (macdirlist.Callback sys g excludedDirs [""] st "/root/dir.d/file"
          ⟨"file", .regular⟩).1.values =
        st.values ++ [macdirlist.parseRegular sys g "/root/dir.d/file"]) := by
  have hmac : ∀ (S : List String) (p name : String),
      (macdirlist.Callback sys g excludedDirs S st p ⟨name, .regular⟩).2 = none ∧
      (macdirlist.Callback sys g excludedDirs S st p ⟨name, .regular⟩).1.values =
        st.values ++
          (if util.FileExtension p ∈ S ∨ "." ++ util.FileExtension p ∈ S then []
           else [macdirlist.parseRegular sys g p]) := by
    intro S p name
    by_cases h : util.FileExtension p ∈ S ∨ "." ++ util.FileExtension p ∈ S
    · simp [macdirlist.Callback, godirwalk.Dirent.IsDir, godirwalk.Dirent.IsRegular, h]
    · simp [macdirlist.Callback, godirwalk.Dirent.IsDir, godirwalk.Dirent.IsRegular, h]
  have hwin : ∀ (S : List String) (p name : String),
      (windowsdirlist.Callback sys g excludedDirs S st p ⟨name, .regular⟩).2 = none ∧
      (windowsdirlist.Callback sys g excludedDirs S st p ⟨name, .regular⟩).1.values =
        st.values ++
          (if util.FileExtension p ∈ S ∨ "." ++ util.FileExtension p ∈ S then []
           else [windowsdirlist.parseRegular sys g p]) := by
    intro S p name
    by_cases h : util.FileExtension p ∈ S ∨ "." ++ util.FileExtension p ∈ S
    · simp [windowsdirlist.Callback, godirwalk.Dirent.IsDir, godirwalk.Dirent.IsRegular, h]
    · simp [windowsdirlist.Callback, godirwalk.Dirent.IsDir, godirwalk.Dirent.IsRegular, h]
  have htxt : util.FileExtension "/root/a.txt" = "txt" := by decide
  have hmk : util.FileExtension "/root/Makefile" = "/root/Makefile" := by decide
  have hdd : util.FileExtension "/root/dir.d/file" = "d/file" := by decide
  refine ⟨hmac S p name, hwin S p name, ?_, ?_, ?_, ?_, ⟨by decide, ?_, ?_, ?_⟩, by decide, ?_⟩
  · rw [(hmac _ _ _).2, htxt]; simp
  · rw [(hmac _ _ _).2, htxt]; simp
  · intro sep h
    have he := util.FileExtension_eq_spec_of_dot sep p h
    rw [← he]
    exact ⟨rfl, (hmac S p name).2, (hwin S p name).2⟩
  · intro sep hsep h hp
    have hne := util.FileExtension_ne_spec_of_no_dot sep hsep p h hp
    have hs : util.specFileExtension sep p = "" := by
      unfold util.specFileExtension
      simp only [h, if_false]
    exact ⟨hs, fun e => hne (e.trans hs.symm)⟩
  · rw [(hmac _ _ _).2, hmk]; simp
  · rw [(hwin _ _ _).2, hmk]; simp
  · rw [(hmac _ _ _).2, hmk]; simp
  · rw [(hmac _ _ _).2, hdd]; simp

/-! ## The walk -/

mutual
theorem godirwalk.Node.regularFiles_has_above (J : String → String → String)
    (n : godirwalk.Node) (p : String) (above : List String) :
    ∀ f ∈ n.regularFiles J p above, ∀ a ∈ above, a ∈ f.1 := by
  intro f hf a ha
  cases n with
  | file k =>
    cases k <;> simp [godirwalk.Node.regularFiles] at hf
    subst hf
    exact ha
  | unreadableDir err => simp [godirwalk.Node.regularFiles] at hf
  | dir cs =>
    simp only [godirwalk.Node.regularFiles] at hf
    exact godirwalk.Children.regularFiles_children_above J cs p (above ++ [p]) f hf a
      (List.mem_append_left _ ha)
theorem godirwalk.Children.regularFiles_children_above (J : String → String → String)
    (cs : godirwalk.Children) (p : String) (above : List String) :
    ∀ f ∈ cs.regularFiles J p above, ∀ a ∈ above, a ∈ f.1 := by
  intro f hf a ha
  cases cs with
  | nil => simp [godirwalk.Children.regularFiles] at hf
  | cons name n rest =>
    simp only [godirwalk.Children.regularFiles, List.mem_append] at hf
    rcases hf with hf | hf
    · exact godirwalk.Node.regularFiles_has_above J n _ above f hf a ha
    · exact godirwalk.Children.regularFiles_children_above J rest p above f hf a ha
end

mutual
theorem godirwalk.walk_values
    (cb : WalkState → String → godirwalk.Dirent → WalkState × Option godirwalk.WalkError)
    (ecb : WalkState → String → godirwalk.WalkError → WalkState × godirwalk.ErrorAction)
    (J : String → String → String) (excl : String → Bool)
    (rowsOf : String → List (List String))
    (hskip : ∀ st p name, excl p = true → cb st p ⟨name, .dir⟩ = (st, some .SkipDir))
    (hdir : ∀ st p name, excl p = false →
      (cb st p ⟨name, .dir⟩).2 = none ∧ (cb st p ⟨name, .dir⟩).1.values = st.values)
    (hreg : ∀ st p name, (cb st p ⟨name, .regular⟩).2 = none ∧
      (cb st p ⟨name, .regular⟩).1.values = st.values ++ rowsOf p)
    (hother : ∀ st p name m, m ≠ .dir → m ≠ .regular →
      (cb st p ⟨name, m⟩).2 = none ∧ (cb st p ⟨name, m⟩).1.values = st.values)
    (hecb : ∀ st p e, (ecb st p e).2 = .SkipNode ∧ (ecb st p e).1.values = st.values)
    (n : godirwalk.Node) (p name : String) (above : List String) (st : WalkState)
    (habove : above.any excl = false) :
    (godirwalk.walk cb ecb J p name n st).1.values =
        st.values ++ ((n.regularFiles J p above).filter fun f => !f.1.any excl).flatMap
          (fun f => rowsOf f.2) ∧
      ((godirwalk.walk cb ecb J p name n st).2 = none ∨
        ((godirwalk.walk cb ecb J p name n st).2 = some .SkipDir ∧ n.modeType = .dir)) := by
  rcases hres : godirwalk.walk cb ecb J p name n st with ⟨st', e'⟩
  unfold godirwalk.walk at hres
  cases n with
  | file k =>
    cases k with
    | regular =>
      obtain ⟨h2, h1⟩ := hreg st p name
      rcases hc : cb st p ⟨name, .regular⟩ with ⟨st1, e⟩
      rw [hc] at h1 h2
      simp only at h1 h2
      subst h2
      simp only [godirwalk.Node.modeType, godirwalk.FileKind.modeType, hc, Prod.mk.injEq] at hres
      obtain ⟨rfl, rfl⟩ := hres
      simp [godirwalk.Node.regularFiles, habove, h1]
    | symlink =>
      obtain ⟨h2, h1⟩ := hother st p name .symlink (by decide) (by decide)
      rcases hc : cb st p ⟨name, .symlink⟩ with ⟨st1, e⟩
      rw [hc] at h1 h2
      simp only at h1 h2
      subst h2
      simp only [godirwalk.Node.modeType, godirwalk.FileKind.modeType, hc, Prod.mk.injEq] at hres
      obtain ⟨rfl, rfl⟩ := hres
      simp [godirwalk.Node.regularFiles, h1]
    | other =>
      obtain ⟨h2, h1⟩ := hother st p name .other (by decide) (by decide)
      rcases hc : cb st p ⟨name, .other⟩ with ⟨st1, e⟩
      rw [hc] at h1 h2
      simp only at h1 h2
      subst h2
      simp only [godirwalk.Node.modeType, godirwalk.FileKind.modeType, hc, Prod.mk.injEq] at hres
      obtain ⟨rfl, rfl⟩ := hres
      simp [godirwalk.Node.regularFiles, h1]
  | unreadableDir err =>
    by_cases hex : excl p = true
    · simp only [godirwalk.Node.modeType, hskip st p name hex, Prod.mk.injEq] at hres
      obtain ⟨rfl, rfl⟩ := hres
      simp [godirwalk.Node.regularFiles, godirwalk.Node.modeType]
    · have hex2 : excl p = false := by simpa using hex
      obtain ⟨h2, h1⟩ := hdir st p name hex2
      rcases hc : cb st p ⟨name, .dir⟩ with ⟨st1, e⟩
      rw [hc] at h1 h2
      simp only at h1 h2
      subst h2
      obtain ⟨h4, h3⟩ := hecb st1 p (.other err)
      rcases he : ecb st1 p (.other err) with ⟨st2, a⟩
      rw [he] at h3 h4
      simp only at h3 h4
      subst h4
      simp only [godirwalk.Node.modeType, hc, he, Prod.mk.injEq] at hres
      obtain ⟨rfl, rfl⟩ := hres
      simp [godirwalk.Node.regularFiles, h1, h3]
  | dir cs =>
    by_cases hex : excl p = true
    · simp only [godirwalk.Node.modeType, hskip st p name hex, Prod.mk.injEq] at hres
      obtain ⟨rfl, rfl⟩ := hres
      have hnil : ((godirwalk.Node.dir cs).regularFiles J p above).filter
          (fun f => !f.1.any excl) = [] := by
        rw [List.filter_eq_nil_iff]
        intro f hf
        simp only [godirwalk.Node.regularFiles] at hf
        have hp := godirwalk.Children.regularFiles_children_above J cs p (above ++ [p]) f hf p
          (by simp)
        simp only [Bool.not_eq_true, Bool.not_eq_false_eq_eq_true, Bool.not_not,
          List.any_eq_true]
        simpa using ⟨p, hp, hex⟩
      simp [hnil, godirwalk.Node.modeType]
    · have hex2 : excl p = false := by simpa using hex
      obtain ⟨h2, h1⟩ := hdir st p name hex2
      rcases hc : cb st p ⟨name, .dir⟩ with ⟨st1, e⟩
      rw [hc] at h1 h2
      simp only at h1 h2
      subst h2
      simp only [godirwalk.Node.modeType, hc] at hres
      have habove2 : (above ++ [p]).any excl = false := by
        simp [List.any_append, habove, hex2]
      obtain ⟨hv, hn⟩ := godirwalk.walkChildren_values cb ecb J excl rowsOf hskip hdir hreg
        hother hecb cs p (above ++ [p]) st1 habove2
      rw [hres] at hv hn
      simp only at hv hn
      subst hn
      simp [godirwalk.Node.regularFiles, hv, h1]
theorem godirwalk.walkChildren_values
    (cb : WalkState → String → godirwalk.Dirent → WalkState × Option godirwalk.WalkError)
    (ecb : WalkState → String → godirwalk.WalkError → WalkState × godirwalk.ErrorAction)
    (J : String → String → String) (excl : String → Bool)
    (rowsOf : String → List (List String))
    (hskip : ∀ st p name, excl p = true → cb st p ⟨name, .dir⟩ = (st, some .SkipDir))
    (hdir : ∀ st p name, excl p = false →
      (cb st p ⟨name, .dir⟩).2 = none ∧ (cb st p ⟨name, .dir⟩).1.values = st.values)
    (hreg : ∀ st p name, (cb st p ⟨name, .regular⟩).2 = none ∧
      (cb st p ⟨name, .regular⟩).1.values = st.values ++ rowsOf p)
    (hother : ∀ st p name m, m ≠ .dir → m ≠ .regular →
      (cb st p ⟨name, m⟩).2 = none ∧ (cb st p ⟨name, m⟩).1.values = st.values)
    (hecb : ∀ st p e, (ecb st p e).2 = .SkipNode ∧ (ecb st p e).1.values = st.values)
    (cs : godirwalk.Children) (p : String) (above : List String) (st : WalkState)
    (habove : above.any excl = false) :
    (godirwalk.walkChildren cb ecb J p cs st).1.values =
        st.values ++ ((cs.regularFiles J p above).filter fun f => !f.1.any excl).flatMap
          (fun f => rowsOf f.2) ∧
      (godirwalk.walkChildren cb ecb J p cs st).2 = none := by
  cases cs with
  | nil =>
    unfold godirwalk.walkChildren
    simp [godirwalk.Children.regularFiles]
  | cons name child rest =>
    unfold godirwalk.walkChildren
    obtain ⟨hv, hn⟩ := godirwalk.walk_values cb ecb J excl rowsOf hskip hdir hreg
      hother hecb child (J p name) name above st habove
    rcases hw : godirwalk.walk cb ecb J (J p name) name child st with ⟨st1, e⟩
    rw [hw] at hv hn
    simp only at hv hn
    obtain ⟨hv2, hn2⟩ := godirwalk.walkChildren_values cb ecb J excl rowsOf hskip hdir hreg
      hother hecb rest p above st1 habove
    rcases hn with hn | ⟨hn, hd⟩
    · subst hn
      simp only
      refine ⟨?_, hn2⟩
      rw [hv2, hv]
      simp [godirwalk.Children.regularFiles, List.filter_append, List.flatMap_append]
    · subst hn
      simp only [hd, if_true]
      refine ⟨?_, hn2⟩
      rw [hv2, hv]
      simp [godirwalk.Children.regularFiles, List.filter_append, List.flatMap_append]
end

theorem List.filter_flatMap_ite {α β : Type} (l : List α) (a b : α → Bool) (h : α → β) :
    (l.filter a).flatMap (fun f => if b f = true then [] else [h f]) =
      (l.filter fun f => a f && !b f).map h := by
  induction l with
  | nil => rfl
  | cons x xs ih =>
    by_cases ha : a x = true <;> by_cases hb : b x = true <;>
      simp [List.filter_cons, ha, hb, ih]

theorem godirwalk.Walk_values
    (cb : WalkState → String → godirwalk.Dirent → WalkState × Option godirwalk.WalkError)
    (ecb : WalkState → String → godirwalk.WalkError → WalkState × godirwalk.ErrorAction)
    (excl extExcl : String → Bool) (parse : String → List String)
    (hskip : ∀ st p name, excl p = true → cb st p ⟨name, .dir⟩ = (st, some .SkipDir))
    (hdir : ∀ st p name, excl p = false →
      (cb st p ⟨name, .dir⟩).2 = none ∧ (cb st p ⟨name, .dir⟩).1.values = st.values)
    (hreg : ∀ st p name, (cb st p ⟨name, .regular⟩).2 = none ∧
      (cb st p ⟨name, .regular⟩).1.values =
        st.values ++ (if extExcl p = true then [] else [parse p]))
    (hother : ∀ st p name m, m ≠ .dir → m ≠ .regular →
      (cb st p ⟨name, m⟩).2 = none ∧ (cb st p ⟨name, m⟩).1.values = st.values)
    (hecb : ∀ st p e, (ecb st p e).2 = .SkipNode ∧ (ecb st p e).1.values = st.values)
    (sys : os.System) (fs : godirwalk.FileSystem) (pathname : String) (st : WalkState) :
    (godirwalk.Walk cb ecb sys fs pathname st).1.values =
      st.values ++ ((godirwalk.regularFilesUnder sys fs pathname).filter fun f =>
        !f.1.any excl && !extExcl f.2).map (fun f => parse f.2) ∧
    (godirwalk.Walk cb ecb sys fs pathname st).2 =
      (match fs pathname with
        | .error e => some e
        | .ok root =>
          if root.modeType ≠ .dir then some ("cannot Walk non-directory: " ++ pathname)
          else none) := by
  unfold godirwalk.Walk godirwalk.regularFilesUnder
  cases hfs : fs pathname with
  | error e => simp
  | ok root =>
    by_cases hroot : root.modeType ≠ .dir
    · simp [hroot]
    · simp only [hroot, if_false]
      obtain ⟨hv, hn⟩ := godirwalk.walk_values cb ecb sys.Join excl
        (fun p => if extExcl p = true then [] else [parse p]) hskip hdir hreg hother hecb
        root pathname (sys.Base pathname) [] st (by simp)
      rw [List.filter_flatMap_ite] at hv
      rcases hw : godirwalk.walk cb ecb sys.Join pathname (sys.Base pathname) root st
        with ⟨st1, e⟩
      rw [hw] at hv hn
      simp only at hn
      rcases hn with hn | ⟨hn, _⟩
      · subst hn
        exact ⟨hv, rfl⟩
      · subst hn
        exact ⟨hv, rfl⟩

theorem macdirlist.mac_Callback_spec (sys : os.System) (g : Globals)
    (excludedDirs excludedExts : List String) :
    (∀ st p name, macdirlist.substringListContains excludedDirs p = true →
      macdirlist.Callback sys g excludedDirs excludedExts st p ⟨name, .dir⟩
        = (st, some .SkipDir)) ∧
    (∀ st p name, macdirlist.substringListContains excludedDirs p = false →
      (macdirlist.Callback sys g excludedDirs excludedExts st p ⟨name, .dir⟩).2 = none ∧
      (macdirlist.Callback sys g excludedDirs excludedExts st p ⟨name, .dir⟩).1.values
        = st.values) ∧
    (∀ st p name,
      (macdirlist.Callback sys g excludedDirs excludedExts st p ⟨name, .regular⟩).2 = none ∧
      (macdirlist.Callback sys g excludedDirs excludedExts st p ⟨name, .regular⟩).1.values =
        st.values ++
          (if (excludedExts.contains (util.FileExtension p) ||
              excludedExts.contains ("." ++ util.FileExtension p)) = true then []
           else [macdirlist.parseRegular sys g p])) ∧
    (∀ st p name m, m ≠ .dir → m ≠ .regular →
      (macdirlist.Callback sys g excludedDirs excludedExts st p ⟨name, m⟩).2 = none ∧
      (macdirlist.Callback sys g excludedDirs excludedExts st p ⟨name, m⟩).1.values
        = st.values) := by
  refine ⟨?_, ?_, ?_, ?_⟩
  · intro st p name h
    simp [macdirlist.Callback, godirwalk.Dirent.IsDir, h]
  · intro st p name h
    simp [macdirlist.Callback, godirwalk.Dirent.IsDir, h]
  · intro st p name
    by_cases h : (excludedExts.contains (util.FileExtension p) ||
        excludedExts.contains ("." ++ util.FileExtension p)) = true
    · simp only [macdirlist.Callback, godirwalk.Dirent.IsDir, godirwalk.Dirent.IsRegular, h]
      simp
    · simp only [macdirlist.Callback, godirwalk.Dirent.IsDir, godirwalk.Dirent.IsRegular, h]
      simp
  · intro st p name m h1 h2
    simp [macdirlist.Callback, godirwalk.Dirent.IsDir, godirwalk.Dirent.IsRegular, h1, h2]

theorem windowsdirlist.windows_Callback_spec (sys : os.System) (g : Globals)
    (excludedDirs excludedExts : List String) :
    (∀ st p name, windowsdirlist.substringListContains excludedDirs p = true →
      windowsdirlist.Callback sys g excludedDirs excludedExts st p ⟨name, .dir⟩
        = (st, some .SkipDir)) ∧
    (∀ st p name, windowsdirlist.substringListContains excludedDirs p = false →
      (windowsdirlist.Callback sys g excludedDirs excludedExts st p ⟨name, .dir⟩).2 = none ∧
      (windowsdirlist.Callback sys g excludedDirs excludedExts st p ⟨name, .dir⟩).1.values
        = st.values) ∧
    (∀ st p name,
      (windowsdirlist.Callback sys g excludedDirs excludedExts st p ⟨name, .regular⟩).2
        = none ∧
      (windowsdirlist.Callback sys g excludedDirs excludedExts st p ⟨name, .regular⟩).1.values =
        st.values ++
          (if (excludedExts.contains (util.FileExtension p) ||
              excludedExts.contains ("." ++ util.FileExtension p)) = true then []
           else [windowsdirlist.parseRegular sys g p])) ∧
    (∀ st p name m, m ≠ .dir → m ≠ .regular →
      (windowsdirlist.Callback sys g excludedDirs excludedExts st p ⟨name, m⟩).2 = none ∧
      (windowsdirlist.Callback sys g excludedDirs excludedExts st p ⟨name, m⟩).1.values
        = st.values) := by
  refine ⟨?_, ?_, ?_, ?_⟩
  · intro st p name h
    simp [windowsdirlist.Callback, godirwalk.Dirent.IsDir, h]
  · intro st p name h
    simp [windowsdirlist.Callback, godirwalk.Dirent.IsDir, h]
  · intro st p name
    by_cases h : (excludedExts.contains (util.FileExtension p) ||
        excludedExts.contains ("." ++ util.FileExtension p)) = true
    · simp only [windowsdirlist.Callback, godirwalk.Dirent.IsDir, godirwalk.Dirent.IsRegular, h]
      simp
    · simp only [windowsdirlist.Callback, godirwalk.Dirent.IsDir, godirwalk.Dirent.IsRegular, h]
      simp
  · intro st p name m h1 h2
    simp [windowsdirlist.Callback, godirwalk.Dirent.IsDir, godirwalk.Dirent.IsRegular, h1, h2]

theorem macdirlist.mac_ErrorCallback_spec (g : Globals) (st : WalkState) (p : String)
    (e : godirwalk.WalkError) :
    (macdirlist.ErrorCallback g st p e).2 = .SkipNode ∧
      (macdirlist.ErrorCallback g st p e).1.values = st.values := by
  unfold macdirlist.ErrorCallback
  by_cases h : g.verbose = true <;> simp [h]

theorem windowsdirlist.windows_ErrorCallback_spec (g : Globals) (st : WalkState) (p : String)
    (e : godirwalk.WalkError) :
    (windowsdirlist.ErrorCallback g st p e).2 = .SkipNode ∧
      (windowsdirlist.ErrorCallback g st p e).1.values = st.values := by
  unfold windowsdirlist.ErrorCallback
  by_cases h : g.verbose = true <;> simp [h]

/-- C3: walking any tree with the dirlist callback, for any exclusion list and
any extension set, the rows emitted are exactly the rows of the regular
files that lie beneath no directory (the root included) whose path
`substringListContains` matches, and whose extension is not excluded, in
enumeration order: no row is emitted for a file beneath an excluded
directory, and the files of the other directories are still emitted. Mac and
windows module. -/
theorem walk_emits_no_row_below_excluded_directory (sys : os.System) (g : Globals)
    (excludedDirs excludedExts : List String) (fs : godirwalk.FileSystem)
    (pathname : String) (st : WalkState) :
    (godirwalk.Walk (macdirlist.Callback sys g excludedDirs excludedExts)
        (macdirlist.ErrorCallback g) sys fs pathname st).1.values =
      st.values ++ ((godirwalk.regularFilesUnder sys fs pathname).filter fun f =>
        !f.1.any (macdirlist.substringListContains excludedDirs) &&
        !(excludedExts.contains (util.FileExtension f.2) ||
          excludedExts.contains ("." ++ util.FileExtension f.2))).map
        (fun f => macdirlist.parseRegular sys g f.2) ∧
    (godirwalk.Walk (windowsdirlist.Callback sys g excludedDirs excludedExts)
        (windowsdirlist.ErrorCallback g) sys fs pathname st).1.values =
      st.values ++ ((godirwalk.regularFilesUnder sys fs pathname).filter fun f =>
        !f.1.any (windowsdirlist.substringListContains excludedDirs) &&
        !(excludedExts.contains (util.FileExtension f.2) ||
          excludedExts.contains ("." ++ util.FileExtension f.2))).map
        (fun f => windowsdirlist.parseRegular sys g f.2) := by
  constructor
  · obtain ⟨h1, h2, h3, h4⟩ := macdirlist.mac_Callback_spec sys g excludedDirs excludedExts
    exact (godirwalk.Walk_values _ _ _ _ _ h1 h2 h3 h4 (macdirlist.mac_ErrorCallback_spec g)
      sys fs pathname st).1
  · obtain ⟨h1, h2, h3, h4⟩ := windowsdirlist.windows_Callback_spec sys g excludedDirs excludedExts
    exact (godirwalk.Walk_values _ _ _ _ _ h1 h2 h3 h4 (windowsdirlist.windows_ErrorCallback_spec g)
      sys fs pathname st).1

/-- C8: the dirlist error callback returns `SkipNode` for every path and
every error, whatever the verbose flag; the flag only decides whether one
line is added to the log. The entry callback returns nil or, for a
directory, `filepath.SkipDir`, so the walk returns an error only when its
root cannot be stat-ed or is not a directory: no entry aborts it. Mac and
windows module. -/
theorem error_callback_skips_node_whatever_verbose (sys : os.System) (g : Globals)
    (excludedDirs excludedExts : List String) (st : WalkState) (p : String)
    (err : godirwalk.WalkError) (de : godirwalk.Dirent) (fs : godirwalk.FileSystem) :
    ((macdirlist.ErrorCallback g st p err).2 = .SkipNode ∧
      macdirlist.ErrorCallback { g with verbose := false } st p err = (st, .SkipNode) ∧
      (∃ text, macdirlist.ErrorCallback { g with verbose := true } st p err =
        ({ st with log := st.log ++ [text] }, .SkipNode)) ∧
      ((macdirlist.Callback sys g excludedDirs excludedExts st p de).2 = none ∨
        ((macdirlist.Callback sys g excludedDirs excludedExts st p de).2 = some .SkipDir ∧
          de.IsDir = true)) ∧
      (godirwalk.Walk (macdirlist.Callback sys g excludedDirs excludedExts)
          (macdirlist.ErrorCallback g) sys fs p st).2 =
        (match fs p with
          | .error e => some e
          | .ok root =>
            if root.modeType ≠ .dir then some ("cannot Walk non-directory: " ++ p)
            else none)) ∧
    ((windowsdirlist.ErrorCallback g st p err).2 = .SkipNode ∧
      windowsdirlist.ErrorCallback { g with verbose := false } st p err = (st, .SkipNode) ∧
      (∃ text, windowsdirlist.ErrorCallback { g with verbose := true } st p err =
        ({ st with log := st.log ++ [text] }, .SkipNode)) ∧
      ((windowsdirlist.Callback sys g excludedDirs excludedExts st p de).2 = none ∨
        ((windowsdirlist.Callback sys g excludedDirs excludedExts st p de).2 = some .SkipDir ∧
          de.IsDir = true)) ∧
      (godirwalk.Walk (windowsdirlist.Callback sys g excludedDirs excludedExts)
          (windowsdirlist.ErrorCallback g) sys fs p st).2 =
        (match fs p with
          | .error e => some e
          | .ok root =>
            if root.modeType ≠ .dir then some ("cannot Walk non-directory: " ++ p)
            else none)) := by
  constructor
  · refine ⟨(macdirlist.mac_ErrorCallback_spec g st p err).1, by simp [macdirlist.ErrorCallback],
      ⟨_, by simp [macdirlist.ErrorCallback]; rfl⟩, ?_, ?_⟩
    · unfold macdirlist.Callback
      by_cases h1 : de.IsDir = true
      · by_cases h2 : macdirlist.substringListContains excludedDirs p = true <;> simp [h1, h2]
      · by_cases h2 : de.IsRegular = true
        · by_cases h3 : (excludedExts.contains (util.FileExtension p) ||
              excludedExts.contains ("." ++ util.FileExtension p)) = true
          · simp only [h1, h2, h3]; simp
          · simp only [h1, h2, h3]; simp
        · simp [h1, h2]
    · obtain ⟨h1, h2, h3, h4⟩ := macdirlist.mac_Callback_spec sys g excludedDirs excludedExts
      exact (godirwalk.Walk_values _ _ _ _ _ h1 h2 h3 h4 (macdirlist.mac_ErrorCallback_spec g)
        sys fs p st).2
  · refine ⟨(windowsdirlist.windows_ErrorCallback_spec g st p err).1,
      by simp [windowsdirlist.ErrorCallback],
      ⟨_, by simp [windowsdirlist.ErrorCallback]; rfl⟩, ?_, ?_⟩
    · unfold windowsdirlist.Callback
      by_cases h1 : de.IsDir = true
      · by_cases h2 : windowsdirlist.substringListContains excludedDirs p = true <;>
          simp [h1, h2]
      · by_cases h2 : de.IsRegular = true
        · by_cases h3 : (excludedExts.contains (util.FileExtension p) ||
              excludedExts.contains ("." ++ util.FileExtension p)) = true
          · simp only [h1, h2, h3]; simp
          · simp only [h1, h2, h3]; simp
        · simp [h1, h2]
    · obtain ⟨h1, h2, h3, h4⟩ := windowsdirlist.windows_Callback_spec sys g excludedDirs excludedExts
      exact (godirwalk.Walk_values _ _ _ _ _ h1 h2 h3 h4 (windowsdirlist.windows_ErrorCallback_spec g)
        sys fs p st).2

/-! ## Decimal rendering and parsing -/

theorem strconv.digitVal_digitChar (d : Nat) (h : d < 10) :
    strconv.digitVal (Nat.digitChar d) = some d := by
  interval_cases d <;> decide

theorem strconv.parseDigits_append (xs ys : List Char) (acc : Nat) :
    strconv.parseDigits (xs ++ ys) acc =
      (strconv.parseDigits xs acc).bind (strconv.parseDigits ys) := by
  induction xs generalizing acc with
  | nil => simp [strconv.parseDigits]
  | cons c cs ih =>
    simp only [List.cons_append, strconv.parseDigits]
    cases strconv.digitVal c with
    | none => simp
    | some d => simp [ih]

theorem strconv.toDigitsCore_append (fuel n : Nat) (ds : List Char) :
    Nat.toDigitsCore 10 fuel n ds = Nat.toDigitsCore 10 fuel n [] ++ ds := by
  induction fuel generalizing n ds with
  | zero => simp [Nat.toDigitsCore]
  | succ f ih =>
    simp only [Nat.toDigitsCore]
    split
    · simp
    · rw [ih (n / 10) (Nat.digitChar (n % 10) :: ds), ih (n / 10) [Nat.digitChar (n % 10)]]
      simp

theorem strconv.parseDigits_toDigitsCore (fuel n : Nat) (h : n < fuel) :
    strconv.parseDigits (Nat.toDigitsCore 10 fuel n []) 0 = some n := by
  induction fuel generalizing n with
  | zero => omega
  | succ f ih =>
    simp only [Nat.toDigitsCore]
    have hd := strconv.digitVal_digitChar (n % 10) (Nat.mod_lt _ (by decide))
    split
    · rename_i h0
      simp only [strconv.parseDigits, hd]
      have : n % 10 = n := by omega
      simp [this]
    · rename_i h0
      rw [strconv.toDigitsCore_append, strconv.parseDigits_append,
        ih (n / 10) (by omega)]
      simp only [Option.some_bind, strconv.parseDigits, hd]
      congr 1
      omega

theorem strconv.parseDigits_repr (n : Nat) :
    strconv.parseDigits (Nat.repr n).data 0 = some n := by
  simp only [Nat.repr, Nat.toDigits, List.asString]
  exact strconv.parseDigits_toDigitsCore (n + 1) n (by omega)

theorem strconv.repr_data_ne_nil (n : Nat) : (Nat.repr n).data ≠ [] := by
  intro h
  have hp := strconv.parseDigits_repr n
  rw [h] at hp
  simp only [strconv.parseDigits, Option.some.injEq] at hp
  subst hp
  revert h
  decide

theorem strconv.splitSign_of_digits (cs : List Char) (n : Nat)
    (h : strconv.parseDigits cs 0 = some n) : strconv.splitSign cs = (false, cs) := by
  unfold strconv.splitSign
  split
  · simp [strconv.parseDigits, strconv.digitVal] at h
  · simp [strconv.parseDigits, strconv.digitVal] at h
  · rfl

theorem strconv.Atoi_FormatInt (i : Int) (hlo : -(2 ^ 63) ≤ i) (hhi : i < 2 ^ 63) :
    strconv.Atoi (strconv.FormatInt i) = (i, none) := by
  cases i with
  | ofNat n =>
    have hp := strconv.parseDigits_repr n
    have hne := strconv.repr_data_ne_nil n
    simp only [strconv.FormatInt, strconv.Atoi, strconv.splitSign_of_digits _ n hp]
    rcases hd : (Nat.repr n).data with _ | ⟨c, cs⟩
    · exact absurd hd hne
    · rw [hd] at hp
      have hmax : ¬ strconv.maxInt < (n : Int) := by
        simp only [strconv.maxInt, Int.ofNat_eq_coe] at *
        omega
      simp [hp, hmax]
  | negSucc n =>
    have hp := strconv.parseDigits_repr (n + 1)
    have hne := strconv.repr_data_ne_nil (n + 1)
    have hdata : ("-" ++ Nat.repr (n + 1)).data = '-' :: (Nat.repr (n + 1)).data := by
      rw [String.data_append]
      rfl
    simp only [strconv.FormatInt, strconv.Atoi, hdata, strconv.splitSign]
    rcases hd : (Nat.repr (n + 1)).data with _ | ⟨c, cs⟩
    · exact absurd hd hne
    · rw [hd] at hp
      have hmin : ¬ (-((n + 1 : Nat) : Int) < strconv.minInt) := by
        simp only [strconv.minInt, Int.negSucc_eq] at *
        omega
      simp only [hp, hmin, if_true, if_false]
      simp [Int.negSucc_eq]

/-! ## Hash fields of a row -/

theorem fmt.sprintfHex_length (b : List Nat) :
    (fmt.sprintfHex b).data.length = 2 * b.length := by
  unfold fmt.sprintfHex
  induction b with
  | nil => rfl
  | cons x xs ih =>
    simp only [List.flatMap_cons, List.length_append, List.length_cons] at ih ⊢
    simp only [List.length_nil] at ih ⊢
    omega

theorem fmt.sprintfHex_ne (b : List Nat) (n : Nat) (hn : 2 < n) (h : b.length = n) :
    fmt.sprintfHex b ≠ "" ∧ fmt.sprintfHex b ≠ "N/E" ∧ fmt.sprintfHex b ≠ "ERROR" := by
  have hl := fmt.sprintfHex_length b
  have e0 : ("" : String).data.length = 0 := rfl
  have e1 : ("N/E" : String).data.length = 3 := rfl
  have e2 : ("ERROR" : String).data.length = 5 := rfl
  refine ⟨?_, ?_, ?_⟩ <;>
  · intro heq
    rw [heq] at hl
    omega

theorem macdirlist.mac_sha256Field_parseRegular (sys : os.System) (g : Globals) (p : String) :
    macdirlist.sha256Field (macdirlist.parseRegular sys g p) =
      if g.doHashSHA256 = true ∧ macdirlist.sizeRead sys p < g.hashSizeLimitBytes then
        (macdirlist.fileSHA256 sys p).1
      else "N/E" := by
  by_cases h : g.doHashSHA256 = true ∧ macdirlist.sizeRead sys p < g.hashSizeLimitBytes
  · have h2 := h
    simp only [macdirlist.sizeRead] at h2
    simp [macdirlist.sha256Field, macdirlist.parseRegular, h, h2]
  · have h2 := h
    simp only [macdirlist.sizeRead] at h2
    simp only [macdirlist.sha256Field, macdirlist.parseRegular, h, if_false]
    simp only [Bool.and_eq_true, decide_eq_true_eq, h2, if_false]
    rfl

theorem macdirlist.mac_md5Field_parseRegular (sys : os.System) (g : Globals) (p : String) :
    macdirlist.md5Field (macdirlist.parseRegular sys g p) =
      if g.doHashMD5 = true ∧ macdirlist.sizeRead sys p < g.hashSizeLimitBytes then
        (macdirlist.fileMD5 sys p).1
      else "N/E" := by
  by_cases h : g.doHashMD5 = true ∧ macdirlist.sizeRead sys p < g.hashSizeLimitBytes
  · have h2 := h
    simp only [macdirlist.sizeRead] at h2
    simp [macdirlist.md5Field, macdirlist.parseRegular, h, h2]
  · have h2 := h
    simp only [macdirlist.sizeRead] at h2
    simp only [macdirlist.md5Field, macdirlist.parseRegular, h, if_false]
    simp only [Bool.and_eq_true, decide_eq_true_eq, h2, if_false]
    rfl

theorem windowsdirlist.windows_sha256Field_parseRegular (sys : os.System) (g : Globals) (p : String) :
    windowsdirlist.sha256Field (windowsdirlist.parseRegular sys g p) =
      if g.doHashSHA256 = true ∧ windowsdirlist.sizeRead sys p < g.hashSizeLimitBytes then
        (windowsdirlist.fileSHA256 sys p).1
      else "N/E" := by
  by_cases h : g.doHashSHA256 = true ∧ windowsdirlist.sizeRead sys p < g.hashSizeLimitBytes
  · have h2 := h
    simp only [windowsdirlist.sizeRead] at h2
    simp [windowsdirlist.sha256Field, windowsdirlist.parseRegular, h, h2]
  · have h2 := h
    simp only [windowsdirlist.sizeRead] at h2
    simp only [windowsdirlist.sha256Field, windowsdirlist.parseRegular, h, if_false]
    simp only [Bool.and_eq_true, decide_eq_true_eq, h2, if_false]
    rfl

theorem windowsdirlist.windows_md5Field_parseRegular (sys : os.System) (g : Globals) (p : String) :
    windowsdirlist.md5Field (windowsdirlist.parseRegular sys g p) =
      if g.doHashMD5 = true ∧ windowsdirlist.sizeRead sys p < g.hashSizeLimitBytes then
        (windowsdirlist.fileMD5 sys p).1
      else "N/E" := by
  by_cases h : g.doHashMD5 = true ∧ windowsdirlist.sizeRead sys p < g.hashSizeLimitBytes
  · have h2 := h
    simp only [windowsdirlist.sizeRead] at h2
    simp [windowsdirlist.md5Field, windowsdirlist.parseRegular, h, h2]
  · have h2 := h
    simp only [windowsdirlist.sizeRead] at h2
    simp only [windowsdirlist.md5Field, windowsdirlist.parseRegular, h, if_false]
    simp only [Bool.and_eq_true, decide_eq_true_eq, h2, if_false]
    rfl

theorem macdirlist.mac_sizeRead_of_stat (sys : os.System) (p : String) (fi : os.FileInfo)
    (ts : os.Timespec) (hstat : sys.Lstat p = .ok fi) (htimes : sys.timesStat p = .ok ts)
    (hlo : -(2 ^ 63) ≤ fi.size) (hhi : fi.size < 2 ^ 63) :
    macdirlist.sizeRead sys p = fi.size := by
  simp [macdirlist.sizeRead, machelpers.FileMetadata, hstat, htimes,
    strconv.Atoi_FormatInt fi.size hlo hhi]

theorem windowsdirlist.windows_sizeRead_of_stat (sys : os.System) (p : String) (fi : os.FileInfo)
    (ts : os.Timespec) (hstat : sys.Lstat p = .ok fi) (htimes : sys.timesStat p = .ok ts)
    (hlo : -(2 ^ 63) ≤ fi.size) (hhi : fi.size < 2 ^ 63) :
    windowsdirlist.sizeRead sys p = fi.size := by
  simp [windowsdirlist.sizeRead, windowshelpers.FileMetadata, hstat, htimes,
    strconv.Atoi_FormatInt fi.size hlo hhi]

/-- The hash field a row gets from a flag, the size read, the limit and the
result `(h, err)` of the hashing call: "N/E" when hashing is not attempted,
else `h`. -/
theorem hashField_gated (flag : Bool) (size limit : Int) (field : String)
    (read : Except String (List Nat)) (sum : List Nat → List Nat) (n : Nat) (hn : 2 < n)
    (hsum : ∀ b, (sum b).length = n)
    (hfield : field = if flag = true ∧ size < limit then
        (match read with
          | .error e => (("", some e) : String × error)
          | .ok bytes => (fmt.sprintfHex (sum bytes), none)).1
      else "N/E") :
    (field = "N/E" ↔ ¬(flag = true ∧ size < limit)) ∧
    (∀ bytes, read = .ok bytes →
      (field = fmt.sprintfHex (sum bytes) ↔ (flag = true ∧ size < limit)) ∧ field ≠ "") := by
  have e0 : ("" : String) ≠ "N/E" := by decide
  have e1 : ("N/E" : String) ≠ "" := by decide
  by_cases h : flag = true ∧ size < limit
  · rw [if_pos h] at hfield
    constructor
    · cases read with
      | error e =>
        simp only at hfield
        subst hfield
        simp [h, e0]
      | ok bytes =>
        simp only at hfield
        subst hfield
        simp [h, (fmt.sprintfHex_ne (sum bytes) n hn (hsum bytes)).2.1]
    · intro bytes hb
      subst hb
      simp only at hfield
      subst hfield
      exact ⟨by simp [h], (fmt.sprintfHex_ne (sum bytes) n hn (hsum bytes)).1⟩
  · rw [if_neg h] at hfield
    subst hfield
    refine ⟨by simp [h], ?_⟩
    intro bytes _
    refine ⟨?_, e1⟩
    simp only [h, iff_false]
    exact fun heq => (fmt.sprintfHex_ne (sum bytes) n hn (hsum bytes)).2.1 heq.symm

/-- C1 (amended): for every file handed to `parseRegular` and every setting
of the flags and of the limit, with `sizeRead` the size `parseRegular` reads
from the metadata: the sha256 (resp. md5) field is "N/E" exactly when the
flag is false or the size is not below the limit; and when the file can be
read, the field is the hexadecimal digest of its bytes exactly when the flag
is true and the size is below the limit, and it is never empty. The size read
is the size `os.Lstat` reports whenever the metadata can be read. Mac and
windows module; nothing is said about a file whose hashing call fails. -/
theorem parseRegular_hash_fields_gated (sys : os.System) (g : Globals) (p : String)
    (hsha : ∀ b, (sys.sha256Sum b).length = 32) (hmd5 : ∀ b, (sys.md5Sum b).length = 16) :
    ((macdirlist.sha256Field (macdirlist.parseRegular sys g p) = "N/E" ↔
        ¬(g.doHashSHA256 = true ∧ macdirlist.sizeRead sys p < g.hashSizeLimitBytes)) ∧
      (∀ bytes, sys.readAll p = .ok bytes →
        (macdirlist.sha256Field (macdirlist.parseRegular sys g p)
            = fmt.sprintfHex (sys.sha256Sum bytes) ↔
          (g.doHashSHA256 = true ∧ macdirlist.sizeRead sys p < g.hashSizeLimitBytes)) ∧
        macdirlist.sha256Field (macdirlist.parseRegular sys g p) ≠ "")) ∧
    ((macdirlist.md5Field (macdirlist.parseRegular sys g p) = "N/E" ↔
        ¬(g.doHashMD5 = true ∧ macdirlist.sizeRead sys p < g.hashSizeLimitBytes)) ∧
      (∀ bytes, sys.readAll p = .ok bytes →
        (macdirlist.md5Field (macdirlist.parseRegular sys g p)
            = fmt.sprintfHex (sys.md5Sum bytes) ↔
          (g.doHashMD5 = true ∧ macdirlist.sizeRead sys p < g.hashSizeLimitBytes)) ∧
        macdirlist.md5Field (macdirlist.parseRegular sys g p) ≠ "")) ∧
    ((windowsdirlist.sha256Field (windowsdirlist.parseRegular sys g p) = "N/E" ↔
        ¬(g.doHashSHA256 = true ∧ windowsdirlist.sizeRead sys p < g.hashSizeLimitBytes)) ∧
      (∀ bytes, sys.readAll p = .ok bytes →
        (windowsdirlist.sha256Field (windowsdirlist.parseRegular sys g p)
            = fmt.sprintfHex (sys.sha256Sum bytes) ↔
          (g.doHashSHA256 = true ∧ windowsdirlist.sizeRead sys p < g.hashSizeLimitBytes)) ∧
        windowsdirlist.sha256Field (windowsdirlist.parseRegular sys g p) ≠ "")) ∧
    ((windowsdirlist.md5Field (windowsdirlist.parseRegular sys g p) = "N/E" ↔
        ¬(g.doHashMD5 = true ∧ windowsdirlist.sizeRead sys p < g.hashSizeLimitBytes)) ∧
      (∀ bytes, sys.readAll p = .ok bytes →
        (windowsdirlist.md5Field (windowsdirlist.parseRegular sys g p)
            = fmt.sprintfHex (sys.md5Sum bytes) ↔
          (g.doHashMD5 = true ∧ windowsdirlist.sizeRead sys p < g.hashSizeLimitBytes)) ∧
        windowsdirlist.md5Field (windowsdirlist.parseRegular sys g p) ≠ "")) ∧
    (∀ fi ts, sys.Lstat p = .ok fi → sys.timesStat p = .ok ts →
      -(2 ^ 63) ≤ fi.size → fi.size < 2 ^ 63 →
      macdirlist.sizeRead sys p = fi.size ∧ windowsdirlist.sizeRead sys p = fi.size) := by
  refine ⟨?_, ?_, ?_, ?_, ?_⟩
  · exact hashField_gated g.doHashSHA256 (macdirlist.sizeRead sys p) g.hashSizeLimitBytes _
      (sys.readAll p) sys.sha256Sum 32 (by decide) hsha
      (by rw [macdirlist.mac_sha256Field_parseRegular]; rfl)
  · exact hashField_gated g.doHashMD5 (macdirlist.sizeRead sys p) g.hashSizeLimitBytes _
      (sys.readAll p) sys.md5Sum 16 (by decide) hmd5
      (by rw [macdirlist.mac_md5Field_parseRegular]; rfl)
  · exact hashField_gated g.doHashSHA256 (windowsdirlist.sizeRead sys p) g.hashSizeLimitBytes _
      (sys.readAll p) sys.sha256Sum 32 (by decide) hsha
      (by rw [windowsdirlist.windows_sha256Field_parseRegular]; rfl)
  · exact hashField_gated g.doHashMD5 (windowsdirlist.sizeRead sys p) g.hashSizeLimitBytes _
      (sys.readAll p) sys.md5Sum 16 (by decide) hmd5
      (by rw [windowsdirlist.windows_md5Field_parseRegular]; rfl)
  · intro fi ts hstat htimes hlo hhi
    exact ⟨macdirlist.mac_sizeRead_of_stat sys p fi ts hstat htimes hlo hhi,
      windowsdirlist.windows_sizeRead_of_stat sys p fi ts hstat htimes hlo hhi⟩

/-- Witness of C1: the 50-byte file "/root/a.txt" with MD5 enabled, SHA-256
disabled and limit 1024 gets a non-empty md5 field, the digest of its
bytes, and the sha256 field "N/E". -/
theorem parseRegular_hash_fields_gated_witness :
    (∀ b, (Example.sys.sha256Sum b).length = 32) ∧
    (∀ b, (Example.sys.md5Sum b).length = 16) ∧
    macdirlist.sizeRead Example.sys "/root/a.txt" = 50 ∧
    macdirlist.sha256Field (macdirlist.parseRegular Example.sys Example.md5Only "/root/a.txt")
      = "N/E" ∧
    macdirlist.md5Field (macdirlist.parseRegular Example.sys Example.md5Only "/root/a.txt")
      = fmt.sprintfHex (Example.sys.md5Sum (List.replicate 50 97)) ∧
    macdirlist.md5Field (macdirlist.parseRegular Example.sys Example.md5Only "/root/a.txt")
      ≠ "" :=
  have hsha : ∀ b, (Example.sys.sha256Sum b).length = 32 := fun b => by simp [Example.sys]
  have hmd5 : ∀ b, (Example.sys.md5Sum b).length = 16 := fun b => by simp [Example.sys]
  have hsize : macdirlist.sizeRead Example.sys "/root/a.txt" = 50 := by decide
  have hread : Example.sys.readAll "/root/a.txt" = .ok (List.replicate 50 97) := by
    simp [Example.sys]
  have h := parseRegular_hash_fields_gated Example.sys Example.md5Only "/root/a.txt" hsha hmd5
  ⟨hsha, hmd5, hsize,
    h.1.1.2 (by simp [Example.md5Only]),
    ((h.2.1.2 _ hread).1).2 ⟨rfl, by rw [hsize]; decide⟩,
    (h.2.1.2 _ hread).2⟩

/-- Counterexample to C1 as stated: on windows, with MD5 enabled and a
50-byte file below the limit of 1024 that cannot be opened, the md5 field
of the row is the empty string (neither a digest nor "N/E"). -/
theorem parseRegular_md5_field_empty_when_unreadable :
    Example.md5Only.doHashMD5 = true ∧
    windowsdirlist.sizeRead Example.unreadableSys "/root/a.txt" = 50 ∧
    (50 : Int) < Example.md5Only.hashSizeLimitBytes ∧
    windowsdirlist.md5Field
      (windowsdirlist.parseRegular Example.unreadableSys Example.md5Only "/root/a.txt") = "" := by
  decide

/-- C2: when hashing is attempted (flag enabled, size read below the limit)
and `fileSHA256` (resp. `fileMD5`) returns an error, the field of the row is
the empty string, not the marker "ERROR": the assignment after the error
test overwrites the marker. The row is still emitted by the callback. Mac
and windows module. -/
theorem parseRegular_hash_error_marker_overwritten (sys : os.System) (g : Globals)
    (p e : String) (hread : sys.readAll p = .error e) :
    (g.doHashSHA256 = true ∧ macdirlist.sizeRead sys p < g.hashSizeLimitBytes →
      macdirlist.sha256Field (macdirlist.parseRegular sys g p) = "" ∧
      (macdirlist.fileSHA256 sys p).2 ≠ none) ∧
    (g.doHashMD5 = true ∧ macdirlist.sizeRead sys p < g.hashSizeLimitBytes →
      macdirlist.md5Field (macdirlist.parseRegular sys g p) = "" ∧
      (macdirlist.fileMD5 sys p).2 ≠ none) ∧
    (g.doHashSHA256 = true ∧ windowsdirlist.sizeRead sys p < g.hashSizeLimitBytes →
      windowsdirlist.sha256Field (windowsdirlist.parseRegular sys g p) = "" ∧
      (windowsdirlist.fileSHA256 sys p).2 ≠ none) ∧
    (g.doHashMD5 = true ∧ windowsdirlist.sizeRead sys p < g.hashSizeLimitBytes →
      windowsdirlist.md5Field (windowsdirlist.parseRegular sys g p) = "" ∧
      (windowsdirlist.fileMD5 sys p).2 ≠ none) ∧
    ("" : String) ≠ "ERROR" := by
  refine ⟨?_, ?_, ?_, ?_, by decide⟩
  · intro h
    rw [macdirlist.mac_sha256Field_parseRegular, if_pos h]
    simp [macdirlist.fileSHA256, hread]
  · intro h
    rw [macdirlist.mac_md5Field_parseRegular, if_pos h]
    simp [macdirlist.fileMD5, hread]
  · intro h
    rw [windowsdirlist.windows_sha256Field_parseRegular, if_pos h]
    simp [windowsdirlist.fileSHA256, hread]
  · intro h
    rw [windowsdirlist.windows_md5Field_parseRegular, if_pos h]
    simp [windowsdirlist.fileMD5, hread]

/-- Witness of C2: the file "/root/a.txt" of 50 bytes, unreadable, with both
hashes enabled and limit 1024: the mac row has an empty sha256 field and the
callback still appends the row. -/
theorem parseRegular_hash_error_marker_overwritten_witness :
    Example.unreadableSys.readAll "/root/a.txt" = .error "permission denied" ∧
    macdirlist.sha256Field
      (macdirlist.parseRegular Example.unreadableSys Example.hashBoth "/root/a.txt") = "" ∧
    (macdirlist.Callback Example.unreadableSys Example.hashBoth [] [] macdirlist.initialState
      "/root/a.txt" ⟨"a.txt", .regular⟩).1.values =
      [macdirlist.parseRegular Example.unreadableSys Example.hashBoth "/root/a.txt"] :=
  have hread : Example.unreadableSys.readAll "/root/a.txt" = .error "permission denied" := rfl
  ⟨hread,
    ((parseRegular_hash_error_marker_overwritten Example.unreadableSys Example.hashBoth
      "/root/a.txt" "permission denied" hread).1 ⟨rfl, by decide⟩).1,
    by decide⟩

/-! ## The result of `dirlist` -/

theorem datawriter.NewOrionWriter_csv (dw : datawriter.Faults) (module rt ot fp : String)
    (mw : datawriter.OrionWriter)
    (h : datawriter.NewOrionWriter dw module rt ot fp = (mw, none)) : mw.csv = true := by
  unfold datawriter.NewOrionWriter at h
  by_cases hot : ot = "csv"
  · simp only [hot, if_true] at h
    split at h
    · simp at h
    · simp only [Prod.mk.injEq, and_true] at h
      rw [← h]
  · simp [hot] at h

theorem datawriter.Write_csv (dw : datawriter.Faults) (mw : datawriter.OrionWriter)
    (entry : List String) (h : mw.csv = true) :
    (mw.Write dw entry).2 = (match dw.write entry with
      | some err => some err
      | none => dw.flush) ∧ (mw.Write dw entry).1.csv = true := by
  have ht : mw.GetOutputType = "csv" := by simp [datawriter.OrionWriter.GetOutputType, h]
  unfold datawriter.OrionWriter.Write
  simp only [ht]
  cases hw : dw.write entry with
  | none => simp [h]
  | some err => simp [h]

theorem datawriter.WriteAll_csv (dw : datawriter.Faults) (mw : datawriter.OrionWriter)
    (entries : List (List String)) (h : mw.csv = true) :
    (mw.WriteAll dw entries).2 = (match dw.writeAll entries with
      | some err => some err
      | none => dw.flush) ∧ (mw.WriteAll dw entries).1.csv = true := by
  have ht : mw.GetOutputType = "csv" := by simp [datawriter.OrionWriter.GetOutputType, h]
  unfold datawriter.OrionWriter.WriteAll
  simp only [ht]
  cases hw : dw.writeAll entries with
  | none => simp [h]
  | some err => simp [h]

theorem datawriter.Close_csv (dw : datawriter.Faults) (mw : datawriter.OrionWriter)
    (h : mw.csv = true) :
    (mw.Close dw).2 = (match dw.flush with
      | some err => some err
      | none => dw.close) := by
  have ht : mw.GetOutputType = "csv" := by simp [datawriter.OrionWriter.GetOutputType, h]
  unfold datawriter.OrionWriter.Close
  simp only [ht]
  cases hf : dw.flush with
  | some err => simp
  | none =>
    cases hc : dw.close with
    | none => simp
    | some err => simp

/-- The end of both `dirlist` functions: header, rows, close; the first error
is returned. -/
theorem datawriter.write_output_outcome (dw : datawriter.Faults) (mw : datawriter.OrionWriter)
    (header : List String) (values : List (List String)) (st : WalkState)
    (h : mw.csv = true) :
    ∃ err w, (match mw.WriteHeader dw header with
      | (mw, some err) => (⟨.returned (some err), st, some mw⟩ : DirlistResult)
      | (mw, none) =>
        match mw.WriteAll dw values with
        | (mw, some err) => ⟨.returned (some err), st, some mw⟩
        | (mw, none) =>
          match mw.Close dw with
          | (mw, some err) => ⟨.returned (some err), st, some mw⟩
          | (mw, none) => ⟨.returned none, st, some mw⟩) = ⟨.returned err, st, some w⟩ ∧
      (err = none ↔ dw.write header = none ∧ dw.flush = none ∧
        dw.writeAll values = none ∧ dw.close = none) := by
  obtain ⟨h1, h1c⟩ := datawriter.Write_csv dw mw header h
  unfold datawriter.OrionWriter.WriteHeader
  rcases hw1 : mw.Write dw header with ⟨mw1, e1⟩
  rw [hw1] at h1 h1c
  simp only at h1 h1c
  cases e1 with
  | some err1 =>
    refine ⟨some err1, mw1, rfl, ?_⟩
    cases hx : dw.write header with
    | some x => simp
    | none =>
      rw [hx] at h1
      simp only at h1
      simp [← h1]
  | none =>
    have hwh : dw.write header = none ∧ dw.flush = none := by
      cases hx : dw.write header with
      | some x => rw [hx] at h1; simp at h1
      | none => rw [hx] at h1; exact ⟨rfl, h1.symm⟩
    obtain ⟨h2, h2c⟩ := datawriter.WriteAll_csv dw mw1 values h1c
    rcases hw2 : mw1.WriteAll dw values with ⟨mw2, e2⟩
    rw [hw2] at h2 h2c
    simp only at h2 h2c
    cases e2 with
    | some err2 =>
      refine ⟨some err2, mw2, by simp only [hw2], ?_⟩
      cases hx : dw.writeAll values with
      | some x => simp
      | none =>
        rw [hx] at h2
        simp only at h2
        simp [← h2]
    | none =>
      have hwa : dw.writeAll values = none := by
        cases hx : dw.writeAll values with
        | some x => rw [hx] at h2; simp at h2
        | none => rfl
      have h3 := datawriter.Close_csv dw mw2 h2c
      rcases hw3 : mw2.Close dw with ⟨mw3, e3⟩
      rw [hw3] at h3
      simp only [hwh.2] at h3
      cases e3 with
      | some err3 =>
        refine ⟨some err3, mw3, by simp only [hw2, hw3], ?_⟩
        simp [← h3]
      | none =>
        refine ⟨none, mw3, by simp only [hw2, hw3], ?_⟩
        simp [hwh.1, hwh.2, hwa, ← h3]

theorem configs.GetConfigType_cases (conf : configs.Config) :
    conf.GetConfigType = "mac" ∨ conf.GetConfigType = "windows" ∨ conf.GetConfigType = "" := by
  unfold configs.Config.GetConfigType
  by_cases h1 : conf.macconfigbool = true
  · simp [h1]
  · by_cases h2 : conf.windowsconfigbool = true <;> simp [h1, h2]

/-- C20: for every `Config`, each of the accessors `GetModulesToExecute`,
`GetDirlistExcludedDirs`, `GetDirlistExcludedExts`,
`GetDirlistHashSizeLimitBytes`, `GetDirlistDoHashMD5`,
`GetDirlistDohashSHA256` and `IsForensicMode` returns the field of the mac
variant with a nil error when `GetConfigType()` is "mac", the field of the
windows variant with a nil error when it is "windows", and a non-nil error
otherwise; `GetDirlistExcludedDrives` returns a nil error exactly when the
type is "windows", then with the field of the windows variant. -/
theorem config_accessors_follow_config_type (conf : configs.Config) :
    (conf.GetConfigType = "mac" →
      conf.GetModulesToExecute = (conf.macconfig.Modules, none) ∧
      conf.GetDirlistExcludedDirs = (conf.macconfig.DirlistExcludedDirs, none) ∧
      conf.GetDirlistExcludedExts = (conf.macconfig.DirlistExcludedExts, none) ∧
      conf.GetDirlistHashSizeLimitBytes = (conf.macconfig.DirlistHashSizeLimitBytes, none) ∧
      conf.GetDirlistDoHashMD5 = (conf.macconfig.DirlistDoHashMD5, none) ∧
      conf.GetDirlistDohashSHA256 = (conf.macconfig.DirlistDoHashSHA256, none) ∧
      conf.IsForensicMode = (conf.macconfig.ForensicMode, none)) ∧
    (conf.GetConfigType = "windows" →
      conf.GetModulesToExecute = (conf.windowsconfig.Modules, none) ∧
      conf.GetDirlistExcludedDirs = (conf.windowsconfig.DirlistExcludedDirs, none) ∧
      conf.GetDirlistExcludedExts = (conf.windowsconfig.DirlistExcludedExts, none) ∧
      conf.GetDirlistHashSizeLimitBytes
        = (conf.windowsconfig.DirlistHashSizeLimitBytes, none) ∧
      conf.GetDirlistDoHashMD5 = (conf.windowsconfig.DirlistDoHashMD5, none) ∧
      conf.GetDirlistDohashSHA256 = (conf.windowsconfig.DirlistDoHashSHA256, none) ∧
      conf.IsForensicMode = (conf.windowsconfig.ForensicMode, none) ∧
      conf.GetDirlistExcludedDrives = (conf.windowsconfig.DirlistExcludedDrives, none)) ∧
    (conf.GetConfigType ≠ "mac" → conf.GetConfigType ≠ "windows" →
      conf.GetModulesToExecute.2 ≠ none ∧
      conf.GetDirlistExcludedDirs.2 ≠ none ∧
      conf.GetDirlistExcludedExts.2 ≠ none ∧
      conf.GetDirlistHashSizeLimitBytes.2 ≠ none ∧
      conf.GetDirlistDoHashMD5.2 ≠ none ∧
      conf.GetDirlistDohashSHA256.2 ≠ none ∧
      conf.IsForensicMode.2 ≠ none) ∧
    (conf.GetDirlistExcludedDrives.2 = none ↔ conf.GetConfigType = "windows") := by
  have hmw : ("mac" : String) ≠ "windows" := by decide
  refine ⟨?_, ?_, ?_, ?_⟩
  · intro h
    simp [configs.Config.GetModulesToExecute, configs.Config.GetDirlistExcludedDirs,
      configs.Config.GetDirlistExcludedExts, configs.Config.GetDirlistHashSizeLimitBytes,
      configs.Config.GetDirlistDoHashMD5, configs.Config.GetDirlistDohashSHA256,
      configs.Config.IsForensicMode, h]
  · intro h
    simp [configs.Config.GetModulesToExecute, configs.Config.GetDirlistExcludedDirs,
      configs.Config.GetDirlistExcludedExts, configs.Config.GetDirlistHashSizeLimitBytes,
      configs.Config.GetDirlistDoHashMD5, configs.Config.GetDirlistDohashSHA256,
      configs.Config.IsForensicMode, configs.Config.GetDirlistExcludedDrives, h, hmw.symm]
  · intro h1 h2
    simp [configs.Config.GetModulesToExecute, configs.Config.GetDirlistExcludedDirs,
      configs.Config.GetDirlistExcludedExts, configs.Config.GetDirlistHashSizeLimitBytes,
      configs.Config.GetDirlistDoHashMD5, configs.Config.GetDirlistDohashSHA256,
      configs.Config.IsForensicMode, h1, h2]
  · by_cases h : conf.GetConfigType = "windows" <;>
      simp [configs.Config.GetDirlistExcludedDrives, h]

/-- Witness of C20: a mac configuration returns its mac fields and the
not-applicable error for the excluded drives; a windows configuration
returns its windows fields; the empty configuration returns errors. -/
theorem config_accessors_follow_config_type_witness :
    Example.macConfig.GetConfigType = "mac" ∧
    Example.macConfig.GetModulesToExecute = (["MacDirlistModule"], none) ∧
    Example.macConfig.GetDirlistExcludedDrives.2 ≠ none ∧
    Example.windowsConfig.GetConfigType = "windows" ∧
    Example.windowsConfig.GetDirlistHashSizeLimitBytes = (1024, none) ∧
    Example.windowsConfig.GetDirlistExcludedDrives = ([], none) ∧
    Example.noConfig.GetModulesToExecute.2 ≠ none :=
  have hmac : Example.macConfig.GetConfigType = "mac" := by decide
  have hwin : Example.windowsConfig.GetConfigType = "windows" := by decide
  ⟨hmac,
    ((config_accessors_follow_config_type Example.macConfig).1 hmac).1,
    fun h => absurd
      (((config_accessors_follow_config_type Example.macConfig).2.2.2).1 h)
      (by rw [hmac]; decide),
    hwin,
    ((config_accessors_follow_config_type Example.windowsConfig).2.1 hwin).2.2.2.1,
    ((config_accessors_follow_config_type Example.windowsConfig).2.1 hwin).2.2.2.2.2.2.2,
    ((config_accessors_follow_config_type Example.noConfig).2.2.1
      (by decide) (by decide)).1⟩

/-! ## What `executeModule` returns -/

/-- C11: `executeModule` returns a non-nil error exactly when `invoke` returned
an error (the module could not be resolved or invoked through the registry);
when `Start` itself returns an error the call is logged as a failure but the
value returned is nil: the module "Bad", whose `Start` returns "boom", is
reported like the module "Good". -/
theorem executeModule_returns_nil_when_start_fails (typeRegistry : engine.TypeRegistry)
    (module : String) (useWg : Bool) (inst : orioninstance.Instance) :
    (∃ run, engine.executeModule typeRegistry module useWg inst = some run ∧
      (run.ret ≠ none ↔
        ∃ out err, engine.invoke typeRegistry module "Start" inst = some (out, some err)) ∧
      (∀ startErr, engine.invoke typeRegistry module "Start" inst = some ([startErr], none) →
        run.ret = none)) ∧
    engine.invoke Example.registry "Bad" "Start" Example.windowsInstance
      = some ([some "boom"], none) ∧
    (engine.executeModule Example.registry "Bad" false Example.windowsInstance).map
      (fun run => run.ret) = some none ∧
    (engine.executeModule Example.registry "Good" false Example.windowsInstance).map
      (fun run => run.ret) = some none ∧
    (engine.executeModule Example.registry "Missing" false Example.windowsInstance).map
      (fun run => run.ret) = some (some "failed to create instance of \x27Missing\x27") := by
  refine ⟨?_, by decide, by decide, by decide, by decide⟩
  obtain ⟨out, err, hinv, hlen⟩ := engine.invoke_isSome typeRegistry module "Start" inst
  unfold engine.executeModule
  rw [hinv]
  cases err with
  | some e => exact ⟨_, rfl, by simp, by simp⟩
  | none =>
    have h1 := hlen rfl
    match out, h1 with
    | [some startErr], _ => exact ⟨_, rfl, by simp, by simp⟩
    | [none], _ => exact ⟨_, rfl, by simp, by simp⟩

/-! ## The exclusion list of the mac walk -/

theorem macdirlist.dirlist_walk_values (sys : os.System) (fs : godirwalk.FileSystem)
    (dw : datawriter.Faults) (inst : orioninstance.Instance) (mw : datawriter.OrionWriter)
    (hnw : datawriter.NewOrionWriter dw macdirlist.moduleName inst.GetOrionRuntime
      inst.GetOrionOutputFormat inst.GetOrionOutputFilepath = (mw, none)) :
    (macdirlist.dirlist sys fs dw inst).walked.values =
      (godirwalk.Walk
        (macdirlist.Callback sys (macdirlist.globalsOf inst)
          (macdirlist.effectiveExcludedDirs sys inst)
          inst.GetOrionConfig.GetDirlistExcludedExts.1)
        (macdirlist.ErrorCallback (macdirlist.globalsOf inst)) sys fs inst.GetTargetPath
        macdirlist.initialState).1.values := by
  have hcsv := datawriter.NewOrionWriter_csv dw _ _ _ _ mw hnw
  unfold macdirlist.dirlist macdirlist.globalsOf macdirlist.effectiveExcludedDirs
  simp only [hnw]
  generalize hW : godirwalk.Walk _ _ sys fs _ _ = W
  rcases W with ⟨st, werr⟩
  cases werr with
  | none =>
    simp only
    obtain ⟨err, w, heq, _⟩ := datawriter.write_output_outcome dw mw macdirlist.header
      st.values st hcsv
    rw [heq]
  | some e0 =>
    simp only
    obtain ⟨err, w, heq, _⟩ := datawriter.write_output_outcome dw mw macdirlist.header
      st.values { st with log := st.log ++ [e0] } hcsv
    rw [heq]

set_option maxRecDepth 100000 in
theorem macdirlist.volumes_examples :
    (Example.liveMacInstance.ForensicMode = false ∧
      Example.liveMacInstance.GetTargetPath = "/root" ∧
      Example.volumesSys.Glob (Example.volumesSys.Join "/root" "Volumes/*") =
        ["/root/Volumes/ext"] ∧
      macdirlist.effectiveExcludedDirs Example.volumesSys Example.liveMacInstance =
        ["skip", ".git", "/root/Volumes/ext"] ∧
      godirwalk.regularFilesUnder Example.volumesSys Example.volumesFs "/root" =
        [(["/root", "/root/Volumes", "/root/Volumes/ext"], "/root/Volumes/ext/a.txt"),
         (["/root"], "/root/b.txt")] ∧
      (macdirlist.dirlist Example.volumesSys Example.volumesFs Example.okWriter
          Example.liveMacInstance).walked.values =
        [macdirlist.parseRegular Example.volumesSys
          (macdirlist.globalsOf Example.liveMacInstance) "/root/b.txt"] ∧
      (macdirlist.dirlist Example.volumesSys Example.volumesFs Example.okWriter
          Example.liveMacInstance).walked.values.map (fun row => row.getD 9 "") =
        ["/root/b.txt"]) ∧
    (Example.bracketInstance.ForensicMode = false ∧
      Example.bracketInstance.GetTargetPath = "/cases/img[1]" ∧
      Example.volumesSys.Join "/cases/img[1]" "Volumes/*" = "/cases/img[1]/Volumes/*" ∧
      Example.volumesSys.Glob "/cases/img[1]/Volumes/*" = [] ∧
      macdirlist.effectiveExcludedDirs Example.volumesSys Example.bracketInstance =
        ["skip", ".git"] ∧
      godirwalk.regularFilesUnder Example.volumesSys Example.volumesFs "/cases/img[1]" =
        [(["/cases/img[1]", "/cases/img[1]/Volumes", "/cases/img[1]/Volumes/ext"],
          "/cases/img[1]/Volumes/ext/a.txt"),
         (["/cases/img[1]"], "/cases/img[1]/b.txt")] ∧
      Example.volumesSys.Join (Example.volumesSys.Join "/cases/img[1]" "Volumes") "ext" =
        "/cases/img[1]/Volumes/ext" ∧
      (macdirlist.dirlist Example.volumesSys Example.volumesFs Example.okWriter
          Example.bracketInstance).walked.values =
        [macdirlist.parseRegular Example.volumesSys
          (macdirlist.globalsOf Example.bracketInstance) "/cases/img[1]/Volumes/ext/a.txt",
         macdirlist.parseRegular Example.volumesSys
          (macdirlist.globalsOf Example.bracketInstance) "/cases/img[1]/b.txt"] ∧
      (macdirlist.dirlist Example.volumesSys Example.volumesFs Example.okWriter
          Example.bracketInstance).walked.values.map (fun row => row.getD 9 "") =
        ["/cases/img[1]/Volumes/ext/a.txt", "/cases/img[1]/b.txt"]) := by
  refine ⟨⟨by decide, by decide, by decide, by decide, by decide, by decide, by decide⟩,
    ⟨by decide, by decide, by decide, by decide, by decide, by decide, by decide, by decide,
      by decide⟩⟩

/-- C19: in `MacDirlistModule.dirlist` the exclusion list handed to the walk is
the configured list followed by the matches of the pattern
`<target>/Volumes/*` when `ForensicMode()` is false, and the configured list
unchanged when it is true; the callback returns `SkipDir` for every
directory whose path is one of the matches, and every row `dirlist` collects
is the row of a file that lies beneath none of them. With the target "/root"
the volume "/root/Volumes/ext" is pruned. The target path is used as a
pattern, though: with the target "/cases/img[1]" nothing matches, the list is
the configured one, and the file beneath the directory
"/cases/img[1]/Volumes/ext", which is directly under `<target>/Volumes`,
gets its row. -/
theorem mac_dirlist_excludes_mounted_volumes (sys : os.System) (fs : godirwalk.FileSystem)
    (dw : datawriter.Faults) (inst : orioninstance.Instance) :
    (inst.ForensicMode = false →
      macdirlist.effectiveExcludedDirs sys inst =
        inst.GetOrionConfig.GetDirlistExcludedDirs.1 ++
          sys.Glob (sys.Join inst.GetTargetPath "Volumes/*")) ∧
    (inst.ForensicMode = true →
      macdirlist.effectiveExcludedDirs sys inst =
        inst.GetOrionConfig.GetDirlistExcludedDirs.1) ∧
    ((datawriter.NewOrionWriter dw macdirlist.moduleName inst.GetOrionRuntime
        inst.GetOrionOutputFormat inst.GetOrionOutputFilepath).2 = none →
      (macdirlist.dirlist sys fs dw inst).walked.values =
        ((godirwalk.regularFilesUnder sys fs inst.GetTargetPath).filter fun f =>
          !f.1.any (macdirlist.substringListContains
            (macdirlist.effectiveExcludedDirs sys inst)) &&
          !(inst.GetOrionConfig.GetDirlistExcludedExts.1.contains (util.FileExtension f.2) ||
            inst.GetOrionConfig.GetDirlistExcludedExts.1.contains
              ("." ++ util.FileExtension f.2))).map
          (fun f => macdirlist.parseRegular sys (macdirlist.globalsOf inst) f.2)) ∧
    (inst.ForensicMode = false →
      ∀ v ∈ sys.Glob (sys.Join inst.GetTargetPath "Volumes/*"),
        ∀ (st : WalkState) (name : String),
          macdirlist.Callback sys (macdirlist.globalsOf inst)
            (macdirlist.effectiveExcludedDirs sys inst)
            inst.GetOrionConfig.GetDirlistExcludedExts.1 st v ⟨name, .dir⟩
            = (st, some .SkipDir)) ∧
    (inst.ForensicMode = false →
      (datawriter.NewOrionWriter dw macdirlist.moduleName inst.GetOrionRuntime
        inst.GetOrionOutputFormat inst.GetOrionOutputFilepath).2 = none →
      ∀ row ∈ (macdirlist.dirlist sys fs dw inst).walked.values,
        ∃ f ∈ godirwalk.regularFilesUnder sys fs inst.GetTargetPath,
          row = macdirlist.parseRegular sys (macdirlist.globalsOf inst) f.2 ∧
          ∀ d ∈ f.1, d ∉ sys.Glob (sys.Join inst.GetTargetPath "Volumes/*")) ∧
    (Example.liveMacInstance.ForensicMode = false ∧
      Example.liveMacInstance.GetTargetPath = "/root" ∧
      Example.volumesSys.Glob (Example.volumesSys.Join "/root" "Volumes/*") =
        ["/root/Volumes/ext"] ∧
      macdirlist.effectiveExcludedDirs Example.volumesSys Example.liveMacInstance =
        ["skip", ".git", "/root/Volumes/ext"] ∧
      godirwalk.regularFilesUnder Example.volumesSys Example.volumesFs "/root" =
        [(["/root", "/root/Volumes", "/root/Volumes/ext"], "/root/Volumes/ext/a.txt"),
         (["/root"], "/root/b.txt")] ∧
      (macdirlist.dirlist Example.volumesSys Example.volumesFs Example.okWriter
          Example.liveMacInstance).walked.values =
        [macdirlist.parseRegular Example.volumesSys
          (macdirlist.globalsOf Example.liveMacInstance) "/root/b.txt"] ∧
      (macdirlist.dirlist Example.volumesSys Example.volumesFs Example.okWriter
          Example.liveMacInstance).walked.values.map (fun row => row.getD 9 "") =
        ["/root/b.txt"]) ∧
    (Example.bracketInstance.ForensicMode = false ∧
      Example.bracketInstance.GetTargetPath = "/cases/img[1]" ∧
      Example.volumesSys.Join "/cases/img[1]" "Volumes/*" = "/cases/img[1]/Volumes/*" ∧
      Example.volumesSys.Glob "/cases/img[1]/Volumes/*" = [] ∧
      macdirlist.effectiveExcludedDirs Example.volumesSys Example.bracketInstance =
        ["skip", ".git"] ∧
      godirwalk.regularFilesUnder Example.volumesSys Example.volumesFs "/cases/img[1]" =
        [(["/cases/img[1]", "/cases/img[1]/Volumes", "/cases/img[1]/Volumes/ext"],
          "/cases/img[1]/Volumes/ext/a.txt"),
         (["/cases/img[1]"], "/cases/img[1]/b.txt")] ∧
      Example.volumesSys.Join (Example.volumesSys.Join "/cases/img[1]" "Volumes") "ext" =
        "/cases/img[1]/Volumes/ext" ∧
      (macdirlist.dirlist Example.volumesSys Example.volumesFs Example.okWriter
          Example.bracketInstance).walked.values =
        [macdirlist.parseRegular Example.volumesSys
          (macdirlist.globalsOf Example.bracketInstance) "/cases/img[1]/Volumes/ext/a.txt",
         macdirlist.parseRegular Example.volumesSys
          (macdirlist.globalsOf Example.bracketInstance) "/cases/img[1]/b.txt"] ∧
      (macdirlist.dirlist Example.volumesSys Example.volumesFs Example.okWriter
          Example.bracketInstance).walked.values.map (fun row => row.getD 9 "") =
        ["/cases/img[1]/Volumes/ext/a.txt", "/cases/img[1]/b.txt"]) := by
  have hvalues : (datawriter.NewOrionWriter dw macdirlist.moduleName inst.GetOrionRuntime
        inst.GetOrionOutputFormat inst.GetOrionOutputFilepath).2 = none →
      (macdirlist.dirlist sys fs dw inst).walked.values =
        ((godirwalk.regularFilesUnder sys fs inst.GetTargetPath).filter fun f =>
          !f.1.any (macdirlist.substringListContains
            (macdirlist.effectiveExcludedDirs sys inst)) &&
          !(inst.GetOrionConfig.GetDirlistExcludedExts.1.contains (util.FileExtension f.2) ||
            inst.GetOrionConfig.GetDirlistExcludedExts.1.contains
              ("." ++ util.FileExtension f.2))).map
          (fun f => macdirlist.parseRegular sys (macdirlist.globalsOf inst) f.2) := by
    intro hnone
    rcases hnw : datawriter.NewOrionWriter dw macdirlist.moduleName inst.GetOrionRuntime
      inst.GetOrionOutputFormat inst.GetOrionOutputFilepath with ⟨mw, nerr⟩
    rw [hnw] at hnone
    simp only at hnone
    subst hnone
    rw [macdirlist.dirlist_walk_values sys fs dw inst mw hnw]
    obtain ⟨h1, h2, h3, h4⟩ := macdirlist.mac_Callback_spec sys (macdirlist.globalsOf inst)
      (macdirlist.effectiveExcludedDirs sys inst) inst.GetOrionConfig.GetDirlistExcludedExts.1
    have hw := (godirwalk.Walk_values _ _ _ _ _ h1 h2 h3 h4
      (macdirlist.mac_ErrorCallback_spec (macdirlist.globalsOf inst))
      sys fs inst.GetTargetPath macdirlist.initialState).1
    rw [hw]
    simp [macdirlist.initialState]
  have hmatch : inst.ForensicMode = false →
      ∀ v ∈ sys.Glob (sys.Join inst.GetTargetPath "Volumes/*"),
        macdirlist.substringListContains (macdirlist.effectiveExcludedDirs sys inst) v = true := by
    intro h v hv
    rw [macdirlist.substringListContains_iff]
    refine ⟨v, ?_, "", by simp⟩
    simp [macdirlist.effectiveExcludedDirs, h, hv]
  refine ⟨?_, ?_, hvalues, ?_, ?_, macdirlist.volumes_examples.1,
    macdirlist.volumes_examples.2⟩
  · intro h
    simp [macdirlist.effectiveExcludedDirs, h]
  · intro h
    simp [macdirlist.effectiveExcludedDirs, h]
  · intro h v hv st name
    exact (macdirlist.mac_Callback_spec sys (macdirlist.globalsOf inst)
      (macdirlist.effectiveExcludedDirs sys inst)
      inst.GetOrionConfig.GetDirlistExcludedExts.1).1 st v name (hmatch h v hv)
  · intro h hnone row hrow
    rw [hvalues hnone, List.mem_map] at hrow
    obtain ⟨f, hf, rfl⟩ := hrow
    rw [List.mem_filter] at hf
    obtain ⟨hmem, hkeep⟩ := hf
    refine ⟨f, hmem, rfl, ?_⟩
    intro d hd hglob
    have hany : f.1.any (macdirlist.substringListContains
        (macdirlist.effectiveExcludedDirs sys inst)) = true :=
      List.any_eq_true.2 ⟨d, hd, hmatch h d hglob⟩
    simp [hany] at hkeep

/-! ## Packing the output files -/

theorem engine.archiveLoop_entries (ops : engine.ArchiveOps) (files : List String)
    (st : engine.PackState) :
    (engine.archiveLoop ops files st).entries =
      st.entries ++ files.filterMap (engine.packedEntry ops) := by
  induction files generalizing st with
  | nil => simp [engine.archiveLoop]
  | cons file rest ih =>
    unfold engine.archiveLoop
    cases hO : ops.Open file with
    | some e => simp [ih, engine.packedEntry, hO]
    | none =>
      cases hS : ops.Stat file with
      | some e => simp [ih, engine.packedEntry, hO, hS]
      | none =>
        cases hF : ops.FileInfoHeader file with
        | error e => simp [ih, engine.packedEntry, hO, hS, hF]
        | ok header =>
          cases hC : ops.CreateHeader ⟨file, engine.Method.Deflate⟩ with
          | some e => simp [ih, engine.packedEntry, hO, hS, hF, hC]
          | none =>
            rcases hcp : ops.Copy file with ⟨written, cerr⟩
            cases cerr with
            | some e => simp [ih, engine.packedEntry, hO, hS, hF, hC, hcp]
            | none => simp [ih, engine.packedEntry, hO, hS, hF, hC, hcp]

theorem engine.safeAbortLoop_entries (ops : engine.ArchiveOps) (files : List String)
    (st : engine.PackState) :
    (engine.safeAbortLoop ops files st).entries =
      st.entries ++ files.filterMap (engine.packedEntry ops) := by
  induction files generalizing st with
  | nil => simp [engine.safeAbortLoop]
  | cons file rest ih =>
    unfold engine.safeAbortLoop
    cases hO : ops.Open file with
    | some e => simp [ih, engine.packedEntry, hO]
    | none =>
      cases hS : ops.Stat file with
      | some e => simp [ih, engine.packedEntry, hO, hS]
      | none =>
        cases hF : ops.FileInfoHeader file with
        | error e => simp [ih, engine.packedEntry, hO, hS, hF]
        | ok header =>
          cases hC : ops.CreateHeader ⟨file, engine.Method.Deflate⟩ with
          | some e => simp [ih, engine.packedEntry, hO, hS, hF, hC]
          | none =>
            rcases hcp : ops.Copy file with ⟨written, cerr⟩
            cases cerr with
            | some e => simp [ih, engine.packedEntry, hO, hS, hF, hC, hcp]
            | none => simp [ih, engine.packedEntry, hO, hS, hF, hC, hcp]

theorem engine.packedEntry_of_packsCleanly (ops : engine.ArchiveOps) (file : String)
    (h : engine.packsCleanly ops file = true) :
    engine.packedEntry ops file =
      some ⟨⟨file, engine.Method.Deflate⟩, (ops.Copy file).1, true⟩ := by
  unfold engine.packsCleanly at h
  simp only [Bool.and_eq_true, Option.isNone_iff_eq_none] at h
  obtain ⟨⟨⟨⟨hO, hS⟩, hF⟩, hC⟩, hcp⟩ := h
  cases hFI : ops.FileInfoHeader file with
  | error e => simp [hFI, Except.toBool] at hF
  | ok header => simp [engine.packedEntry, hO, hS, hFI, hC, hcp]

theorem engine.packedEntry_name (ops : engine.ArchiveOps) (file : String) (e : engine.ZipEntry)
    (h : engine.packedEntry ops file = some e) :
    e.header = ⟨file, engine.Method.Deflate⟩ := by
  unfold engine.packedEntry at h
  split at h
  · split at h
    · simp only [Option.some.injEq] at h
      rw [← h]
    · simp at h
  · simp at h

theorem engine.archive_entries (ops : engine.ArchiveOps) (i : orioninstance.Instance)
    (files : List String)
    (hglob : ops.Glob (i.GetOrionOutputFilepath ++ "/*") = (files, none))
    (hcreate : ops.Create (i.GetOrionRuntime ++ ".zip") = none) :
    (engine.archive ops i).entries = files.filterMap (engine.packedEntry ops) ∧
    (engine.archive ops i).output = some (i.GetOrionRuntime ++ ".zip") := by
  unfold engine.archive
  simp only [hglob, hcreate]
  have hl := engine.archiveLoop_entries ops files ⟨[], []⟩
  simp only [List.nil_append] at hl
  cases hr : ops.RemoveAll 0 i.GetOrionOutputFilepath with
  | none => exact ⟨hl, rfl⟩
  | some err =>
    simp only
    by_cases hc : strings.Contains err "used by another" = true
    · simp only [hc, if_true]
      cases hr2 : ops.RemoveAll 1 i.GetOrionOutputFilepath with
      | none => exact ⟨hl, rfl⟩
      | some err2 => exact ⟨hl, rfl⟩
    · simp only [hc]
      exact ⟨hl, rfl⟩

theorem engine.safeAbort_entries (ops : engine.ArchiveOps) (i : orioninstance.Instance)
    (files : List String)
    (hglob : ops.Glob (i.GetOrionOutputFilepath ++ "/*") = (files, none))
    (hcreate : ops.Create (i.GetOrionRuntime ++ "_ABORT.zip") = none) :
    (engine.safeAbort ops i).entries = files.filterMap (engine.packedEntry ops) ∧
    (engine.safeAbort ops i).output = some (i.GetOrionRuntime ++ "_ABORT.zip") ∧
    (engine.safeAbort ops i).removals = [] := by
  unfold engine.safeAbort
  simp only [hglob, hcreate]
  have hl := engine.safeAbortLoop_entries ops files
    ⟨[], ["DO NOT INTERRUPT - Packaging files before terminating...",
      "Does not save output progress made by modules not yet complete!!!"]⟩
  simp only [List.nil_append] at hl
  exact ⟨hl, by simp⟩

theorem engine.packedEntry_count (ops : engine.ArchiveOps) (f : String)
    (hf : engine.packsCleanly ops f = true) (files : List String) :
    ((files.filterMap (engine.packedEntry ops)).filter
      (fun e => decide (e.header.Name = f))).length = files.count f := by
  induction files with
  | nil => simp
  | cons g rest ih =>
    by_cases hg : g = f
    · subst hg
      simp [List.filterMap_cons, engine.packedEntry_of_packsCleanly ops g hf, ih]
    · have hcount : (g :: rest).count f = rest.count f := by
        simp [List.count_cons, hg]
      rw [hcount, ← ih]
      cases hp : engine.packedEntry ops g with
      | none => simp [List.filterMap_cons, hp]
      | some e =>
        have hname := engine.packedEntry_name ops g e hp
        simp [List.filterMap_cons, hp, List.filter_cons, hname, hg]

/-- C15 (amended): when `archive` could list the output directory and create
the archive file, its entries are those of the listed files, in order, for
which opening, stat, header creation and `CreateHeader` succeed; a file for
which the copy succeeds too gets one entry per occurrence in the listing,
complete, compressed with the deflate method, and named by the path under
which it was listed (the one `filepath.Glob` returned for the output
directory followed by "/*"), not by its name inside that directory. -/
theorem archive_entry_is_named_by_listed_path (ops : engine.ArchiveOps)
    (i : orioninstance.Instance) (files : List String)
    (hglob : ops.Glob (i.GetOrionOutputFilepath ++ "/*") = (files, none))
    (hcreate : ops.Create (i.GetOrionRuntime ++ ".zip") = none) :
    (engine.archive ops i).entries = files.filterMap (engine.packedEntry ops) ∧
    ∀ f ∈ files, engine.packsCleanly ops f = true →
      ⟨⟨f, engine.Method.Deflate⟩, (ops.Copy f).1, true⟩ ∈ (engine.archive ops i).entries ∧
      ((engine.archive ops i).entries.filter
        (fun e => decide (e.header.Name = f))).length = files.count f ∧
      ∀ e ∈ (engine.archive ops i).entries, e.header.Name = f →
        e = ⟨⟨f, engine.Method.Deflate⟩, (ops.Copy f).1, true⟩ := by
  have hent := (engine.archive_entries ops i files hglob hcreate).1
  refine ⟨hent, ?_⟩
  intro f hf hclean
  rw [hent]
  refine ⟨?_, engine.packedEntry_count ops f hclean files, ?_⟩
  · rw [List.mem_filterMap]
    exact ⟨f, hf, engine.packedEntry_of_packsCleanly ops f hclean⟩
  · intro e he hname
    rw [List.mem_filterMap] at he
    obtain ⟨g, _, hg⟩ := he
    have hh := engine.packedEntry_name ops g e hg
    have hgf : g = f := by
      rw [hh] at hname
      exact hname
    subst hgf
    rw [engine.packedEntry_of_packsCleanly ops g hclean] at hg
    exact (Option.some.inj hg).symm

/-- Witness of C15 (amended): in the output directory "out" the files
"out/run1_Good.csv" and "out/run1_Other.csv" get one deflate entry each,
named by that path; the file that cannot be opened gets none. -/
theorem archive_entry_is_named_by_listed_path_witness :
    (engine.archive Example.archiveOps Example.windowsInstance).entries.map
      (fun e => (e.header.Name, e.header.Method, e.complete)) =
      [("out/run1_Good.csv", engine.Method.Deflate, true),
       ("out/run1_Other.csv", engine.Method.Deflate, true)] ∧
    ((engine.archive Example.archiveOps Example.windowsInstance).entries.filter
      (fun e => decide (e.header.Name = "out/run1_Good.csv"))).length = 1 :=
  have h := archive_entry_is_named_by_listed_path Example.archiveOps Example.windowsInstance
    ["out/run1_Good.csv", "out/locked.csv", "out/run1_Other.csv"] (by decide) (by decide)
  ⟨by rw [h.1]; decide,
    (h.2 "out/run1_Good.csv" (by decide) (by decide)).2.1.trans (by decide)⟩

/-- Counterexample to C15 as stated: the file "run1_Good.csv" of the output
directory "out" is opened, stat-ed, given a header and copied without error,
and its entry is named "out/run1_Good.csv", which is not its name relative
to the output directory. -/
theorem archive_entry_name_keeps_output_directory :
    Example.windowsInstance.GetOrionOutputFilepath = "out" ∧
    engine.packsCleanly Example.archiveOps "out/run1_Good.csv" = true ∧
    (engine.archive Example.archiveOps Example.windowsInstance).entries.map
      (fun e => e.header.Name) = ["out/run1_Good.csv", "out/run1_Other.csv"] ∧
    ("out/run1_Good.csv" : String) = "out" ++ "/" ++ "run1_Good.csv" ∧
    ("out/run1_Good.csv" : String) ≠ "run1_Good.csv" := by
  decide

/-- C16: in `archive` and in `safeAbort` a file that fails (open, stat,
header or copy) does not stop the loop: whatever the outcomes for the other
files of the list, every file whose steps all succeed gets its complete
entry, and the entries written before stay; so the archives of both
functions hold the entry of every such file of the output directory. -/
theorem archive_loop_continues_after_failures (ops : engine.ArchiveOps)
    (i : orioninstance.Instance) (files : List String) (st : engine.PackState) :
    (∀ f ∈ files, engine.packsCleanly ops f = true →
      ⟨⟨f, engine.Method.Deflate⟩, (ops.Copy f).1, true⟩
        ∈ (engine.archiveLoop ops files st).entries ∧
      ⟨⟨f, engine.Method.Deflate⟩, (ops.Copy f).1, true⟩
        ∈ (engine.safeAbortLoop ops files st).entries) ∧
    st.entries <+: (engine.archiveLoop ops files st).entries ∧
    st.entries <+: (engine.safeAbortLoop ops files st).entries ∧
    (ops.Glob (i.GetOrionOutputFilepath ++ "/*") = (files, none) →
      ops.Create (i.GetOrionRuntime ++ ".zip") = none →
      ∀ f ∈ files, engine.packsCleanly ops f = true →
        ⟨⟨f, engine.Method.Deflate⟩, (ops.Copy f).1, true⟩ ∈ (engine.archive ops i).entries) ∧
    (ops.Glob (i.GetOrionOutputFilepath ++ "/*") = (files, none) →
      ops.Create (i.GetOrionRuntime ++ "_ABORT.zip") = none →
      ∀ f ∈ files, engine.packsCleanly ops f = true →
        ⟨⟨f, engine.Method.Deflate⟩, (ops.Copy f).1, true⟩
          ∈ (engine.safeAbort ops i).entries) := by
  have hmem : ∀ f ∈ files, engine.packsCleanly ops f = true →
      (⟨⟨f, engine.Method.Deflate⟩, (ops.Copy f).1, true⟩ : engine.ZipEntry)
        ∈ files.filterMap (engine.packedEntry ops) := by
    intro f hf hclean
    rw [List.mem_filterMap]
    exact ⟨f, hf, engine.packedEntry_of_packsCleanly ops f hclean⟩
  refine ⟨?_, ?_, ?_, ?_, ?_⟩
  · intro f hf hclean
    rw [engine.archiveLoop_entries, engine.safeAbortLoop_entries]
    exact ⟨List.mem_append_right _ (hmem f hf hclean),
      List.mem_append_right _ (hmem f hf hclean)⟩
  · rw [engine.archiveLoop_entries]
    exact List.prefix_append _ _
  · rw [engine.safeAbortLoop_entries]
    exact List.prefix_append _ _
  · intro hglob hcreate f hf hclean
    rw [(engine.archive_entries ops i files hglob hcreate).1]
    exact hmem f hf hclean
  · intro hglob hcreate f hf hclean
    rw [(engine.safeAbort_entries ops i files hglob hcreate).1]
    exact hmem f hf hclean

/-- Witness of C16: with the second of three files unreadable, the third
file is still packed, by `archive` and by `safeAbort`. -/
theorem archive_loop_continues_after_failures_witness :
    engine.packsCleanly Example.archiveOps "out/locked.csv" = false ∧
    (⟨⟨"out/run1_Other.csv", engine.Method.Deflate⟩,
        (Example.archiveOps.Copy "out/run1_Other.csv").1, true⟩ : engine.ZipEntry)
      ∈ (engine.archive Example.archiveOps Example.windowsInstance).entries ∧
    (⟨⟨"out/run1_Other.csv", engine.Method.Deflate⟩,
        (Example.archiveOps.Copy "out/run1_Other.csv").1, true⟩ : engine.ZipEntry)
      ∈ (engine.safeAbort Example.archiveOps Example.windowsInstance).entries :=
  have h := archive_loop_continues_after_failures Example.archiveOps Example.windowsInstance
    ["out/run1_Good.csv", "out/locked.csv", "out/run1_Other.csv"] ⟨[], []⟩
  ⟨by decide,
    h.2.2.2.1 (by decide) (by decide) "out/run1_Other.csv" (by decide) (by decide),
    h.2.2.2.2 (by decide) (by decide) "out/run1_Other.csv" (by decide) (by decide)⟩

/-! ## Removing the output directory -/

theorem engine.archive_first_removal (ops : engine.ArchiveOps)
    (i : orioninstance.Instance) (files : List String)
    (hglob : ops.Glob (i.GetOrionOutputFilepath ++ "/*") = (files, none))
    (hcreate : ops.Create (i.GetOrionRuntime ++ ".zip") = none) :
    (engine.archive ops i).removals.head? = some (ops.RemoveAll 0 i.GetOrionOutputFilepath) := by
  unfold engine.archive
  simp only [hglob, hcreate]
  cases hr : ops.RemoveAll 0 i.GetOrionOutputFilepath with
  | none => simp [hr]
  | some err =>
    by_cases hu : strings.Contains err "used by another" = true
    · cases hr2 : ops.RemoveAll 1 i.GetOrionOutputFilepath <;> simp [hr, hr2, hu]
    · simp [hr, hu]

/-- C17 (amended): `archive` never calls `os.RemoveAll` more than twice. When
the output files cannot be listed or the archive file cannot be created it
returns without calling it. Otherwise it calls it once, and a second and
last time exactly when the first call failed with an error whose text
contains "used by another"; the first failure is printed with the directory
and the error, and so is a second one. -/
theorem archive_removal_retried_once_when_in_use (ops : engine.ArchiveOps)
    (i : orioninstance.Instance) :
    (engine.archive ops i).removals.length ≤ 2 ∧
    ((ops.Glob (i.GetOrionOutputFilepath ++ "/*")).2 ≠ none →
      (engine.archive ops i).removals = []) ∧
    (∀ files, ops.Glob (i.GetOrionOutputFilepath ++ "/*") = (files, none) →
      ops.Create (i.GetOrionRuntime ++ ".zip") ≠ none →
      (engine.archive ops i).removals = []) ∧
    (∀ files, ops.Glob (i.GetOrionOutputFilepath ++ "/*") = (files, none) →
      ops.Create (i.GetOrionRuntime ++ ".zip") = none →
      (engine.archive ops i).removals =
        ops.RemoveAll 0 i.GetOrionOutputFilepath ::
          (match ops.RemoveAll 0 i.GetOrionOutputFilepath with
            | some err =>
              if strings.Contains err "used by another" = true then
                [ops.RemoveAll 1 i.GetOrionOutputFilepath]
              else []
            | none => []) ∧
      ((engine.archive ops i).removals.length = 2 ↔
        ∃ err, ops.RemoveAll 0 i.GetOrionOutputFilepath = some err ∧
          strings.Contains err "used by another" = true) ∧
      (∀ err, ops.RemoveAll 0 i.GetOrionOutputFilepath = some err →
        ("Failed to remove Orion output folder \x27" ++ i.GetOrionOutputFilepath ++
            "\x27: " ++ err) ∈ (engine.archive ops i).printed) ∧
      (∀ err err2, ops.RemoveAll 0 i.GetOrionOutputFilepath = some err →
        strings.Contains err "used by another" = true →
        ops.RemoveAll 1 i.GetOrionOutputFilepath = some err2 →
        ("Still failed to remove Orion output folder: " ++ err2)
          ∈ (engine.archive ops i).printed)) := by
  refine ⟨?_, ?_, ?_, ?_⟩
  · unfold engine.archive
    rcases hg : ops.Glob (i.GetOrionOutputFilepath ++ "/*") with ⟨files, gerr⟩
    cases gerr with
    | some e => simp
    | none =>
      cases hc : ops.Create (i.GetOrionRuntime ++ ".zip") with
      | some e => simp [hc]
      | none =>
        cases hr : ops.RemoveAll 0 i.GetOrionOutputFilepath with
        | none => simp [hc, hr]
        | some err =>
          by_cases hu : strings.Contains err "used by another" = true
          · cases hr2 : ops.RemoveAll 1 i.GetOrionOutputFilepath <;> simp [hc, hr, hr2, hu]
          · simp [hc, hr, hu]
  · intro hne
    unfold engine.archive
    rcases hg : ops.Glob (i.GetOrionOutputFilepath ++ "/*") with ⟨files, gerr⟩
    rw [hg] at hne
    cases gerr with
    | some e => simp
    | none => exact absurd rfl hne
  · intro files hglob hne
    unfold engine.archive
    simp only [hglob]
    cases hc : ops.Create (i.GetOrionRuntime ++ ".zip") with
    | some e => simp
    | none => exact absurd hc hne
  · intro files hglob hcreate
    unfold engine.archive
    simp only [hglob, hcreate]
    cases hr : ops.RemoveAll 0 i.GetOrionOutputFilepath with
    | none => simp [hr]
    | some err =>
      by_cases hu : strings.Contains err "used by another" = true
      · cases hr2 : ops.RemoveAll 1 i.GetOrionOutputFilepath <;> simp [hr, hr2, hu]
      · simp only [hr, hu]
        refine ⟨by simp, by simp [hu], by simp, ?_⟩
        intro e1 e2 h1 h2
        simp only [Option.some.injEq] at h1
        subst h1
        exact absurd h2 hu

/-- Witness of C17 (amended): the first removal fails with a text that
contains "used by another", the second succeeds: two attempts, the failure
printed with the directory in quotes. -/
theorem archive_removal_retried_once_when_in_use_witness :
    (engine.archive Example.archiveOps Example.windowsInstance).removals =
      [some "The process cannot access the file because it is being used by another process.",
       none] ∧
    (engine.archive Example.archiveOps Example.windowsInstance).removals.length = 2 ∧
    (engine.archive Example.archiveOps Example.windowsInstance).printed =
      ["Failed to remove Orion output folder \x27out\x27: The process cannot access the " ++
        "file because it is being used by another process.",
       "Waiting 5 seconds before attempting again"] :=
  have h := (archive_removal_retried_once_when_in_use Example.archiveOps
    Example.windowsInstance).2.2.2
      ["out/run1_Good.csv", "out/locked.csv", "out/run1_Other.csv"] (by decide) (by decide)
  ⟨h.1.trans (by decide),
    h.2.1.2 ⟨"The process cannot access the file because it is being used by another process.",
      by decide, by decide⟩,
    by decide⟩

/-- Counterexample to C17 as stated: when the archive file cannot be created,
or the output directory cannot be listed, `archive` returns without any
attempt to remove the output directory; and when the first removal fails
with "permission denied" on a file whose name contains "used by another",
the removal is attempted a second time although no process has the
directory in use. -/
theorem archive_removal_skipped_or_retried_by_text :
    (engine.archive Example.noArchiveOps Example.windowsInstance).removals = [] ∧
    (engine.archive Example.noGlobArchiveOps Example.windowsInstance).removals = [] ∧
    Example.deniedArchiveOps.RemoveAll 0 "out" =
      some "unlinkat out/used by another.csv: permission denied" ∧
    (engine.archive Example.deniedArchiveOps Example.windowsInstance).removals =
      [some "unlinkat out/used by another.csv: permission denied",
       some "unlinkat out/used by another.csv: permission denied"] := by
  refine ⟨by decide, by decide, by decide, by decide⟩

/-! ## The abort archive -/

theorem engine.abort_name_ne (r : String) : r ++ "_ABORT.zip" ≠ r ++ ".zip" := by
  intro h
  have hl := congrArg String.length h
  simp only [String.length_append] at hl
  have e1 : ("_ABORT.zip" : String).length = 10 := by decide
  have e2 : (".zip" : String).length = 4 := by decide
  omega

/-- C18: `safeAbort` and `archive` pack alike: from equal entries their loops
produce equal entries (names, methods, contents) for every file list and
every outcome of the file operations, and when both archive files can be
created the two archives hold the same entries. The archive of `archive` is
named by the runtime identifier followed by ".zip", that of `safeAbort` by
the runtime identifier followed by "_ABORT.zip", two different names; only
`archive` goes on to remove the output directory. -/
theorem safeAbort_packs_like_archive (ops : engine.ArchiveOps) (i : orioninstance.Instance)
    (files : List String)
    (hglob : ops.Glob (i.GetOrionOutputFilepath ++ "/*") = (files, none))
    (hcreate : ops.Create (i.GetOrionRuntime ++ ".zip") = none)
    (habort : ops.Create (i.GetOrionRuntime ++ "_ABORT.zip") = none) :
    (∀ (fs : List String) (st1 st2 : engine.PackState), st1.entries = st2.entries →
      (engine.safeAbortLoop ops fs st1).entries = (engine.archiveLoop ops fs st2).entries) ∧
    (engine.safeAbort ops i).entries = (engine.archive ops i).entries ∧
    (engine.archive ops i).output = some (i.GetOrionRuntime ++ ".zip") ∧
    (engine.safeAbort ops i).output = some (i.GetOrionRuntime ++ "_ABORT.zip") ∧
    i.GetOrionRuntime ++ "_ABORT.zip" ≠ i.GetOrionRuntime ++ ".zip" ∧
    (engine.safeAbort ops i).removals = [] ∧
    (engine.archive ops i).removals ≠ [] := by
  obtain ⟨ha1, ha2⟩ := engine.archive_entries ops i files hglob hcreate
  obtain ⟨hs1, hs2, hs3⟩ := engine.safeAbort_entries ops i files hglob habort
  refine ⟨?_, by rw [ha1, hs1], ha2, hs2, engine.abort_name_ne _, hs3, ?_⟩
  · intro fs st1 st2 h
    rw [engine.safeAbortLoop_entries, engine.archiveLoop_entries, h]
  · have h := ((engine.archive_first_removal ops i files hglob hcreate))
    intro hnil
    rw [hnil] at h
    simp at h

/-- Witness of C18: on the three files of the output directory "out", one of
which cannot be opened, `safeAbort` and `archive` pack the same two entries,
into "run1_ABORT.zip" and "run1.zip". -/
theorem safeAbort_packs_like_archive_witness :
    (engine.safeAbort Example.archiveOps Example.windowsInstance).entries =
      (engine.archive Example.archiveOps Example.windowsInstance).entries ∧
    (engine.archive Example.archiveOps Example.windowsInstance).entries.length = 2 ∧
    (engine.archive Example.archiveOps Example.windowsInstance).output =
      some (Example.windowsInstance.GetOrionRuntime ++ ".zip") ∧
    (engine.safeAbort Example.archiveOps Example.windowsInstance).output =
      some (Example.windowsInstance.GetOrionRuntime ++ "_ABORT.zip") ∧
    (engine.safeAbort Example.archiveOps Example.windowsInstance).removals = [] :=
  have h := safeAbort_packs_like_archive Example.archiveOps Example.windowsInstance
    ["out/run1_Good.csv", "out/locked.csv", "out/run1_Other.csv"]
    (by decide) (by decide) (by decide)
  ⟨h.2.1, by decide, h.2.2.1, h.2.2.2.1, h.2.2.2.2.2.1⟩

/-! ## The scheduler of `executeModules` -/

theorem engine.executeModule_fields (typeRegistry : engine.TypeRegistry) (module : String)
    (useWg : Bool) (inst : orioninstance.Instance) (run : engine.ModuleRun)
    (h : engine.executeModule typeRegistry module useWg inst = some run) :
    run.module = module ∧ run.wgDone = useWg := by
  unfold engine.executeModule at h
  split at h
  · cases h
  · cases h; exact ⟨rfl, rfl⟩
  · split at h
    · cases h
    · cases h; exact ⟨rfl, rfl⟩
    · cases h; exact ⟨rfl, rfl⟩

theorem engine.exec_invariant (typeRegistry : engine.TypeRegistry) (modules : List String)
    (i : orioninstance.Instance) (P : engine.Sched → Prop)
    (hstep : ∀ s a s1, P s → engine.step typeRegistry modules i s a = some s1 → P s1) :
    ∀ (acts : List engine.Action) (s s1 : engine.Sched), P s →
      engine.exec typeRegistry modules i s acts = some s1 → P s1 := by
  intro acts
  induction acts with
  | nil => intro s s1 hs h; simp only [engine.exec, Option.some.injEq] at h; subst h; exact hs
  | cons a rest ih =>
    intro s s1 hs h
    simp only [engine.exec] at h
    cases hst : engine.step typeRegistry modules i s a with
    | none => simp [hst] at h
    | some s2 =>
      simp only [hst] at h
      exact ih s2 s1 (hstep s a s2 hs hst) h

theorem engine.spawned_append (t u : List engine.Event) :
    engine.spawned (t ++ u) = engine.spawned t ++ engine.spawned u := by
  simp [engine.spawned, List.filterMap_append]

theorem engine.returnedRuns_append (t u : List engine.Event) :
    engine.returnedRuns (t ++ u) = engine.returnedRuns t ++ engine.returnedRuns u := by
  simp [engine.returnedRuns, List.filterMap_append]

theorem engine.beforeArchive_append_of_mem (t u : List engine.Event)
    (h : engine.Event.archive ∈ t) :
    engine.beforeArchive (t ++ u) = engine.beforeArchive t := by
  induction t with
  | nil => simp at h
  | cons e t ih =>
    by_cases he : e = engine.Event.archive
    · subst he; simp [engine.beforeArchive, List.takeWhile]
    · have ht : engine.Event.archive ∈ t := by
        rcases List.mem_cons.1 h with h1 | h1
        · exact absurd h1.symm he
        · exact h1
      have := ih ht
      simp only [engine.beforeArchive] at this ⊢
      simp [List.takeWhile, he, this]

theorem engine.beforeArchive_append_archive (t u : List engine.Event)
    (h : engine.Event.archive ∉ t) :
    engine.beforeArchive (t ++ engine.Event.archive :: u) = t := by
  induction t with
  | nil => simp [engine.beforeArchive, List.takeWhile]
  | cons e t ih =>
    have he : e ≠ engine.Event.archive := fun h1 => h (by simp [h1])
    have ht : engine.Event.archive ∉ t := fun h1 => h (List.mem_cons_of_mem _ h1)
    have := ih ht
    have hb : (e != engine.Event.archive) = true := by simpa using he
    simp only [engine.beforeArchive] at this ⊢
    rw [List.cons_append, List.takeWhile_cons, hb, this]
    simp

theorem engine.perm_cons_eraseIdx (l : List String) (k : Nat) (m : String)
    (h : l[k]? = some m) : (m :: l.eraseIdx k).Perm l := by
  induction l generalizing k with
  | nil => simp at h
  | cons a l ih =>
    cases k with
    | zero => simp at h; subst h; simp
    | succ k =>
      simp at h
      have := ih k h
      simp only [List.eraseIdx_cons_succ]
      exact (List.Perm.swap a m _).trans (List.Perm.cons a this)

theorem engine.length_eraseIdx_of_getElem (l : List String) (k : Nat) (m : String)
    (h : l[k]? = some m) : ((l.eraseIdx k).length : Int) = (l.length : Int) - 1 := by
  have h1 := (engine.perm_cons_eraseIdx l k m h).length_eq
  simp at h1
  omega

theorem engine.spawned_nil : engine.spawned [] = [] := rfl

theorem engine.spawned_cons (e : engine.Event) (t : List engine.Event) :
    engine.spawned (e :: t) =
      (match e with
        | .goExecuteModule m => [m]
        | _ => []) ++ engine.spawned t := by
  cases e <;> simp [engine.spawned, List.filterMap_cons]

theorem engine.returnedRuns_nil : engine.returnedRuns [] = [] := rfl

theorem engine.returnedRuns_cons (e : engine.Event) (t : List engine.Event) :
    engine.returnedRuns (e :: t) =
      (match e with
        | .returned r => [r]
        | _ => []) ++ engine.returnedRuns t := by
  cases e <;> simp [engine.returnedRuns, List.filterMap_cons]

theorem engine.ThreadedInv_append (modules : List String) (s : engine.Sched)
    (u : List engine.Event) (handler : engine.HandlerState) (ended : Bool)
    (hsp : engine.spawned u = []) (hret : engine.returnedRuns u = [])
    (hadd : engine.Event.wgAdd ∉ u) (hna : engine.Event.archive ∉ u)
    (hs : engine.ThreadedInv modules s) :
    engine.ThreadedInv modules
      { s with trace := s.trace ++ u, handler := handler, ended := ended } := by
  rcases s with ⟨pc, running, wg, handler0, ended0, trace⟩
  obtain ⟨hwg, hperm, hdone, hcount, hpc⟩ := hs
  simp only at hwg hperm hdone hcount hpc
  refine ⟨hwg, ?_, ?_, ?_, ?_⟩
  · simpa [engine.spawned_append, engine.returnedRuns_append, hsp, hret] using hperm
  · simpa [engine.returnedRuns_append, hret] using hdone
  · simpa [engine.spawned_append, hsp, List.count_append,
      List.count_eq_zero_of_not_mem hadd] using hcount
  · cases pc with
    | start => simpa [engine.spawned_append, hsp, hna] using hpc
    | dispatch rest => simpa [engine.spawned_append, hsp, hna] using hpc
    | waiting => simpa [engine.spawned_append, hsp, hna] using hpc
    | archiving => simpa [engine.spawned_append, hsp, hna] using hpc
    | done =>
      simp only at hpc ⊢
      obtain ⟨h1, h2, h3, h4⟩ := hpc
      have hmem : engine.Event.archive ∈ trace := by
        rw [← List.count_pos_iff, h3]; exact Nat.one_pos
      refine ⟨?_, h2, ?_, ?_⟩
      · simp [engine.spawned_append, hsp, h1]
      · simp [List.count_append, List.count_eq_zero_of_not_mem hna, h3]
      · rw [engine.beforeArchive_append_of_mem _ _ hmem]; exact h4

theorem engine.ThreadedInv_step (typeRegistry : engine.TypeRegistry) (modules : List String)
    (i : orioninstance.Instance) (hmt : i.NoMultithreading = false)
    (s : engine.Sched) (a : engine.Action) (s1 : engine.Sched)
    (hs : engine.ThreadedInv modules s)
    (h : engine.step typeRegistry modules i s a = some s1) : engine.ThreadedInv modules s1 := by
  rcases s with ⟨pc, running, wg, handler, ended, trace⟩
  obtain ⟨hwg, hperm, hdone, hadd, hpc⟩ := hs
  simp only at hwg hperm hdone hadd hpc
  unfold engine.step at h
  cases ended with
  | true => simp at h
  | false =>
    simp only [Bool.false_eq_true, if_false] at h
    cases a with
    | main =>
      cases pc with
      | start =>
        simp only [engine.mainStep, hmt, if_true, Option.some.injEq] at h
        subst h
        simp only at hpc
        refine ⟨hwg, ?_, ?_, ?_, ?_⟩
        · simpa [engine.spawned_append, engine.returnedRuns_append, engine.spawned_cons,
            engine.spawned_nil, engine.returnedRuns_cons, engine.returnedRuns_nil] using hperm
        · simpa [engine.returnedRuns_append, engine.returnedRuns_cons,
            engine.returnedRuns_nil] using hdone
        · simpa [engine.spawned_append, engine.spawned_cons, engine.spawned_nil,
            List.count_append] using hadd
        · simp [engine.spawned_append, engine.spawned_cons, engine.spawned_nil, hpc.1, hpc.2]
      | dispatch rest =>
        cases rest with
        | nil =>
          simp only [engine.mainStep, hmt, if_true, Option.some.injEq] at h
          subst h
          simp only [List.append_nil] at hpc
          exact ⟨hwg, hperm, hdone, hadd, hpc⟩
        | cons m rest =>
          simp only [engine.mainStep, hmt, if_true, Option.some.injEq] at h
          subst h
          simp only at hpc
          refine ⟨?_, ?_, ?_, ?_, ?_⟩
          · simp [hwg]
          · simp only [engine.spawned_append, engine.returnedRuns_append, engine.spawned_cons,
              engine.spawned_nil, engine.returnedRuns_cons, engine.returnedRuns_nil,
              List.append_nil, List.nil_append, ← List.append_assoc]
            exact List.Perm.append_right _ hperm
          · simpa [engine.returnedRuns_append, engine.returnedRuns_cons,
              engine.returnedRuns_nil] using hdone
          · simp [engine.spawned_append, engine.spawned_cons, engine.spawned_nil,
              List.count_append, hadd]
          · simp [engine.spawned_append, engine.spawned_cons, engine.spawned_nil, hpc.1, hpc.2]
      | waiting =>
        simp only [engine.mainStep] at h
        split at h
        · rename_i hz
          simp only [Option.some.injEq] at h
          subst h
          simp only at hpc
          have hrun : running = [] := by
            have : (running.length : Int) = 0 := by rw [← hwg]; exact hz
            exact List.length_eq_zero.1 (by exact_mod_cast this)
          refine ⟨hwg, ?_, ?_, ?_, ?_⟩
          · simpa [engine.spawned_append, engine.returnedRuns_append, engine.spawned_cons,
              engine.spawned_nil, engine.returnedRuns_cons, engine.returnedRuns_nil] using hperm
          · simpa [engine.returnedRuns_append, engine.returnedRuns_cons,
              engine.returnedRuns_nil] using hdone
          · simpa [engine.spawned_append, engine.spawned_cons, engine.spawned_nil,
              List.count_append] using hadd
          · simp [engine.spawned_append, engine.spawned_cons, engine.spawned_nil, hpc.1, hpc.2,
              hrun]
        · cases h
      | archiving =>
        simp only [engine.mainStep, Option.some.injEq] at h
        subst h
        simp only at hpc
        obtain ⟨hsp, hrun, hna⟩ := hpc
        subst hrun
        refine ⟨hwg, ?_, ?_, ?_, ?_⟩
        · simpa [engine.spawned_append, engine.returnedRuns_append, engine.spawned_cons,
            engine.spawned_nil, engine.returnedRuns_cons, engine.returnedRuns_nil] using hperm
        · simpa [engine.returnedRuns_append, engine.returnedRuns_cons,
            engine.returnedRuns_nil] using hdone
        · simpa [engine.spawned_append, engine.spawned_cons, engine.spawned_nil,
            List.count_append] using hadd
        · refine ⟨?_, rfl, ?_, ?_⟩
          · simp [engine.spawned_append, engine.spawned_cons, engine.spawned_nil, hsp]
          · simp [List.count_append, List.count_eq_zero_of_not_mem hna]
          · rw [engine.beforeArchive_append_archive _ _ hna, ← hsp]
            simpa using hperm
      | done => simp [engine.mainStep] at h
    | task k =>
      simp only [engine.taskStep] at h
      cases hk : running[k]? with
      | none => simp [hk] at h
      | some m =>
        simp only [hk] at h
        cases hx : engine.executeModule typeRegistry m true i with
        | none =>
          simp only [hx, Option.some.injEq] at h
          subst h
          exact engine.ThreadedInv_append modules ⟨pc, running, wg, handler, false, trace⟩
            [engine.Event.crashed] handler true rfl rfl (by simp) (by simp)
            ⟨hwg, hperm, hdone, hadd, hpc⟩
        | some run =>
          simp only [hx, Option.some.injEq] at h
          subst h
          obtain ⟨hmod, hwd⟩ := engine.executeModule_fields typeRegistry m true i run hx
          have hne : running ≠ [] := by
            intro h0; subst h0; simp at hk
          refine ⟨?_, ?_, ?_, ?_, ?_⟩
          · simp only [hwd, if_true]
            rw [engine.length_eraseIdx_of_getElem running k m hk, hwg]
          · simp only [engine.spawned_append, engine.returnedRuns_append, engine.spawned_cons,
              engine.spawned_nil, engine.returnedRuns_cons, engine.returnedRuns_nil,
              List.append_nil, List.map_append, List.map_cons, List.map_nil, hmod,
              List.append_assoc, List.singleton_append]
            exact (List.Perm.append_left _ (engine.perm_cons_eraseIdx running k m hk)).trans hperm
          · intro r hr
            simp only [engine.returnedRuns_append, engine.returnedRuns_cons,
              engine.returnedRuns_nil, List.append_nil, List.mem_append,
              List.mem_singleton] at hr
            rcases hr with hr | hr
            · exact hdone r hr
            · rw [hr]; exact hwd
          · simpa [engine.spawned_append, engine.spawned_cons, engine.spawned_nil,
              List.count_append] using hadd
          · cases pc with
            | start => simpa [engine.spawned_append, engine.spawned_cons, engine.spawned_nil] using hpc
            | dispatch rest =>
              simpa [engine.spawned_append, engine.spawned_cons, engine.spawned_nil] using hpc
            | waiting =>
              simpa [engine.spawned_append, engine.spawned_cons, engine.spawned_nil] using hpc
            | archiving => exact absurd hpc.2.1 hne
            | done => exact absurd hpc.2.1 hne
    | interrupt =>
      simp only [engine.interruptStep] at h
      cases handler with
      | absent =>
        simp only [Option.some.injEq] at h
        subst h
        exact engine.ThreadedInv_append modules ⟨pc, running, wg, .absent, false, trace⟩
          [engine.Event.killed] .absent true rfl rfl (by simp) (by simp)
          ⟨hwg, hperm, hdone, hadd, hpc⟩
      | started =>
        simp only [Option.some.injEq] at h
        subst h
        exact ⟨hwg, hperm, hdone, hadd, hpc⟩
      | receiving =>
        simp only [Option.some.injEq] at h
        subst h
        exact engine.ThreadedInv_append modules ⟨pc, running, wg, .receiving, false, trace⟩
          [engine.Event.safeAbort] .aborting false rfl rfl (by simp) (by simp)
          ⟨hwg, hperm, hdone, hadd, hpc⟩
      | aborting =>
        simp only [Option.some.injEq] at h
        subst h
        exact ⟨hwg, hperm, hdone, hadd, hpc⟩
    | handler =>
      simp only [engine.handlerStep] at h
      cases handler with
      | absent => simp at h
      | started =>
        simp only [Option.some.injEq] at h
        subst h
        exact ⟨hwg, hperm, hdone, hadd, hpc⟩
      | receiving => simp at h
      | aborting =>
        simp only [Option.some.injEq] at h
        subst h
        exact engine.ThreadedInv_append modules ⟨pc, running, wg, .aborting, false, trace⟩
          [engine.Event.exit 1] .aborting true rfl rfl (by simp) (by simp)
          ⟨hwg, hperm, hdone, hadd, hpc⟩

theorem engine.sequentialTrace_append (a b : List engine.ModuleRun) :
    engine.sequentialTrace (a ++ b) = engine.sequentialTrace a ++ engine.sequentialTrace b := by
  simp [engine.sequentialTrace, List.flatMap_append]

theorem engine.sequentialTrace_cons (r : engine.ModuleRun) (b : List engine.ModuleRun) :
    engine.sequentialTrace (r :: b) =
      engine.Event.callExecuteModule r.module :: engine.Event.returned r ::
        engine.sequentialTrace b := by
  simp [engine.sequentialTrace, List.flatMap_cons]

theorem engine.SequentialInv_step (typeRegistry : engine.TypeRegistry) (modules : List String)
    (i : orioninstance.Instance) (hseq : i.NoMultithreading = true)
    (runs : List engine.ModuleRun) (hmap : runs.map (fun r => r.module) = modules)
    (hall : ∀ r ∈ runs, engine.executeModule typeRegistry r.module false i = some r)
    (s : engine.Sched) (a : engine.Action) (s1 : engine.Sched)
    (hs : engine.SequentialInv runs s)
    (h : engine.step typeRegistry modules i s a = some s1) : engine.SequentialInv runs s1 := by
  rcases s with ⟨pc, running, wg, handler, ended, trace⟩
  obtain ⟨hrun, hh, core, htr, hpc⟩ := hs
  simp only at hrun hh htr hpc
  subst hrun hh
  unfold engine.step at h
  cases ended with
  | true => simp at h
  | false =>
    simp only [Bool.false_eq_true, if_false, List.append_nil] at h htr
    subst htr
    cases a with
    | main =>
      cases pc with
      | start =>
        simp only [engine.mainStep, hseq, Bool.true_eq_false, if_false, Option.some.injEq] at h
        subst h
        simp only at hpc
        subst hpc
        exact ⟨rfl, rfl, [], by simp, [], runs, by simp, hmap.symm, rfl⟩
      | dispatch rest =>
        obtain ⟨doneRuns, restRuns, hruns, hrest, hcore⟩ := hpc
        cases restRuns with
        | nil =>
          simp only [List.map_nil] at hrest
          subst hrest
          simp only [engine.mainStep, hseq, Bool.true_eq_false, if_false,
            Option.some.injEq] at h
          subst h
          refine ⟨rfl, rfl, trace, by simp, ?_⟩
          simp only [List.append_nil] at hruns
          rw [hruns]; exact hcore
        | cons r rs =>
          simp only [List.map_cons] at hrest
          subst hrest
          have hx := hall r (by rw [hruns]; simp)
          simp only [engine.mainStep, hseq, Bool.true_eq_false, if_false, hx,
            Option.some.injEq] at h
          subst h
          refine ⟨rfl, rfl,
            trace ++ [engine.Event.callExecuteModule r.module, engine.Event.returned r],
            by simp, doneRuns ++ [r], rs, by simp [hruns], rfl, ?_⟩
          rw [engine.sequentialTrace_append, hcore, engine.sequentialTrace_cons]
          rfl
      | waiting => exact absurd hpc (by simp)
      | archiving =>
        simp only [engine.mainStep, Option.some.injEq] at h
        subst h
        simp only at hpc
        exact ⟨rfl, rfl, trace ++ [engine.Event.archive], by simp, by rw [hpc]⟩
      | done => simp [engine.mainStep] at h
    | task k => simp [engine.taskStep] at h
    | interrupt =>
      simp only [engine.interruptStep, Option.some.injEq] at h
      subst h
      exact ⟨rfl, rfl, trace, by simp, hpc⟩
    | handler => simp [engine.handlerStep] at h

theorem engine.runs_of_forall2 (typeRegistry : engine.TypeRegistry) (useWg : Bool)
    (i : orioninstance.Instance) (modules : List String) (runs : List engine.ModuleRun)
    (hmap : runs.map (fun r => r.module) = modules)
    (hall : List.Forall₂ (fun module run =>
      engine.executeModule typeRegistry module useWg i = some run) modules runs) :
    ∀ r ∈ runs, engine.executeModule typeRegistry r.module useWg i = some r := by
  induction hall with
  | nil => simp
  | cons h _ ih =>
    rename_i m r ms rs
    simp only [List.map_cons, List.cons.injEq] at hmap
    intro x hx
    rcases List.mem_cons.1 hx with hx | hx
    · subst hx; rw [hmap.1]; exact h
    · exact ih hmap.2 x hx

theorem engine.exec_append (typeRegistry : engine.TypeRegistry) (modules : List String)
    (i : orioninstance.Instance) (a b : List engine.Action) (s s1 s2 : engine.Sched)
    (h1 : engine.exec typeRegistry modules i s a = some s1)
    (h2 : engine.exec typeRegistry modules i s1 b = some s2) :
    engine.exec typeRegistry modules i s (a ++ b) = some s2 := by
  induction a generalizing s with
  | nil => simp only [engine.exec, Option.some.injEq] at h1; subst h1; simpa using h2
  | cons x a ih =>
    simp only [engine.exec, List.cons_append] at h1 ⊢
    cases hst : engine.step typeRegistry modules i s x with
    | none => simp [hst] at h1
    | some s3 =>
      simp only [hst] at h1 ⊢
      exact ih s3 h1

theorem engine.exec_sequential_loop (typeRegistry : engine.TypeRegistry)
    (modules : List String) (i : orioninstance.Instance) (hseq : i.NoMultithreading = true)
    (restRuns : List engine.ModuleRun)
    (hall : ∀ r ∈ restRuns, engine.executeModule typeRegistry r.module false i = some r)
    (running : List String) (wg : Int) (handler : engine.HandlerState)
    (trace : List engine.Event) :
    engine.exec typeRegistry modules i
        ⟨.dispatch (restRuns.map (fun r => r.module)), running, wg, handler, false, trace⟩
        (List.replicate (restRuns.length + 2) engine.Action.main) =
      some ⟨.done, running, wg, handler, false,
        trace ++ engine.sequentialTrace restRuns ++ [engine.Event.archive]⟩ := by
  induction restRuns generalizing trace with
  | nil =>
    simp [engine.exec, engine.step, engine.mainStep, hseq, engine.sequentialTrace]
  | cons r rs ih =>
    have hx := hall r (by simp)
    have := ih (fun x hx => hall x (List.mem_cons_of_mem _ hx))
      (trace ++ [engine.Event.callExecuteModule r.module, engine.Event.returned r])
    simp only [List.length_cons, List.replicate_succ, engine.exec, engine.step,
      Bool.false_eq_true, if_false, List.map_cons, engine.mainStep, hseq, Bool.true_eq_false,
      hx] at this ⊢
    rw [this, engine.sequentialTrace_cons]
    simp

theorem engine.called_sequentialTrace (runs : List engine.ModuleRun) :
    engine.called (engine.sequentialTrace runs ++ [engine.Event.archive]) =
      runs.map (fun r => r.module) := by
  induction runs with
  | nil => rfl
  | cons r rs ih =>
    rw [engine.sequentialTrace_cons]
    simp only [engine.called, List.cons_append, List.filterMap_cons, List.map_cons] at ih ⊢
    rw [ih]

theorem engine.count_archive_sequentialTrace (runs : List engine.ModuleRun) :
    (engine.sequentialTrace runs ++ [engine.Event.archive]).count engine.Event.archive = 1 := by
  induction runs with
  | nil => rfl
  | cons r rs ih =>
    rw [engine.sequentialTrace_cons]
    simpa [List.count_cons] using ih

theorem engine.exec_threaded_loop (typeRegistry : engine.TypeRegistry)
    (modules : List String) (i : orioninstance.Instance) (hmt : i.NoMultithreading = false)
    (rest : List String) (handler : engine.HandlerState) (trace : List engine.Event) :
    ∃ trace1, engine.exec typeRegistry modules i
        ⟨.dispatch rest, [], 0, handler, false, trace⟩
        (rest.flatMap fun _ => [engine.Action.main, engine.Action.task 0]) =
      some ⟨.dispatch [], [], 0, handler, false, trace1⟩ := by
  induction rest generalizing trace with
  | nil => exact ⟨trace, rfl⟩
  | cons m rest ih =>
    obtain ⟨run, hrun, _, _⟩ := engine.executeModule_isSome typeRegistry m true i
    obtain ⟨_, hwd⟩ := engine.executeModule_fields typeRegistry m true i run hrun
    obtain ⟨trace1, h1⟩ := ih (trace ++ [engine.Event.wgAdd, engine.Event.goExecuteModule m] ++
      [engine.Event.returned run])
    refine ⟨trace1, ?_⟩
    simp only [List.flatMap_cons, List.cons_append, List.nil_append, engine.exec, engine.step,
      Bool.false_eq_true, if_false, engine.mainStep, hmt, if_true, engine.taskStep,
      List.getElem?_cons_zero, hrun, hwd, List.eraseIdx_cons_zero]
    simpa only [zero_add, add_sub_cancel_right] using h1

/-- C12: without multithreading (`NoMultithreading()` true) the calls of
`executeModule` are those of `runModules` over the list: the run of main
steps alone ends after `archive` with the events call, return, call,
return, ... in list order followed by one `archive`, the modules called are
the list itself, and every run a scheduler can produce has a prefix of
these events (all of them once `executeModules` has returned), with the end
of the process added when an interrupt arrived. -/
theorem executeModules_sequential_in_list_order (typeRegistry : engine.TypeRegistry)
    (modules : List String) (i : orioninstance.Instance)
    (hseq : i.NoMultithreading = true) :
    ∃ runs, engine.runModules typeRegistry false i modules = some runs ∧
      runs.map (fun r => r.module) = modules ∧
      engine.called (engine.sequentialTrace runs ++ [engine.Event.archive]) = modules ∧
      (engine.sequentialTrace runs ++ [engine.Event.archive]).count engine.Event.archive = 1 ∧
      engine.exec typeRegistry modules i engine.Sched.initial
          (List.replicate (modules.length + 3) engine.Action.main) =
        some ⟨.done, [], 0, .absent, false,
          engine.sequentialTrace runs ++ [engine.Event.archive]⟩ ∧
      ∀ acts s, engine.exec typeRegistry modules i engine.Sched.initial acts = some s →
        ∃ core, s.trace = core ++ (if s.ended then [engine.Event.killed] else []) ∧
          core <+: engine.sequentialTrace runs ++ [engine.Event.archive] ∧
          (s.pc = .done → core = engine.sequentialTrace runs ++ [engine.Event.archive]) := by
  obtain ⟨runs, hruns, hmap, hall⟩ := engine.runModules_isSome typeRegistry false i modules
  have hall1 := engine.runs_of_forall2 typeRegistry false i modules runs hmap hall
  refine ⟨runs, hruns, hmap, ?_, engine.count_archive_sequentialTrace runs, ?_, ?_⟩
  · rw [engine.called_sequentialTrace, hmap]
  · have hloop := engine.exec_sequential_loop typeRegistry modules i hseq runs hall1 [] 0
      .absent []
    rw [hmap] at hloop
    have hlen : modules.length = runs.length := by rw [← hmap, List.length_map]
    have hstart : engine.step typeRegistry modules i engine.Sched.initial engine.Action.main =
        some ⟨.dispatch modules, [], 0, .absent, false, []⟩ := by
      simp [engine.step, engine.Sched.initial, engine.mainStep, hseq]
    rw [hlen, List.replicate_succ]
    simp only [engine.exec, hstart]
    simpa using hloop
  · intro acts s hex
    have hinv := engine.exec_invariant typeRegistry modules i (engine.SequentialInv runs)
      (engine.SequentialInv_step typeRegistry modules i hseq runs hmap hall1)
      acts engine.Sched.initial s ⟨rfl, rfl, [], rfl, rfl⟩ hex
    obtain ⟨_, _, core, htr, hpc⟩ := hinv
    refine ⟨core, htr, ?_, ?_⟩
    · cases hp : s.pc with
      | start => simp only [hp] at hpc; subst hpc; exact List.nil_prefix
      | dispatch rest =>
        simp only [hp] at hpc
        obtain ⟨d, r, h1, _, h3⟩ := hpc
        rw [h1, h3, engine.sequentialTrace_append, List.append_assoc]
        exact List.prefix_append _ _
      | waiting => simp only [hp] at hpc
      | archiving => simp only [hp] at hpc; rw [hpc]; exact List.prefix_append _ _
      | done => simp only [hp] at hpc; rw [hpc]
    · intro hp
      simpa only [hp] using hpc

/-- Witness of C12: the sequential run over "Good", "Bad" and the
unregistered "Missing". -/
theorem executeModules_sequential_in_list_order_witness :
    Example.windowsInstance.NoMultithreading = true ∧
    ∃ runs, engine.runModules Example.registry false Example.windowsInstance
        ["Good", "Bad", "Missing"] = some runs ∧
      runs.map (fun r => r.module) = ["Good", "Bad", "Missing"] ∧
      engine.called (engine.sequentialTrace runs ++ [engine.Event.archive]) =
        ["Good", "Bad", "Missing"] ∧
      (engine.sequentialTrace runs ++ [engine.Event.archive]).count engine.Event.archive = 1 ∧
      engine.exec Example.registry ["Good", "Bad", "Missing"] Example.windowsInstance
          engine.Sched.initial
          (List.replicate (["Good", "Bad", "Missing"].length + 3) engine.Action.main) =
        some ⟨.done, [], 0, .absent, false,
          engine.sequentialTrace runs ++ [engine.Event.archive]⟩ ∧
      ∀ acts s, engine.exec Example.registry ["Good", "Bad", "Missing"]
          Example.windowsInstance engine.Sched.initial acts = some s →
        ∃ core, s.trace = core ++ (if s.ended then [engine.Event.killed] else []) ∧
          core <+: engine.sequentialTrace runs ++ [engine.Event.archive] ∧
          (s.pc = .done → core = engine.sequentialTrace runs ++ [engine.Event.archive]) :=
  ⟨by decide, executeModules_sequential_in_list_order Example.registry
    ["Good", "Bad", "Missing"] Example.windowsInstance (by decide)⟩

/-- C13: with multithreading (`NoMultithreading()` false) a call of
`executeModule` with the wait group always returns and runs `wg.Done()`,
whatever path it takes; in every state a scheduler can reach the goroutines
started are the first modules of the list in order, one `wg.Add(1)` each,
the counter of the wait group is the number of goroutines that have not
returned, each started goroutine has returned or is running, and `archive`
is called at most once; once `archive` has been called a goroutine was
started for every module, none is running, and all of them returned before
the call. Such a run exists for every list. -/
theorem executeModules_archives_after_all_tasks (typeRegistry : engine.TypeRegistry)
    (modules : List String) (i : orioninstance.Instance)
    (hmt : i.NoMultithreading = false) :
    (∀ module, ∃ run, engine.executeModule typeRegistry module true i = some run ∧
      run.wgDone = true) ∧
    (∀ acts s, engine.exec typeRegistry modules i engine.Sched.initial acts = some s →
      engine.spawned s.trace <+: modules ∧
      s.trace.count engine.Event.wgAdd = (engine.spawned s.trace).length ∧
      s.wg = s.running.length ∧
      ((engine.returnedRuns s.trace).map (fun r => r.module) ++ s.running).Perm
        (engine.spawned s.trace) ∧
      (∀ r ∈ engine.returnedRuns s.trace, r.wgDone = true) ∧
      s.trace.count engine.Event.archive ≤ 1 ∧
      (engine.Event.archive ∈ s.trace →
        engine.spawned s.trace = modules ∧ s.running = [] ∧ s.wg = 0 ∧
        ((engine.returnedRuns (engine.beforeArchive s.trace)).map
          (fun r => r.module)).Perm modules)) ∧
    (∃ acts s, engine.exec typeRegistry modules i engine.Sched.initial acts = some s ∧
      s.pc = .done ∧ s.ended = false ∧ engine.Event.archive ∈ s.trace) := by
  refine ⟨?_, ?_, ?_⟩
  · intro module
    obtain ⟨run, hrun, _, _⟩ := engine.executeModule_isSome typeRegistry module true i
    exact ⟨run, hrun, (engine.executeModule_fields typeRegistry module true i run hrun).2⟩
  · intro acts s hex
    have hinv := engine.exec_invariant typeRegistry modules i (engine.ThreadedInv modules)
      (engine.ThreadedInv_step typeRegistry modules i hmt)
      acts engine.Sched.initial s
      ⟨rfl, List.Perm.refl _, by simp [engine.Sched.initial, engine.returnedRuns_nil], rfl,
        rfl, by simp [engine.Sched.initial]⟩ hex
    obtain ⟨hwg, hperm, hdone, hadd, hpc⟩ := hinv
    have hno : ∀ {t : List engine.Event}, engine.Event.archive ∉ t →
        t.count engine.Event.archive ≤ 1 := fun h => by
      rw [List.count_eq_zero_of_not_mem h]; exact Nat.zero_le _
    cases hp : s.pc with
    | start =>
      simp only [hp] at hpc
      exact ⟨by rw [hpc.1]; exact List.nil_prefix, hadd, hwg, hperm, hdone, hno hpc.2,
        fun h => absurd h hpc.2⟩
    | dispatch rest =>
      simp only [hp] at hpc
      exact ⟨⟨rest, hpc.1⟩, hadd, hwg, hperm, hdone, hno hpc.2, fun h => absurd h hpc.2⟩
    | waiting =>
      simp only [hp] at hpc
      exact ⟨by rw [hpc.1], hadd, hwg, hperm, hdone, hno hpc.2, fun h => absurd h hpc.2⟩
    | archiving =>
      simp only [hp] at hpc
      exact ⟨by rw [hpc.1], hadd, hwg, hperm, hdone, hno hpc.2.2,
        fun h => absurd h hpc.2.2⟩
    | done =>
      simp only [hp] at hpc
      obtain ⟨h1, h2, h3, h4⟩ := hpc
      refine ⟨by rw [h1], hadd, hwg, hperm, hdone, by rw [h3], fun _ => ⟨h1, h2, ?_, h4⟩⟩
      rw [hwg, h2]; rfl
  · obtain ⟨trace1, hloop⟩ := engine.exec_threaded_loop typeRegistry modules i hmt modules
      .started [engine.Event.signalNotify]
    refine ⟨[engine.Action.main] ++
        (modules.flatMap fun _ => [engine.Action.main, engine.Action.task 0]) ++
        [engine.Action.main, engine.Action.main, engine.Action.main],
      ⟨.done, [], 0, .started, false, trace1 ++ [engine.Event.wgWait] ++ [engine.Event.archive]⟩,
      ?_, rfl, rfl, by simp⟩
    refine engine.exec_append typeRegistry modules i _ _ _ _ _
      (engine.exec_append typeRegistry modules i _ _ _ _ _ ?_ hloop) ?_
    · simp [engine.exec, engine.step, engine.Sched.initial, engine.mainStep, hmt]
    · simp [engine.exec, engine.step, engine.mainStep, hmt]

/-- Witness of C13: in the run of `Example.threadedSchedule` over "Good" and
"Bad", where "Bad" returns first, `archive` is called with both goroutines
started and returned and the counter at zero. -/
theorem executeModules_archives_after_all_tasks_witness :
    Example.threadedInstance.NoMultithreading = false ∧
    engine.exec Example.registry ["Good", "Bad"] Example.threadedInstance engine.Sched.initial
      Example.threadedSchedule = some Example.threadedRun ∧
    engine.Event.archive ∈ Example.threadedRun.trace ∧
    (engine.returnedRuns Example.threadedRun.trace).map (fun r => r.module) = ["Bad", "Good"] ∧
    (engine.spawned Example.threadedRun.trace = ["Good", "Bad"] ∧
      Example.threadedRun.running = [] ∧ Example.threadedRun.wg = 0 ∧
      ((engine.returnedRuns (engine.beforeArchive Example.threadedRun.trace)).map
        (fun r => r.module)).Perm ["Good", "Bad"]) :=
  ⟨by decide, by decide, by decide, by decide,
    ((executeModules_archives_after_all_tasks Example.registry ["Good", "Bad"]
      Example.threadedInstance (by decide)).2.1 Example.threadedSchedule Example.threadedRun
      (by decide)).2.2.2.2.2.2 (by decide)⟩

/-- C21: for a mac or windows `Config`, `IsVerbose()` returns the `ForensicMode`
field of the variant with a nil error, whatever its `Verbose` field is: a mac
configuration with `Verbose` true and `ForensicMode` false is reported not
verbose, a windows configuration with `Verbose` false and `ForensicMode` true
is reported verbose. -/
theorem IsVerbose_returns_forensic_mode (conf : configs.Config) :
    (conf.GetConfigType = "mac" → conf.IsVerbose = (conf.macconfig.ForensicMode, none)) ∧
    (conf.GetConfigType = "windows" →
      conf.IsVerbose = (conf.windowsconfig.ForensicMode, none)) ∧
    (Example.verboseConfig.GetConfigType = "mac" ∧
      Example.verboseConfig.macconfig.Verbose = true ∧
      Example.verboseConfig.IsVerbose = (false, none)) ∧
    (Example.quietForensicConfig.GetConfigType = "windows" ∧
      Example.quietForensicConfig.windowsconfig.Verbose = false ∧
      Example.quietForensicConfig.IsVerbose = (true, none)) := by
  have hmw : ("mac" : String) ≠ "windows" := by decide
  refine ⟨?_, ?_, by decide, by decide⟩
  · intro h
    simp [configs.Config.IsVerbose, h]
  · intro h
    simp [configs.Config.IsVerbose, h, hmw.symm]

/-- C30: `parseMacConfig` and `parseWindowsConfig` copy every decoded field
except `DirlistRootWalkDir`, which keeps the value it had in the `Config`
handed in; after `Parse` that value is the empty string, so that
`GetDirlistRootWalkDir` returns "" whatever the file says, while
`IsForensicMode` returns the decoded value. The file of `Example.toml` sets
the root of the walk to "/Volumes/evidence" (mac) and "E:" (windows). -/
theorem parse_drops_dirlist_root_walk_dir (toml : configs.Toml) :
    (∀ conf tomlConf, toml.DecodeMac conf.configpath = (tomlConf, none) →
      (configs.parseMacConfig toml conf).2 = none ∧
      (configs.parseMacConfig toml conf).1.macconfig =
        { tomlConf with DirlistRootWalkDir := conf.macconfig.DirlistRootWalkDir }) ∧
    (∀ conf tomlConf, toml.DecodeWindows conf.configpath = (tomlConf, none) →
      (configs.parseWindowsConfig toml conf).2 = none ∧
      (configs.parseWindowsConfig toml conf).1.windowsconfig =
        { tomlConf with DirlistRootWalkDir := conf.windowsconfig.DirlistRootWalkDir }) ∧
    (∀ configpath tomlConf, configpath ≠ "" → toml.DecodeMac configpath = (tomlConf, none) →
      (configs.Parse toml configpath "mac").2 = none ∧
      (configs.Parse toml configpath "mac").1.GetDirlistRootWalkDir = ("", none) ∧
      (configs.Parse toml configpath "mac").1.IsForensicMode = (tomlConf.ForensicMode, none)) ∧
    (∀ configpath tomlConf, configpath ≠ "" →
      toml.DecodeWindows configpath = (tomlConf, none) →
      (configs.Parse toml configpath "windows").2 = none ∧
      (configs.Parse toml configpath "windows").1.GetDirlistRootWalkDir = ("", none) ∧
      (configs.Parse toml configpath "windows").1.IsForensicMode =
        (tomlConf.ForensicMode, none)) ∧
    ((Example.toml.DecodeMac "orion.toml").1.DirlistRootWalkDir = "/Volumes/evidence" ∧
      (configs.Parse Example.toml "orion.toml" "mac").1.GetDirlistRootWalkDir = ("", none)) ∧
    ((Example.toml.DecodeWindows "orion.toml").1.DirlistRootWalkDir = "E:" ∧
      (configs.Parse Example.toml "orion.toml" "windows").1.GetDirlistRootWalkDir =
        ("", none)) := by
  have hmw : ("windows" : String) ≠ "mac" := by decide
  refine ⟨?_, ?_, ?_, ?_, by decide, by decide⟩
  · intro conf tomlConf h
    simp [configs.parseMacConfig, h]
  · intro conf tomlConf h
    simp [configs.parseWindowsConfig, h]
  · intro configpath tomlConf hne h
    simp [configs.Parse, configs.initConfig, hne, configs.Config.GetConfigType,
      configs.parseMacConfig, h, configs.Config.zero, configs.MacConfig.zero,
      configs.Config.GetDirlistRootWalkDir, configs.Config.IsForensicMode]
  · intro configpath tomlConf hne h
    simp [configs.Parse, configs.initConfig, hne, hmw, configs.Config.GetConfigType,
      configs.parseWindowsConfig, h, configs.Config.zero, configs.WindowsConfig.zero,
      configs.Config.GetDirlistRootWalkDir, configs.Config.IsForensicMode]

/-! ## Helpers of `util/parse.go` -/

theorem strings.containsChars_iff_infix (sub s : List Char) :
    strings.containsChars sub s = true ↔ sub <:+: s := by
  induction s with
  | nil =>
    simp only [strings.containsChars, List.isEmpty_iff, List.infix_nil]
  | cons c cs ih =>
    simp only [strings.containsChars, Bool.or_eq_true, List.isPrefixOf_iff_prefix, ih,
      List.infix_cons_iff]

theorem strings.Contains_iff_infix (s substr : String) :
    strings.Contains s substr = true ↔ substr.data <:+: s.data :=
  strings.containsChars_iff_infix substr.data s.data

theorem strings.Contains_self (s : String) : strings.Contains s s = true :=
  (strings.Contains_iff_infix s s).2 (List.infix_refl _)

/-- C23: `SliceContainsString(slice, str)` is true whenever the slice contains
`str`, and also whenever some element of the slice merely has `str` inside
it: it is true if and only if some element contains `str` as a substring.
So the list `notUsers` of the users module, which holds "mail" and "spool",
is reported to contain "al" and "poo", which are not elements of it;
"admin" is found in a slice that holds only "administrator", and the empty
string in every slice that is not empty. -/
theorem SliceContainsString_is_substring_match (slice : List String) (str : String) :
    (util.SliceContainsString slice str = true ↔
      ∃ item ∈ slice, strings.Contains item str = true) ∧
    (util.SliceContainsString slice str = true ↔
      ∃ item ∈ slice, ∃ a b : List Char, item.data = a ++ str.data ++ b) ∧
    (str ∈ slice → util.SliceContainsString slice str = true) ∧
    (util.SliceContainsString Example.notUsers "al" = true ∧ "al" ∉ Example.notUsers) ∧
    (util.SliceContainsString Example.notUsers "poo" = true ∧ "poo" ∉ Example.notUsers) ∧
    (util.SliceContainsString ["administrator"] "admin" = true ∧
      "admin" ∉ ["administrator"]) ∧
    (slice ≠ [] → util.SliceContainsString slice "" = true) := by
  have h1 : ∀ (slice : List String) (str : String),
      util.SliceContainsString slice str = true ↔
      ∃ item ∈ slice, strings.Contains item str = true := by
    intro slice str
    induction slice with
    | nil => simp [util.SliceContainsString]
    | cons item rest ih =>
      simp only [util.SliceContainsString, List.mem_cons, exists_eq_or_imp]
      by_cases he : str = item
      · subst he
        simp [strings.Contains_self]
      · by_cases hc : strings.Contains item str = true
        · simp [he, hc]
        · simp [he, hc, ih]
  refine ⟨h1 slice str, ?_, ?_, by decide, by decide, by decide, ?_⟩
  · rw [h1]
    constructor
    · rintro ⟨item, hm, hc⟩
      obtain ⟨a, b, hab⟩ := (strings.Contains_iff_infix item str).1 hc
      exact ⟨item, hm, a, b, hab.symm⟩
    · rintro ⟨item, hm, a, b, hab⟩
      exact ⟨item, hm, (strings.Contains_iff_infix item str).2 ⟨a, b, hab.symm⟩⟩
  · intro hm
    exact (h1 slice str).2 ⟨str, hm, strings.Contains_self str⟩
  · intro hne
    cases slice with
    | nil => exact absurd rfl hne
    | cons item rest =>
      refine (h1 (item :: rest) "").2 ⟨item, by simp, ?_⟩
      exact (strings.Contains_iff_infix item "").2 ⟨[], item.data, by simp⟩

/-- C24: `EntryFromMap(m, h)` returns an error exactly when `h` is empty, `m`
is empty or `len(m)` differs from `len(h)`, and the entry is then empty;
otherwise the error is nil and the entry has the length of `h`, its `i`-th
element being `m[h[i]]`. -/
theorem EntryFromMap_follows_headers (m : util.StringMap) (headers : List String) :
    ((util.EntryFromMap m headers).2 ≠ none ↔
      headers.length = 0 ∨ m.len = 0 ∨ m.len ≠ headers.length) ∧
    ((util.EntryFromMap m headers).2 ≠ none → (util.EntryFromMap m headers).1 = []) ∧
    ((util.EntryFromMap m headers).2 = none →
      (util.EntryFromMap m headers).1.length = headers.length ∧
      (util.EntryFromMap m headers).1 = headers.map (fun h => m.get h) ∧
      ∀ i (hi : i < headers.length),
        (util.EntryFromMap m headers).1[i]? = some (m.get (headers.get ⟨i, hi⟩))) := by
  unfold util.EntryFromMap
  by_cases h1 : headers.length = 0
  · simp [h1]
  · by_cases h2 : m.len = 0
    · simp [h1, h2]
    · by_cases h3 : m.len ≠ headers.length
      · simp [h1, h2, h3]
      · have h3a : m.len = headers.length := not_not.1 h3
        simp only [h1, h2, h3, if_false, ne_eq, not_true_eq_false, false_or, false_iff,
          not_false_eq_true, false_implies, true_implies, List.length_map, true_and, or_self]
        intro i hi
        simp [List.getElem?_eq_getElem, hi]

/-- Witness of the evaluation of C24 on `Example.valmap`: the entry follows
the order of the header, not that of the map; a header that names a key
missing from the map gives the empty string; a shorter header gives an error. -/
theorem EntryFromMap_follows_headers_witness :
    util.EntryFromMap Example.valmap ["uid", "user", "shell"] =
      (["501", "alice", "/bin/zsh"], none) ∧
    util.EntryFromMap Example.valmap ["uid", "user", "home"] = (["501", "alice", ""], none) ∧
    (util.EntryFromMap Example.valmap ["uid", "user"]).2 ≠ none ∧
    (util.EntryFromMap Example.valmap ["uid", "user"]).1 = [] :=
  ⟨by decide, by decide,
    (EntryFromMap_follows_headers Example.valmap ["uid", "user"]).1.2 (by decide),
    (EntryFromMap_follows_headers Example.valmap ["uid", "user"]).2.1
      ((EntryFromMap_follows_headers Example.valmap ["uid", "user"]).1.2 (by decide))⟩

/-! ## Addresses of the netstat module -/

theorem strings.splitChars_length_one_iff (sep : Char) (cs : List Char) :
    (strings.splitChars sep cs).length = 1 ↔ sep ∉ cs := by
  induction cs with
  | nil => simp [strings.splitChars]
  | cons c cs ih =>
    have hpos := strings.splitChars_length_pos sep cs
    rw [strings.splitChars_cons_length]
    by_cases h : c = sep
    · subst h
      simp only [if_true, List.mem_cons, true_or, not_true_eq_false, iff_false]
      omega
    · have h' : ¬ sep = c := fun e => h e.symm
      simp [h, h', ih]

/-- C28: `splitIPandPort` returns the two pieces of an address with exactly
one "."; for an address with more, the IP is built from all pieces but the
last two, so that "0.0.0.0.80" gives the IP "0.0.0"; and for every string
without "." the slice expression `temp[0:len(temp)-2]` panics. -/
theorem splitIPandPort_drops_last_octet :
    maclivenetstat.splitIPandPort "*.80" = some ("*", "80") ∧
    maclivenetstat.splitIPandPort "*.*" = some ("*", "*") ∧
    maclivenetstat.splitIPandPort "0.0.0.0.80" = some ("0.0.0", "80") ∧
    maclivenetstat.splitIPandPort "192.168.1.20.443" = some ("192.168.1", "443") ∧
    maclivenetstat.splitIPandPort "localhost" = none ∧
    maclivenetstat.splitIPandPort "" = none ∧
    (∀ str : String, maclivenetstat.splitIPandPort str = none ↔ '.' ∉ str.data) ∧
    (∀ str : String, 2 < (strings.Split str '.').length →
      maclivenetstat.splitIPandPort str =
        some (strings.Join ((strings.Split str '.').take ((strings.Split str '.').length - 2))
          ".", (strings.Split str '.').getD ((strings.Split str '.').length - 1) "")) := by
  refine ⟨by decide, by decide, by decide, by decide, by decide, by decide, ?_, ?_⟩
  · intro str
    have hpos := strings.splitChars_length_pos '.' str.data
    have hone := strings.splitChars_length_one_iff '.' str.data
    have hlen : (strings.Split str '.').length = (strings.splitChars '.' str.data).length := by
      simp [strings.Split]
    unfold maclivenetstat.splitIPandPort
    simp only [hlen]
    by_cases h2 : (strings.splitChars '.' str.data).length = 2
    · have : ¬ (strings.splitChars '.' str.data).length = 1 := by omega
      simp [h2, ← hone, this]
    · by_cases h1 : (strings.splitChars '.' str.data).length = 1
      · simp [h1, ← hone]
      · have h0 : ¬ (strings.splitChars '.' str.data).length = 0 := by omega
        have hlt : ¬ (strings.splitChars '.' str.data).length < 2 := by omega
        simp [h0, h1, h2, hlt, ← hone]
  · intro str h
    unfold maclivenetstat.splitIPandPort
    have h0 : ¬ (strings.Split str '.').length = 0 := by omega
    have h2 : ¬ (strings.Split str '.').length = 2 := by omega
    have hlt : ¬ (strings.Split str '.').length < 2 := by omega
    simp only [h0, h2, hlt, if_false]

/-! ## The roots of the windows walk -/

theorem windowsdirlist.removeLoop_of_not_mem (i : Nat) (r : String) (excluded : List String)
    (s : List String × Nat) (h : r ∉ excluded) :
    windowsdirlist.removeLoop i r excluded s = some s := by
  induction excluded with
  | nil => rfl
  | cons d ds ih =>
    have hd : r ≠ d := fun e => h (by simp [e])
    have hds : r ∉ ds := fun e => h (List.mem_cons_of_mem _ e)
    simp [windowsdirlist.removeLoop, hd, ih hds]

theorem windowsdirlist.removeExcludedDrives_of_disjoint (drives excluded : List String)
    (h : ∀ d ∈ drives, d ∉ excluded) :
    windowsdirlist.removeExcludedDrives drives excluded = some drives := by
  have key : ∀ (l : List Nat), (∀ i ∈ l, i < drives.length) →
      l.foldlM (fun (s : List String × Nat) i =>
        windowsdirlist.removeLoop i (s.1.getD i "") excluded s) (drives, drives.length) =
        some (drives, drives.length) := by
    intro l
    induction l with
    | nil => intro _; rfl
    | cons i l ih =>
      intro hl
      have hi : i < drives.length := hl i (by simp)
      have hmem : drives.getD i "" ∈ drives := by
        rw [List.getD_eq_getElem _ _ hi]
        exact List.getElem_mem hi
      rw [List.foldlM_cons, windowsdirlist.removeLoop_of_not_mem i _ excluded _ (h _ hmem)]
      exact ih (fun j hj => hl j (List.mem_cons_of_mem _ hj))
  unfold windowsdirlist.removeExcludedDrives
  rw [key (List.range drives.length) (fun i hi => List.mem_range.1 hi)]
  simp

/-- C27: the drive-removal loop of `dirlist` leaves the roots unchanged when
no discovered drive is excluded, and removes a single excluded drive; but
with the drives "C:" and "D:" both excluded, "D:" survives; with "C:" listed
twice among the excluded, "D:" is dropped although it is not excluded; and
with "C:" and the empty string excluded, the loop indexes the shortened
list out of range. -/
theorem removeExcludedDrives_keeps_excluded_drive :
    (∀ drives excluded : List String, (∀ d ∈ drives, d ∉ excluded) →
      windowsdirlist.removeExcludedDrives drives excluded = some drives) ∧
    windowsdirlist.removeExcludedDrives ["C:", "D:", "E:"] ["D:"] = some ["C:", "E:"] ∧
    windowsdirlist.removeExcludedDrives ["C:", "D:"] ["C:", "D:"] = some ["D:"] ∧
    windowsdirlist.removeExcludedDrives ["C:", "D:", "E:"] ["C:", "E:"] = some ["E:", "D:"] ∧
    windowsdirlist.removeExcludedDrives ["C:", "D:"] ["C:", "C:"] = some [] ∧
    windowsdirlist.removeExcludedDrives ["C:", "D:"] ["C:", ""] = none := by
  refine ⟨windowsdirlist.removeExcludedDrives_of_disjoint, by decide, by decide, by decide,
    by decide, by decide⟩

theorem windowsdirlist.drives_foldl (ds : List String) (acc : List String) (b k : Nat) :
    (ds.foldl
      (fun (acc : List String × Nat) d =>
        let drives := if acc.2 &&& 1 = 1 then acc.1 ++ [d] else acc.1
        (drives, acc.2 >>> 1))
      (acc, b >>> k)).1 =
      acc ++ ((ds.enumFrom k).filter (fun p => b.testBit p.1)).map Prod.snd := by
  induction ds generalizing acc k with
  | nil => simp
  | cons d ds ih =>
    have hbit : ((b >>> k) &&& 1 = 1) ↔ b.testBit k = true := by
      simp only [Nat.testBit, Nat.and_one_is_mod, Nat.one_and_eq_mod_two, bne_iff_ne, ne_eq]
      omega
    have hshift : (b >>> k) >>> 1 = b >>> (k + 1) := by
      rw [← Nat.shiftRight_add]
    simp only [List.foldl_cons, List.enumFrom_cons, hshift]
    by_cases hk : b.testBit k = true
    · rw [if_pos (hbit.2 hk), ih]
      simp [List.filter_cons, hk]
    · rw [if_neg (fun h => hk (hbit.1 h)), ih]
      simp [List.filter_cons, hk]

theorem windowsdirlist.driveName_data_lt :
    ∀ a < 26, ∀ b < 26, a < b →
      (windowsdirlist.availableDrives.getD a "" ++ ":").toList <
        (windowsdirlist.availableDrives.getD b "" ++ ":").toList := by
  decide

theorem windowsdirlist.driveName_lt (a b : Nat) (ha : a < 26) (hb : b < 26) (hab : a < b) :
    windowsdirlist.availableDrives.getD a "" ++ ":" <
      windowsdirlist.availableDrives.getD b "" ++ ":" :=
  String.lt_iff_toList_lt.2 (windowsdirlist.driveName_data_lt a ha b hb hab)

theorem windowsdirlist.availableDrives_enum :
    windowsdirlist.availableDrives.enumFrom 0 =
      (List.range 26).map (fun i => (i, windowsdirlist.availableDrives.getD i "")) := by
  decide

/-- C29: when the call of `GetLogicalDrives` succeeds with the word `ret`,
`windowsWalkRootDir` returns, with a nil error, the names of the drives
whose bit is set among the bits 0 to 25 of `ret`, in the order of the
alphabet: for each `i` below 26 with bit `i` set, and for no other, the
`i`-th letter of "A" to "Z" followed by ":"; the list is strictly
ascending, hence without duplicates, and bits 26 and above play no part. -/
theorem windowsWalkRootDir_lists_set_bits (sys : os.System) (root : String) (ret : Nat)
    (h : sys.GetLogicalDrives = (ret, 0)) :
    windowsdirlist.windowsWalkRootDir sys root =
      (((List.range 26).filter (fun i => ret.testBit i)).map
        (fun i => windowsdirlist.availableDrives.getD i "" ++ ":"), none) ∧
    (∀ i < 26, windowsdirlist.availableDrives.getD i "" = String.singleton (Char.ofNat (65 + i))) ∧
    (∀ i, i < 26 → (windowsdirlist.availableDrives.getD i "" ++ ":" ∈
        (windowsdirlist.windowsWalkRootDir sys root).1 ↔ ret.testBit i = true)) ∧
    (windowsdirlist.windowsWalkRootDir sys root).1.Pairwise (fun a b => a < b) ∧
    (windowsdirlist.windowsWalkRootDir sys root).1.Nodup := by
  have hfold := windowsdirlist.drives_foldl windowsdirlist.availableDrives [] (ret % 2 ^ 32) 0
  rw [Nat.shiftRight_zero, windowsdirlist.availableDrives_enum] at hfold
  have hfilter : (List.range 26).filter (fun i => (ret % 2 ^ 32).testBit i) =
      (List.range 26).filter (fun i => ret.testBit i) := by
    apply List.filter_congr
    intro i hi
    have hi' : i < 32 := by have := List.mem_range.1 hi; omega
    rw [Nat.testBit_mod_two_pow]
    simp [hi']
  have hres : windowsdirlist.windowsWalkRootDir sys root =
      (((List.range 26).filter (fun i => ret.testBit i)).map
        (fun i => windowsdirlist.availableDrives.getD i "" ++ ":"), none) := by
    unfold windowsdirlist.windowsWalkRootDir
    simp only [h, ne_eq, not_true_eq_false, if_false]
    rw [hfold, ← hfilter]
    simp [List.filter_map, List.map_map, Function.comp_def]
  have hpair : (((List.range 26).filter (fun i => ret.testBit i)).map
      (fun i => windowsdirlist.availableDrives.getD i "" ++ ":")).Pairwise
      (fun a b => a < b) := by
    rw [List.pairwise_map]
    have hr : ((List.range 26).filter (fun i => ret.testBit i)).Pairwise (fun a b => a < b) :=
      (List.pairwise_lt_range 26).sublist (List.filter_sublist _)
    refine hr.imp_of_mem ?_
    intro a b ha hb hab
    have ha' := List.mem_range.1 (List.mem_of_mem_filter ha)
    have hb' := List.mem_range.1 (List.mem_of_mem_filter hb)
    exact windowsdirlist.driveName_lt a b ha' hb' hab
  refine ⟨hres, by decide, ?_, ?_, ?_⟩
  · intro i hi
    rw [hres]
    simp only [List.mem_map, List.mem_filter, List.mem_range]
    constructor
    · rintro ⟨j, ⟨hj, hbit⟩, hname⟩
      have hij : j = i := by
        by_contra hne
        rcases Nat.lt_or_gt_of_ne hne with hlt | hgt
        · have := windowsdirlist.driveName_lt j i hj hi hlt
          rw [hname] at this
          exact absurd this (lt_irrefl _)
        · have := windowsdirlist.driveName_lt i j hi hj hgt
          rw [hname] at this
          exact absurd this (lt_irrefl _)
      rw [← hij]; exact hbit
    · intro hbit
      exact ⟨i, ⟨hi, hbit⟩, rfl⟩
  · rw [hres]; exact hpair
  · rw [hres]
    exact hpair.imp (fun hab => ne_of_lt hab)

/-- Witness of C29: the word 4 has bit 2 set and gives the one root "C:";
the word 2 ^ 26 + 9 has bits 0, 3 and 26 set and gives "A:" and "D:". -/
theorem windowsWalkRootDir_lists_set_bits_witness :
    Example.sys.GetLogicalDrives = (4, 0) ∧
    windowsdirlist.windowsWalkRootDir Example.sys "" = (["C:"], none) ∧
    windowsdirlist.windowsWalkRootDir { Example.sys with GetLogicalDrives := (2 ^ 26 + 9, 0) } ""
      = (["A:", "D:"], none) :=
  ⟨by decide,
    (windowsWalkRootDir_lists_set_bits Example.sys "" 4 (by decide)).1.trans (by decide),
    (windowsWalkRootDir_lists_set_bits { Example.sys with GetLogicalDrives := (2 ^ 26 + 9, 0) }
      "" (2 ^ 26 + 9) rfl).1.trans (by decide)⟩

/-! ## The user name of a path -/

theorem util.swap_fold_getElem? (n : Nat) (l : List Nat) (hnd : l.Nodup)
    (hl : ∀ i ∈ l, i < n / 2) (a : List String) (ha : a.length = n) :
    (l.foldl (fun a i => (a.set i (a.getD (n - 1 - i) "")).set (n - 1 - i) (a.getD i "")) a).length
        = n ∧
      ∀ j, j < n →
        (l.foldl (fun a i => (a.set i (a.getD (n - 1 - i) "")).set (n - 1 - i) (a.getD i ""))
          a)[j]? = if j ∈ l ∨ n - 1 - j ∈ l then a[n - 1 - j]? else a[j]? := by
  induction l generalizing a with
  | nil => exact ⟨ha, fun j _ => by simp⟩
  | cons i l ih =>
    have hi : i < n / 2 := hl i (by simp)
    have hnd' : l.Nodup := (List.nodup_cons.1 hnd).2
    have hil : i ∉ l := (List.nodup_cons.1 hnd).1
    have hl' : ∀ k ∈ l, k < n / 2 := fun k hk => hl k (List.mem_cons_of_mem _ hk)
    have hlen : ((a.set i (a.getD (n - 1 - i) "")).set (n - 1 - i) (a.getD i "")).length = n := by
      simp [ha]
    obtain ⟨h1, h2⟩ := ih hnd' hl' _ hlen
    refine ⟨by simpa [List.foldl_cons] using h1, ?_⟩
    intro j hj
    have hstep : ∀ x, x < n →
        ((a.set i (a.getD (n - 1 - i) "")).set (n - 1 - i) (a.getD i ""))[x]? =
          if x = n - 1 - i then a[i]? else if x = i then a[n - 1 - i]? else a[x]? := by
      intro x hx
      have hin : i < a.length := by omega
      have hoppn : n - 1 - i < a.length := by omega
      rw [List.getElem?_set, List.getElem?_set]
      by_cases hx1 : n - 1 - i = x
      · simp [hx1.symm, List.getD_eq_getElem?_getD, List.getElem?_eq_getElem hin, hoppn]
      · have hx1' : ¬ x = n - 1 - i := fun e => hx1 e.symm
        by_cases hx2 : i = x
        · subst hx2
          simp [hx1, hx1', List.getD_eq_getElem?_getD, List.getElem?_eq_getElem hoppn, hin]
        · have hx2' : ¬ x = i := fun e => hx2 e.symm
          simp [hx1, hx1', hx2, hx2']
    rw [List.foldl_cons, h2 j hj]
    by_cases hc : j ∈ l ∨ n - 1 - j ∈ l
    · have hc' : j ∈ i :: l ∨ n - 1 - j ∈ i :: l := by
        rcases hc with h | h
        · exact Or.inl (List.mem_cons_of_mem _ h)
        · exact Or.inr (List.mem_cons_of_mem _ h)
      rw [if_pos hc, if_pos hc', hstep (n - 1 - j) (by omega)]
      have hne1 : ¬ n - 1 - j = n - 1 - i := by
        rcases hc with h | h
        · have := hl' j h
          intro e
          have : j = i := by omega
          exact hil (this ▸ h)
        · have := hl' _ h
          omega
      have hne2 : ¬ n - 1 - j = i := by
        rcases hc with h | h
        · have := hl' j h
          omega
        · intro e
          exact hil (e ▸ h)
      rw [if_neg hne1, if_neg hne2]
    · rw [if_neg hc, hstep j hj]
      have hjl : j ∉ l := fun h => hc (Or.inl h)
      have hjl' : n - 1 - j ∉ l := fun h => hc (Or.inr h)
      by_cases h1 : j = n - 1 - i
      · have hnji : n - 1 - j = i := by omega
        rw [if_pos h1, if_pos (Or.inr (by simp [hnji])), hnji]
      · rw [if_neg h1]
        by_cases h2 : j = i
        · rw [if_pos h2, if_pos (Or.inl (by simp [h2])), h2]
        · rw [if_neg h2]
          have hnji : ¬ n - 1 - j = i := by omega
          have : ¬ (j ∈ i :: l ∨ n - 1 - j ∈ i :: l) := by
            simp [h2, hnji, hjl, hjl']
          rw [if_neg this]

theorem util.reverseStringSlice_eq_reverse (s : List String) :
    util.reverseStringSlice s = s.reverse := by
  have key := util.swap_fold_getElem? s.length (List.range (s.length / 2)).reverse
    (List.nodup_reverse.2 (List.nodup_range _))
    (fun i hi => List.mem_range.1 (List.mem_reverse.1 hi)) s rfl
  obtain ⟨hlen, hget⟩ := key
  apply List.ext_getElem?
  intro j
  by_cases hj : j < s.length
  · have := hget j hj
    unfold util.reverseStringSlice
    rw [this, List.getElem?_reverse hj]
    simp only [List.mem_reverse, List.mem_range]
    by_cases hc : j < s.length / 2 ∨ s.length - 1 - j < s.length / 2
    · rw [if_pos hc]
    · rw [if_neg hc]
      have : s.length - 1 - j = j := by omega
      rw [this]
  · have h1 : (util.reverseStringSlice s).length ≤ j := by
      unfold util.reverseStringSlice
      rw [hlen]; omega
    have h2 : s.reverse.length ≤ j := by simp; omega
    rw [List.getElem?_eq_none h1, List.getElem?_eq_none h2]

theorem util.indexInStringSliceFrom_of_not_mem (substr : String) (l : List String) (k : Nat)
    (h : substr ∉ l) : util.indexInStringSliceFrom substr l k = -1 := by
  induction l generalizing k with
  | nil => rfl
  | cons x l ih =>
    have hx : ¬ x = substr := fun e => h (by simp [e])
    have hl : substr ∉ l := fun e => h (List.mem_cons_of_mem _ e)
    simp [util.indexInStringSliceFrom, hx, ih (k + 1) hl]

theorem util.indexInStringSliceFrom_append (substr : String) (a b : List String) (k : Nat)
    (h : substr ∉ a) :
    util.indexInStringSliceFrom substr (a ++ substr :: b) k = ((k + a.length : Nat) : Int) := by
  induction a generalizing k with
  | nil => simp [util.indexInStringSliceFrom]
  | cons x a ih =>
    have hx : ¬ x = substr := fun e => h (by simp [e])
    have ha : substr ∉ a := fun e => h (List.mem_cons_of_mem _ e)
    rw [List.cons_append, util.indexInStringSliceFrom, if_neg hx, ih (k + 1) ha]
    simp only [List.length_cons]
    push_cast
    omega

/-- The element `userpath[userindex]` of `GetUsernameFromPath` when the key
("Users" or "var") is a segment: the segment after its last occurrence,
and a panic when that occurrence is the last segment. -/
theorem util.segment_after_last (key : String) (segs pre post : List String)
    (h : segs = pre ++ key :: post) (hp : key ∉ post) :
    (if (segs.length : Int) - 1 - util.indexInStringSlice (util.reverseStringSlice segs) key + 1
        < 0 then none
      else segs[((segs.length : Int) - 1 -
        util.indexInStringSlice (util.reverseStringSlice segs) key + 1).toNat]?) = post.head? := by
  have hidx : util.indexInStringSlice (util.reverseStringSlice segs) key =
      ((post.length : Nat) : Int) := by
    rw [util.reverseStringSlice_eq_reverse, h]
    simp only [List.reverse_append, List.reverse_cons, List.append_assoc, List.singleton_append,
      util.indexInStringSlice]
    rw [util.indexInStringSliceFrom_append key post.reverse pre.reverse 0
      (fun e => hp (List.mem_reverse.1 e))]
    simp
  have hlen : (segs.length : Int) = pre.length + 1 + post.length := by
    rw [h]; simp; omega
  have hval : (segs.length : Int) - 1 - ((post.length : Nat) : Int) + 1 =
      ((pre.length + 1 : Nat) : Int) := by
    rw [hlen]; push_cast; omega
  rw [hidx, hval]
  have hnn : ¬ (((pre.length + 1 : Nat) : Int) < 0) := by omega
  have h' : segs = (pre ++ [key]) ++ post := by rw [h]; simp
  rw [if_neg hnn, Int.toNat_ofNat, h', List.getElem?_append_right (by simp)]
  simp [List.head?_eq_getElem?]

/-- The element `userpath[userindex]` of `GetUsernameFromPath` when no
segment is the key: the index is `len(userpath) + 1`, out of range. -/
theorem util.segment_without_key (key : String) (segs : List String) (h : key ∉ segs) :
    (if (segs.length : Int) - 1 - util.indexInStringSlice (util.reverseStringSlice segs) key + 1
        < 0 then none
      else segs[((segs.length : Int) - 1 -
        util.indexInStringSlice (util.reverseStringSlice segs) key + 1).toNat]?) = none := by
  have hidx : util.indexInStringSlice (util.reverseStringSlice segs) key = -1 := by
    rw [util.reverseStringSlice_eq_reverse]
    exact util.indexInStringSliceFrom_of_not_mem key _ 0 (fun e => h (List.mem_reverse.1 e))
  have hval : (segs.length : Int) - 1 - (-1) + 1 = ((segs.length + 1 : Nat) : Int) := by
    push_cast; omega
  rw [hidx, hval]
  have hnn : ¬ (((segs.length + 1 : Nat) : Int) < 0) := by omega
  rw [if_neg hnn, Int.toNat_ofNat]
  exact List.getElem?_eq_none (by omega)

/-- C26: `GetUsernameFromPath` returns "ERROR" only for a path that contains
neither "Users" nor "private/var". For a path that contains "Users" it
returns the segment after the last segment equal to "Users" when there is
one, and panics with an index out of range when that segment is the last
one ("/Users") or when no segment equals "Users" ("/MyUsers/x"); likewise
with "var" for the other paths that contain "private/var". -/
theorem GetUsernameFromPath_panics_without_following_segment :
    util.GetUsernameFromPath "/Users" = none ∧
    util.GetUsernameFromPath "/MyUsers/x" = none ∧
    util.GetUsernameFromPath "/private/var" = none ∧
    util.GetUsernameFromPath "/Users/alice/Library" = some "alice" ∧
    util.GetUsernameFromPath "/private/var/root/x" = some "root" ∧
    util.GetUsernameFromPath "/etc/passwd" = some "ERROR" ∧
    (∀ path pre post, strings.Contains path "Users" = true →
      strings.Split path '/' = pre ++ "Users" :: post → "Users" ∉ post →
      util.GetUsernameFromPath path = post.head?) ∧
    (∀ path, strings.Contains path "Users" = true → "Users" ∉ strings.Split path '/' →
      util.GetUsernameFromPath path = none) ∧
    (∀ path pre post, strings.Contains path "Users" = false →
      strings.Contains path "private/var" = true →
      strings.Split path '/' = pre ++ "var" :: post → "var" ∉ post →
      util.GetUsernameFromPath path = post.head?) ∧
    (∀ path, strings.Contains path "Users" = false →
      strings.Contains path "private/var" = true → "var" ∉ strings.Split path '/' →
      util.GetUsernameFromPath path = none) ∧
    (∀ path, strings.Contains path "Users" = false →
      strings.Contains path "private/var" = false →
      util.GetUsernameFromPath path = some "ERROR") := by
  refine ⟨by decide, by decide, by decide, by decide, by decide, by decide, ?_, ?_, ?_, ?_, ?_⟩
  · intro path pre post hc hs hp
    unfold util.GetUsernameFromPath
    simp only [hc, if_true]
    exact util.segment_after_last "Users" _ pre post hs hp
  · intro path hc hs
    unfold util.GetUsernameFromPath
    simp only [hc, if_true]
    exact util.segment_without_key "Users" _ hs
  · intro path pre post hu hc hs hp
    unfold util.GetUsernameFromPath
    simp only [hu, hc, if_true, Bool.false_eq_true, if_false]
    exact util.segment_after_last "var" _ pre post hs hp
  · intro path hu hc hs
    unfold util.GetUsernameFromPath
    simp only [hu, hc, if_true, Bool.false_eq_true, if_false]
    exact util.segment_without_key "var" _ hs
  · intro path hu hc
    unfold util.GetUsernameFromPath
    simp only [hu, hc, Bool.false_eq_true, if_false]

/-! ## `WriteOutput` -/

theorem datawriter.Write_kept (sink : datawriter.Sink) (cmw : datawriter.CSVOrionWriter)
    (row : List String) (e : String) (h : cmw.err = some e) :
    (cmw.Write sink row).2 = some e ∧ (cmw.Write sink row).1.err = some e ∧
      (cmw.Write sink row).1.records = cmw.records := by
  simp [datawriter.CSVOrionWriter.Write, h]

theorem datawriter.Write_result (sink : datawriter.Sink) (cmw : datawriter.CSVOrionWriter)
    (row : List String) :
    (∀ e, (cmw.Write sink row).2 = some e →
      (cmw.Write sink row).1.err = some e ∧ (cmw.Write sink row).1.records = cmw.records) ∧
    ((cmw.Write sink row).2 = none →
      (cmw.Write sink row).1.err = none ∧
      (cmw.Write sink row).1.records = cmw.records ++ [row]) := by
  unfold datawriter.CSVOrionWriter.Write
  cases he : cmw.err with
  | some e0 => simp [he]
  | none =>
    cases hf : sink.fail cmw.ops with
    | some e1 => simp [hf]
    | none => simp [hf, he]

theorem datawriter.flushBuffer_result (sink : datawriter.Sink)
    (cmw : datawriter.CSVOrionWriter) :
    (cmw.flushBuffer sink).1.records = cmw.records ∧
    (cmw.flushBuffer sink).1.closed = cmw.closed ∧
    (cmw.flushBuffer sink).1.err = (cmw.flushBuffer sink).2 ∧
    (∀ e, cmw.err = some e → (cmw.flushBuffer sink).2 = some e) ∧
    ((cmw.flushBuffer sink).2 = none → (cmw.flushBuffer sink).1.buffered = false) ∧
    (cmw.err = none → cmw.buffered = false → (cmw.flushBuffer sink).2 = none) := by
  unfold datawriter.CSVOrionWriter.flushBuffer
  cases he : cmw.err with
  | some e0 => simp
  | none =>
    by_cases hb : cmw.buffered = false
    · simp [hb, he]
    · cases hf : sink.fail cmw.ops with
      | some e1 => simp [hf, hb]
      | none => simp [hf, hb, he]

theorem datawriter.WriteAll_result (sink : datawriter.Sink) (rows : List (List String))
    (cmw : datawriter.CSVOrionWriter) :
    (cmw.WriteAll sink rows).1.err = (cmw.WriteAll sink rows).2 ∧
    (∀ e, cmw.err = some e → (cmw.WriteAll sink rows).2 = some e) ∧
    ((cmw.WriteAll sink rows).2 = none →
      (cmw.WriteAll sink rows).1.records = cmw.records ++ rows) ∧
    (∃ k, (cmw.WriteAll sink rows).1.records = cmw.records ++ rows.take k) ∧
    (cmw.err ≠ none → (cmw.WriteAll sink rows).1.records = cmw.records) := by
  induction rows generalizing cmw with
  | nil =>
    obtain ⟨h1, _, h3, h4, _, _⟩ := datawriter.flushBuffer_result sink cmw
    simp only [datawriter.CSVOrionWriter.WriteAll]
    exact ⟨h3, h4, fun _ => by simp [h1], ⟨0, by simp [h1]⟩, fun _ => h1⟩
  | cons row rows ih =>
    obtain ⟨hw1, hw2⟩ := datawriter.Write_result sink cmw row
    simp only [datawriter.CSVOrionWriter.WriteAll]
    rcases hW : cmw.Write sink row with ⟨cmw1, werr⟩
    rw [hW] at hw1 hw2
    simp only at hw1 hw2
    cases werr with
    | some e =>
      obtain ⟨h1, h2⟩ := hw1 e rfl
      simp only
      refine ⟨h1, ?_, by simp, ⟨0, by simp [h2]⟩, fun _ => h2⟩
      intro e0 he0
      have := (datawriter.Write_kept sink cmw row e0 he0).1
      rw [hW] at this
      exact this
    | none =>
      obtain ⟨h1, h2⟩ := hw2 rfl
      obtain ⟨i1, i2, i3, ⟨k, i4⟩, i5⟩ := ih cmw1
      simp only
      refine ⟨i1, ?_, ?_, ⟨k + 1, ?_⟩, ?_⟩
      · intro e0 he0
        have := (datawriter.Write_kept sink cmw row e0 he0).1
        rw [hW] at this
        cases this
      · intro hn
        rw [i3 hn, h2]; simp
      · rw [i4, h2]; simp
      · intro hne
        cases he : cmw.err with
        | none => exact absurd he hne
        | some e0 =>
          have := (datawriter.Write_kept sink cmw row e0 he).1
          rw [hW] at this
          cases this

theorem datawriter.Close_result (sink : datawriter.Sink) (cmw : datawriter.CSVOrionWriter) :
    (cmw.Close sink).1.records = cmw.records ∧
    (∀ e, cmw.err = some e → (cmw.Close sink).2 = some e) ∧
    ((cmw.Close sink).2 = none →
      cmw.err = none ∧ (cmw.Close sink).1.closed = true ∧ (cmw.Close sink).1.err = none ∧
      (cmw.Close sink).1.buffered = false ∧ sink.close = none) := by
  obtain ⟨h1, h2, h3, h4, h5, _⟩ := datawriter.flushBuffer_result sink cmw
  unfold datawriter.CSVOrionWriter.Close datawriter.CSVOrionWriter.Flush
  simp only [h3]
  cases hf : (cmw.flushBuffer sink).2 with
  | some e =>
    simp only
    refine ⟨h1, ?_, by simp⟩
    intro e0 he0
    rw [← hf, h4 e0 he0]
  | none =>
    simp only
    refine ⟨h1, ?_, ?_⟩
    · intro e0 he0
      rw [h4 e0 he0] at hf
      cases hf
    · intro hc
      refine ⟨?_, by simp, by simp [h3, hf], by simpa using h5 hf, hc⟩
      cases he : cmw.err with
      | none => rfl
      | some e0 =>
        rw [h4 e0 he] at hf
        cases hf

/-- C22: `WriteOutput` on a csv writer hands the header to the csv writer
before the rows and the rows in the given order, then flushes and closes the
file: the records accepted are the header followed by the first rows, all of
them when nil is returned, and the file is then closed. It returns the
result of `Close` alone, but the csv writer keeps its first error, so that
nil is returned only if the header write, the rows write and the close all
succeeded, and an error of the header write or of the rows write is the
error returned. `OrionWriter.WriteOutput` returns the same for a csv
writer. -/
theorem WriteOutput_nil_only_if_all_writes_succeeded (sink : datawriter.Sink)
    (cmw : datawriter.CSVOrionWriter) (header : List String) (values : List (List String)) :
    cmw.WriteOutput sink header values =
      ((((cmw.Write sink header).1.WriteAll sink values).1.Close sink).1,
       (((cmw.Write sink header).1.WriteAll sink values).1.Close sink).2) ∧
    ((cmw.WriteOutput sink header values).2 = none →
      (cmw.Write sink header).2 = none ∧
      ((cmw.Write sink header).1.WriteAll sink values).2 = none ∧
      sink.close = none ∧
      (cmw.WriteOutput sink header values).1.records = cmw.records ++ header :: values ∧
      (cmw.WriteOutput sink header values).1.closed = true) ∧
    (∀ e, (cmw.Write sink header).2 = some e →
      (cmw.WriteOutput sink header values).2 = some e) ∧
    (∀ e, ((cmw.Write sink header).1.WriteAll sink values).2 = some e →
      (cmw.WriteOutput sink header values).2 = some e) ∧
    (∃ k, (cmw.WriteOutput sink header values).1.records =
      cmw.records ++ (header :: values).take k) ∧
    (∀ mw : datawriter.OrionWriter, mw.csv = true →
      (mw.WriteOutput sink cmw header values).2 = (cmw.WriteOutput sink header values).2 ∧
      (mw.WriteOutput sink cmw header values).1.records =
        (cmw.WriteOutput sink header values).1.records) := by
  have hdef : cmw.WriteOutput sink header values =
      ((((cmw.Write sink header).1.WriteAll sink values).1.Close sink).1,
       (((cmw.Write sink header).1.WriteAll sink values).1.Close sink).2) := by
    unfold datawriter.CSVOrionWriter.WriteOutput
    simp only
    split <;> rename_i h <;> simp [h]
  obtain ⟨hw1, hw2⟩ := datawriter.Write_result sink cmw header
  obtain ⟨ha1, ha2, ha3, ⟨k, ha4⟩, ha5⟩ :=
    datawriter.WriteAll_result sink values (cmw.Write sink header).1
  obtain ⟨hc1, hc2, hc3⟩ :=
    datawriter.Close_result sink ((cmw.Write sink header).1.WriteAll sink values).1
  have hA : ∀ e, ((cmw.Write sink header).1.WriteAll sink values).2 = some e →
      (cmw.WriteOutput sink header values).2 = some e := by
    intro e he
    rw [hdef]
    exact hc2 e (ha1.trans he)
  have hW : ∀ e, (cmw.Write sink header).2 = some e →
      (cmw.WriteOutput sink header values).2 = some e := by
    intro e he
    exact hA e (ha2 e (hw1 e he).1)
  refine ⟨hdef, ?_, hW, hA, ?_, ?_⟩
  · intro hn
    have hwn : (cmw.Write sink header).2 = none := by
      cases h : (cmw.Write sink header).2 with
      | none => rfl
      | some e => rw [hW e h] at hn; cases hn
    have han : ((cmw.Write sink header).1.WriteAll sink values).2 = none := by
      cases h : ((cmw.Write sink header).1.WriteAll sink values).2 with
      | none => rfl
      | some e => rw [hA e h] at hn; cases hn
    rw [hdef] at hn ⊢
    obtain ⟨_, hcl, _, _, hsc⟩ := hc3 hn
    refine ⟨hwn, han, hsc, ?_, hcl⟩
    simp only
    rw [hc1, ha3 han, (hw2 hwn).2]
    simp
  · rw [hdef]
    simp only
    rw [hc1, ha4]
    cases h : (cmw.Write sink header).2 with
    | none =>
      refine ⟨k + 1, ?_⟩
      rw [(hw2 h).2]; simp
    | some e =>
      refine ⟨0, ?_⟩
      have hk := ha5 (by rw [(hw1 e h).1]; simp)
      rw [← ha4, hk, (hw1 e h).2]; simp
  · intro mw hcsv
    have htype : mw.GetOutputType = "csv" := by simp [datawriter.OrionWriter.GetOutputType, hcsv]
    unfold datawriter.OrionWriter.WriteOutput
    simp only [htype]
    have h1 : ¬ (("csv" : String) = "ERROR" ∨ ("csv" : String) = "") := by decide
    simp only [h1, if_false, if_true]
    rcases hR : cmw.WriteOutput sink header values with ⟨cmw1, rerr⟩
    cases rerr with
    | some e => simp
    | none =>
      simp only
      have hn : (cmw.WriteOutput sink header values).2 = none := by rw [hR]
      have h1eq : cmw1 = (((cmw.Write sink header).1.WriteAll sink values).1.Close sink).1 := by
        have := congrArg Prod.fst hR
        rw [hdef] at this
        exact this.symm
      rw [hdef] at hn
      obtain ⟨_, _, herr, hbuf, _⟩ := hc3 hn
      rw [← h1eq] at herr hbuf
      obtain ⟨f1, _, f3, _, _, f6⟩ := datawriter.flushBuffer_result sink cmw1
      unfold datawriter.CSVOrionWriter.Flush
      simp only
      exact ⟨by rw [f3]; exact f6 herr hbuf, f1⟩

/-- Witness of C22: on a file that takes everything the header and the two
rows are accepted in order, the file is closed and nil is returned; on a full
disk the header write fails, no row is accepted, and its error is returned;
when the flush of the rows fails, the error is returned as well. -/
theorem WriteOutput_nil_only_if_all_writes_succeeded_witness :
    datawriter.CSVOrionWriter.new.WriteOutput Example.okSink ["name", "size"]
        [["a.txt", "50"], ["b.txt", "7"]] =
      (⟨none, [["name", "size"], ["a.txt", "50"], ["b.txt", "7"]], false, 5, true⟩, none) ∧
    (datawriter.CSVOrionWriter.new.Write Example.fullSink ["name", "size"]).2 =
      some "no space left on device" ∧
    (datawriter.CSVOrionWriter.new.WriteOutput Example.fullSink ["name", "size"]
      [["a.txt", "50"], ["b.txt", "7"]]).2 = some "no space left on device" ∧
    (datawriter.CSVOrionWriter.new.WriteOutput Example.fullSink ["name", "size"]
      [["a.txt", "50"], ["b.txt", "7"]]).1.records = [] ∧
    (datawriter.CSVOrionWriter.new.Write Example.lateSink ["name", "size"]).2 = none ∧
    (datawriter.CSVOrionWriter.new.WriteOutput Example.lateSink ["name", "size"]
      [["a.txt", "50"], ["b.txt", "7"]]).2 = some "no space left on device" :=
  ⟨by decide, by decide,
    (WriteOutput_nil_only_if_all_writes_succeeded Example.fullSink datawriter.CSVOrionWriter.new
      ["name", "size"] [["a.txt", "50"], ["b.txt", "7"]]).2.2.1 _ (by decide),
    by decide, by decide,
    (WriteOutput_nil_only_if_all_writes_succeeded Example.lateSink datawriter.CSVOrionWriter.new
      ["name", "size"] [["a.txt", "50"], ["b.txt", "7"]]).2.2.2.1 _ (by decide)⟩

/-! ## Chrome timestamps -/

theorem util.chromeSeconds_from_1970 (t : Nat) (h1 : util.chromeEpoch ≤ t)
    (h2 : t < 2 ^ 63 + util.chromeEpoch) :
    util.chromeSeconds t = ((t : Int) - util.chromeEpoch) / util.msToS := by
  unfold util.chromeSeconds util.toInt64 util.chromeEpoch util.msToS at *
  have ht : t % 2 ^ 64 = t := Nat.mod_eq_of_lt (by omega)
  have hsub : (t % 2 ^ 64 + 2 ^ 64 - 11644473600000000) % 2 ^ 64 = t - 11644473600000000 := by
    rw [ht]; omega
  have hmod : (t - 11644473600000000) % 2 ^ 64 = t - 11644473600000000 :=
    Nat.mod_eq_of_lt (by omega)
  rw [hsub, hmod, if_pos (by omega), Int.tdiv_eq_ediv (by omega) (by omega)]
  have hcast : ((t - 11644473600000000 : Nat) : Int) = (t : Int) - (11644473600000000 : Nat) := by
    omega
  rw [hcast]

theorem util.chromeSeconds_before_1970 (t : Nat) (h1 : t < util.chromeEpoch) :
    util.chromeSeconds t = -((((util.chromeEpoch - t : Nat) : Int)) / util.msToS) := by
  unfold util.chromeSeconds util.toInt64 util.chromeEpoch util.msToS at *
  have ht : t % 2 ^ 64 = t := Nat.mod_eq_of_lt (by omega)
  have hsub : (t % 2 ^ 64 + 2 ^ 64 - 11644473600000000) % 2 ^ 64 =
      t + 2 ^ 64 - 11644473600000000 := by
    rw [ht]; omega
  have hmod : (t + 2 ^ 64 - 11644473600000000) % 2 ^ 64 = t + 2 ^ 64 - 11644473600000000 :=
    Nat.mod_eq_of_lt (by omega)
  rw [hsub, hmod, if_neg (by omega)]
  have hneg : ((t + 2 ^ 64 - 11644473600000000 : Nat) : Int) - 2 ^ 64 =
      -(((11644473600000000 - t : Nat) : Int)) := by omega
  rw [hneg, Int.neg_tdiv, Int.tdiv_eq_ediv (by omega) (by omega)]

theorem util.chromeSeconds_off_by_one (t : Nat) (h1 : t < util.chromeEpoch)
    (h2 : (util.chromeEpoch - t) % util.msToS ≠ 0) :
    util.chromeSeconds t = ((t : Int) - util.chromeEpoch) / util.msToS + 1 := by
  rw [util.chromeSeconds_before_1970 t h1]
  unfold util.chromeEpoch util.msToS at *
  omega

set_option maxRecDepth 100000 in
theorem util.ChromeTime_examples :
    util.ChromeTime (.uint64 1) = ("1601-01-01T00:00:01Z", none) ∧
    time.formatRFC3339 (((1 : Int) - util.chromeEpoch) / util.msToS) = "1601-01-01T00:00:00Z" ∧
    util.ChromeTime (.uint64 13000000000000000) = ("2012-12-14T23:06:40Z", none) ∧
    util.ChromeTime (.string "13000000000000000") = ("2012-12-14T23:06:40Z", none) ∧
    util.ChromeTime (.string "00") = ("1601-01-01T00:00:00Z", none) ∧
    strconv.ParseUint "00" = (0, none) ∧
    util.ChromeTime (.string "1x") =
      ("ERROR", some "strconv.ParseUint: parsing \x221x\x22: invalid syntax") ∧
    time.formatRFC3339 0 = "1970-01-01T00:00:00Z" ∧
    time.formatRFC3339 951868799 = "2000-02-29T23:59:59Z" := by
  refine ⟨by decide, by decide, by decide, by decide, by decide, by decide, by decide,
    by decide, by decide⟩

theorem strconv.parseDigits_ge (cs : List Char) (acc m : Nat)
    (h : strconv.parseDigits cs acc = some m) : acc ≤ m := by
  induction cs generalizing acc with
  | nil => simp only [strconv.parseDigits, Option.some.injEq] at h; omega
  | cons c cs ih =>
    simp only [strconv.parseDigits] at h
    cases hd : strconv.digitVal c with
    | none => simp [hd] at h
    | some d =>
      simp only [hd] at h
      have := ih _ h
      omega

theorem strconv.parseUintLoop_of_parseDigits (s : String) (cs : List Char) (n m : Nat)
    (h : strconv.parseDigits cs n = some m) (hm : m ≤ strconv.maxUint64) :
    strconv.parseUintLoop s cs n = (m, none) := by
  induction cs generalizing n with
  | nil =>
    simp only [strconv.parseDigits, Option.some.injEq] at h
    simp [strconv.parseUintLoop, h]
  | cons c cs ih =>
    simp only [strconv.parseDigits] at h
    cases hd : strconv.digitVal c with
    | none => simp [hd] at h
    | some d =>
      simp only [hd] at h
      have hge := strconv.parseDigits_ge _ _ _ h
      have h1 : ¬ n ≥ strconv.maxUint64 / 10 + 1 := by
        unfold strconv.maxUint64 at hm ⊢
        omega
      have h2 : ¬ n * 10 + d > strconv.maxUint64 := by omega
      simp only [strconv.parseUintLoop, hd, h1, h2, if_false]
      exact ih _ h

theorem strconv.ParseUint_repr (t : Nat) (h : t < 2 ^ 64) :
    strconv.ParseUint (Nat.repr t) = (t, none) := by
  have hne : Nat.repr t ≠ "" := by
    intro e
    have := strconv.repr_data_ne_nil t
    rw [e] at this
    exact this rfl
  unfold strconv.ParseUint
  rw [if_neg hne]
  exact strconv.parseUintLoop_of_parseDigits _ _ 0 t (strconv.parseDigits_repr t)
    (by unfold strconv.maxUint64; omega)

/-- C25: for a `uint64` value `t` other than 0, `ChromeTime` renders the second
`int64(t-chromeEpoch)/msToS` with a nil error. From 1970 on (and below
2^63 microseconds after it) that is the second floor((t - chromeEpoch) /
1000000). Before 1970 the division truncates toward zero: for a `t` that is
not a whole second the result is one second later, so that `t = 1` is
rendered "1601-01-01T00:00:01Z" and not "1601-01-01T00:00:00Z". The values
0, "0" and "" give the empty string with a nil error, a string that
`ParseUint` rejects gives "ERROR" with its error, the decimal rendering of a
`t` other than 0 gives what `t` gives, but the string "00", which denotes 0,
is rendered as 1601-01-01. -/
theorem ChromeTime_truncates_toward_zero :
    (∀ t : Nat, t ≠ 0 →
      util.ChromeTime (.uint64 t) = (time.formatRFC3339 (util.chromeSeconds t), none)) ∧
    (∀ t : Nat, util.chromeEpoch ≤ t → t < 2 ^ 63 + util.chromeEpoch →
      util.ChromeTime (.uint64 t) =
        (time.formatRFC3339 (((t : Int) - util.chromeEpoch) / util.msToS), none)) ∧
    (∀ t : Nat, 0 < t → t < util.chromeEpoch → (util.chromeEpoch - t) % util.msToS ≠ 0 →
      util.ChromeTime (.uint64 t) =
        (time.formatRFC3339 (((t : Int) - util.chromeEpoch) / util.msToS + 1), none)) ∧
    (util.ChromeTime (.uint64 1) = ("1601-01-01T00:00:01Z", none) ∧
      time.formatRFC3339 (((1 : Int) - util.chromeEpoch) / util.msToS) =
        "1601-01-01T00:00:00Z") ∧
    (util.ChromeTime (.uint64 0) = ("", none) ∧ util.ChromeTime (.string "0") = ("", none) ∧
      util.ChromeTime (.string "") = ("", none)) ∧
    (∀ s : String, s ≠ "" → s ≠ "0" → (strconv.ParseUint s).2 ≠ none →
      util.ChromeTime (.string s) = ("ERROR", (strconv.ParseUint s).2)) ∧
    (∀ t : Nat, 0 < t → t < 2 ^ 64 →
      util.ChromeTime (.string (Nat.repr t)) = util.ChromeTime (.uint64 t)) ∧
    (strconv.ParseUint "00" = (0, none) ∧
      util.ChromeTime (.string "00") = ("1601-01-01T00:00:00Z", none)) := by
  have hval : ∀ t : Nat, t ≠ 0 →
      util.ChromeTime (.uint64 t) = (time.formatRFC3339 (util.chromeSeconds t), none) := by
    intro t ht
    simp [util.ChromeTime, ht]
  obtain ⟨e1, e2, _, _, e5, e6, _, _, _⟩ := util.ChromeTime_examples
  refine ⟨hval, ?_, ?_, ⟨e1, e2⟩, ⟨by decide, by decide, by decide⟩, ?_, ?_, ⟨e6, e5⟩⟩
  · intro t h1 h2
    have ht : t ≠ 0 := by unfold util.chromeEpoch at h1; omega
    rw [hval t ht, util.chromeSeconds_from_1970 t h1 h2]
  · intro t h0 h1 h2
    rw [hval t (by omega), util.chromeSeconds_off_by_one t h1 h2]
  · intro s h1 h2 h3
    rcases hp : strconv.ParseUint s with ⟨v, perr⟩
    rw [hp] at h3
    cases perr with
    | none => exact absurd rfl h3
    | some e => simp [util.ChromeTime, h1, h2, hp]
  · intro t h0 h1
    have hp := strconv.ParseUint_repr t h1
    have hne : Nat.repr t ≠ "" := by
      intro e
      have := strconv.repr_data_ne_nil t
      rw [e] at this
      exact this rfl
    have hnz : Nat.repr t ≠ "0" := by
      intro e
      have := strconv.parseDigits_repr t
      rw [e] at this
      have h00 : strconv.parseDigits ("0" : String).data 0 = some 0 := by decide
      rw [h00] at this
      simp only [Option.some.injEq] at this
      omega
    rw [hval t (by omega)]
    simp [util.ChromeTime, hne, hnz, hp]
